import Mathlib

/-!
pulse-bloom: heartbeat detector and light animators.

A shallow embedding of `src/pulse.cpp` (an AVR firmware: `int` is 16 bits,
`long` is 32 bits, `float` and `double` are the same 32-bit type).

* Unsigned integers are `Nat`, signed integers are `Int`; every place where
  the C arithmetic can leave the range of its type reduces explicitly.
* The floating-point type is a parameter (`FloatSem`): the statements that
  are quantified over every `FloatSem` do not depend on how the target
  rounds, or on what a conversion of an out-of-range value yields.
  `exact` is the instance over the rationals, without rounding; `binary32`
  is the IEEE 754 arithmetic of the target, with rounding to nearest.
* `millis()` is an input: every call site receives its own reading.
* The uninitialised local `IR_signalSize` of `readPulseSensor` is an input
  of each call (`Tick.garbage`).
* `resetArduino()` (`jmp 0`) does not return: it is the fault `restart`.
-/

namespace PulseBloom

/-! ## Machine arithmetic -/

/-- Conversion to `unsigned long` (32 bits). -/
def u32 (n : Int) : Nat := (n % 4294967296).toNat

/-- Conversion to `unsigned int` / `uint16_t` (16 bits). -/
def u16 (n : Int) : Nat := (n % 65536).toNat

/-- Conversion to `uint8_t`. -/
def u8 (n : Int) : Nat := (n % 256).toNat

/-- Conversion to `int` (16 bits, two's complement). -/
def wrap16 (n : Int) : Int := (n + 32768) % 65536 - 32768

/-- Conversion to `long` (32 bits, two's complement). -/
def wrap32 (n : Int) : Int := (n + 2147483648) % 4294967296 - 2147483648

/-- Subtraction of two `unsigned long` values. -/
def usub (a b : Nat) : Nat := u32 ((a : Int) - (b : Int))

/-- Addition of two `unsigned long` values. -/
def uadd (a b : Nat) : Nat := (a + b) % 4294967296

/-- A reading of `millis()`, an `unsigned long`. -/
def millis (v : Nat) : Nat := v % 4294967296

/-- Arduino's `constrain(amt, low, high)` macro. -/
def constrain (amt low high : Int) : Int :=
  if amt < low then low else if amt > high then high else amt

/-! ## Floating point -/

/-- The operations of the target's floating-point type that the program uses.
`lt a b` is `a < b`, `le a b` is `a <= b`, `toInt` is the C conversion to an
integer type before it is narrowed to the width of the destination. -/
structure FloatSem where
  F : Type
  ofInt : Int → F
  ofRat : ℚ → F
  add : F → F → F
  sub : F → F → F
  mul : F → F → F
  div : F → F → F
  neg : F → F
  lt : F → F → Bool
  le : F → F → Bool
  floor : F → F
  toInt : F → Int

/-- Truncation toward zero of a rational. -/
def truncQ (x : ℚ) : Int := if 0 ≤ x then ⌊x⌋ else ⌈x⌉

/-- Arithmetic without rounding, over the rationals. It agrees with the
target's arithmetic (`binary32`) on finite values up to rounding; division by
zero, which gives a non-finite value on the target, is the total division of
`ℚ` here and no statement about `exact` relies on it. -/
@[reducible]
def exact : FloatSem where
  F := ℚ
  ofInt := fun n => (n : ℚ)
  ofRat := fun q => q
  add := fun a b => a + b
  sub := fun a b => a - b
  mul := fun a b => a * b
  div := fun a b => a / b
  neg := fun a => -a
  lt := fun a b => decide (a < b)
  le := fun a b => decide (a ≤ b)
  floor := fun a => ((⌊a⌋ : Int) : ℚ)
  toInt := truncQ

/-- Modelled from the spec: `smooth`, declared in `smooth.h`, which is not
among the sources. "smooth(raw, alpha, priorSmoothed) → newSmoothed =
priorSmoothed*(1-alpha) + raw*alpha". -/
def smooth (fl : FloatSem) (raw alpha prior : fl.F) : fl.F :=
  fl.add (fl.mul prior (fl.sub (fl.ofInt 1) alpha)) (fl.mul raw alpha)

/-! ## Program state -/

/-- The type `state_app_t`. -/
inductive AppState where
  | STATE_RESTING
  | STATE_STEM_RISING
  | STATE_LED_RISING
  | STATE_LED_FALLING
deriving DecidableEq

/-- One pixel of the strip, as the three 8-bit channels given to
`strip.Color` / `strip.setPixelColor`. -/
structure Colour where
  r : Nat
  g : Nat
  b : Nat
deriving DecidableEq

/-- The value `strip.Color(r, g, b)`: its arguments are `uint8_t`. -/
def Color (r g b : Int) : Colour := ⟨u8 r, u8 g, u8 b⟩

/-- The pixel (0,0,0). -/
def black : Colour := ⟨0, 0, 0⟩

/-- The globals of `pulse.cpp` and the `static` locals of `readPulseSensor`
(the ones the program never reads nor writes, `timer`, `loops`, `IR_total`,
`lastMillis`, `red_smoothRedPeak`, `red_smoothRedValley` and the shadowed
global `binOut`, are left out). `pixels` is the buffer of the NeoPixel strip:
its length is `strip.numPixels()`. `petalRed` is the last value given to
`analogWrite(petalRedPin, _)`. -/
structure State (F : Type) where
  stripLedCount : Int
  currentStripLed : Int
  pixels : List Colour
  ledBrightness : Nat
  beginLedRiseTime : Nat
  endLedRiseTime : Nat
  beginLedFallTime : Nat
  endLedFallTime : Nat
  petalRed : Int
  red : Nat
  IR1 : Nat
  IR2 : Nat
  lastBeat : Nat
  previousBeat : Nat
  latestBpm : Nat
  appState : AppState
  petalState : AppState
  foundNewFinger : Int
  red_signalSize : Int
  red_smoothValley : Int
  red_valley : Int
  red_Peak : Int
  red_HFoutput : Int
  red_smoothPeak : Int
  IR_valley : Int
  IR_peak : Int
  IR_smoothPeak : Int
  IR_smoothValley : Int
  binOut : Int
  lastBinOut : Int
  lastTotal : Nat
  IRtotal : Nat
  valleyTime : Nat
  lastValleyTime : Nat
  peakTime : Nat
  lastPeakTime : Nat
  IR_baseline : F
  red_baseline : F
  IR_HFoutput : F
  IR_HFoutput2 : F
  shiftedOutput : F
  LFoutput : F
  hysterisis : F

/-- The constant `NUMBER_OF_STEM_LEDS`. -/
def NUMBER_OF_STEM_LEDS : Nat := 300

/-- The constant `STEM_PULSE_WIDTH`. -/
def STEM_PULSE_WIDTH : Int := 20

/-- The constant `SAMPLES_TO_AVERAGE`. -/
def SAMPLES_TO_AVERAGE : Nat := 5

/-- The state when `setup` starts: every global and static is zero, the strip
has `NUMBER_OF_STEM_LEDS` pixels. -/
def boot (fl : FloatSem) : State fl.F where
  stripLedCount := 0
  currentStripLed := 0
  pixels := List.replicate NUMBER_OF_STEM_LEDS black
  ledBrightness := 0
  beginLedRiseTime := 0
  endLedRiseTime := 0
  beginLedFallTime := 0
  endLedFallTime := 0
  petalRed := 0
  red := 0
  IR1 := 0
  IR2 := 0
  lastBeat := 0
  previousBeat := 0
  latestBpm := 0
  appState := AppState.STATE_RESTING
  petalState := AppState.STATE_RESTING
  foundNewFinger := 0
  red_signalSize := 0
  red_smoothValley := 0
  red_valley := 0
  red_Peak := 0
  red_HFoutput := 0
  red_smoothPeak := 0
  IR_valley := 0
  IR_peak := 0
  IR_smoothPeak := 0
  IR_smoothValley := 0
  binOut := 0
  lastBinOut := 0
  lastTotal := 0
  IRtotal := 0
  valleyTime := 0
  lastValleyTime := 0
  peakTime := 0
  lastPeakTime := 0
  IR_baseline := fl.ofInt 0
  red_baseline := fl.ofInt 0
  IR_HFoutput := fl.ofInt 0
  IR_HFoutput2 := fl.ofInt 0
  shiftedOutput := fl.ofInt 0
  LFoutput := fl.ofInt 0
  hysterisis := fl.ofInt 0

/-! ## The strip -/

/-- The call `strip.setPixelColor(n, c)`: `n` is converted to `uint16_t`, and
a pixel outside the strip is ignored. -/
def setPixelColor (px : List Colour) (n : Int) (c : Colour) : List Colour :=
  if u16 n < px.length then px.set (u16 n) c else px

/-- The loop `for (int i=0; i < stripLedCount; i++) strip.setPixelColor(i, 0, 0, 0);`
of `clearStemLeds` and of the end of `runStemRising`. -/
def clearPixels (count : Int) (px : List Colour) : List Colour :=
  (List.range count.toNat).foldl (fun p (i : Nat) => setPixelColor p (i : Int) black) px

/-- The function `clearStemLeds`. -/
def clearStemLeds {F : Type} (s : State F) : State F :=
  { s with pixels := clearPixels s.stripLedCount s.pixels }

/-- The function `newHeartbeat`. -/
def newHeartbeat {F : Type} (s : State F) : State F :=
  { clearStemLeds s with currentStripLed := 0 }

/-- The part of `setup` that touches the modelled state. -/
def setup {F : Type} (s : State F) : State F :=
  clearStemLeds
    { s with
      petalRed := 0
      appState := AppState.STATE_RESTING
      petalState := AppState.STATE_RESTING
      stripLedCount := (s.pixels.length : Int) }

/-- The state in which `loop` runs for the first time. -/
def initState (fl : FloatSem) : State fl.F := setup (boot fl)

/-! ## The beat detector -/

/-- What ends a call without a return value: `resetArduino()` (a jump to
address 0, after which the program starts again from its initial state), or
the integer division by zero of line 496. -/
inductive Fault where
  | restart
  | divByZero
deriving DecidableEq

/-- The three channels that one `pulse.fetchLedData()` leaves in
`pulse.ps1`, `pulse.ps2`, `pulse.ps3`. -/
structure Fetch where
  ps1 : Nat
  ps2 : Nat
  ps3 : Nat

/-- The inputs of one call of `readPulseSensor`: the results of the
successive fetches of the burst, the indeterminate content of the
uninitialised local `IR_signalSize` (line 368), and the reading of each
`millis()` call, named after its line in `pulse.cpp` (the reading of line
373 is stored in `start` and never used). -/
structure Tick where
  fetch : Nat → Fetch
  garbage : Int
  ms361 : Nat
  ms362 : Nat
  ms363 : Nat
  ms364 : Nat
  ms441 : Nat
  ms448 : Nat
  ms454 : Nat
  ms457 : Nat
  ms476 : Nat
  ms485 : Nat
  ms495 : Nat

/-- The sum that the loop of lines 375-381 accumulates in an `unsigned long`
for one channel. -/
def burstSum (t : Tick) (channel : Fetch → Nat) : Nat :=
  (List.range SAMPLES_TO_AVERAGE).foldl (fun acc i => uadd acc (channel (t.fetch i))) 0

/-- The average of lines 383-385: the loop leaves `i = SAMPLES_TO_AVERAGE`. -/
def average (t : Tick) (channel : Fetch → Nat) : Nat :=
  burstSum t channel / SAMPLES_TO_AVERAGE

/-- The value of `total` (line 386). -/
def totalOf (t : Tick) : Nat :=
  uadd (uadd (average t Fetch.ps2) (average t Fetch.ps3)) (average t Fetch.ps1)

/-- The value of `IRtotal` (line 387). -/
def irTotalOf (t : Tick) : Nat :=
  uadd (average t Fetch.ps2) (average t Fetch.ps3)

/-- Lines 361-364: the four timers are set on the first call. -/
def lazyTimers {F : Type} (s : State F) (t : Tick) : State F :=
  { s with
    valleyTime := if s.valleyTime = 0 then millis t.ms361 else s.valleyTime
    lastValleyTime := if s.lastValleyTime = 0 then millis t.ms362 else s.lastValleyTime
    peakTime := if s.peakTime = 0 then millis t.ms363 else s.peakTime
    lastPeakTime := if s.lastPeakTime = 0 then millis t.ms364 else s.lastPeakTime }

/-- Lines 406 and 411, on the presence counter `foundNewFinger`: a total that
rises from below 20000 to above 20000 sets it to 1, then it is incremented,
and kept at 25 at most. -/
def nextFound (lastTotal total : Nat) (found : Int) : Int :=
  let found0 : Int := if lastTotal < 20000 ∧ total > 20000 then 1 else found
  let found1 : Int := wrap16 (found0 + 1)
  if found1 > 25 then 25 else found1

/-- Lines 369-387 and 406-411: the averaged sample is stored, a new finger
restarts the presence counter, and the counter is incremented up to 25. -/
def presence {F : Type} (s : State F) (t : Tick) : State F :=
  { s with
    red := average t Fetch.ps1
    IR1 := average t Fetch.ps2
    IR2 := average t Fetch.ps3
    IRtotal := irTotalOf t
    lastTotal := totalOf t
    foundNewFinger := nextFound s.lastTotal (totalOf t) s.foundNewFinger }

/-- Lines 424-435: baselines, high and low frequency outputs, and the shifted
output, which reads the local `IR_signalSize` before anything is assigned to
it. -/
def filters (fl : FloatSem) (s : State fl.F) (t : Tick) : State fl.F :=
  let irBaseline := smooth fl (fl.ofInt s.IRtotal) (fl.ofRat (99 / 100)) s.IR_baseline
  let irHF := smooth fl (fl.sub (fl.ofInt s.IRtotal) irBaseline) (fl.ofRat (2 / 10)) s.IR_HFoutput
  let redBaseline := smooth fl (fl.ofInt s.red) (fl.ofRat (99 / 100)) s.red_baseline
  let redHF : Int :=
    wrap32 (fl.toInt (smooth fl (fl.ofInt (usub s.red (u32 s.red_HFoutput))) (fl.ofRat (2 / 10))
      (fl.ofInt s.red_HFoutput)))
  let lf := smooth fl (fl.sub (fl.ofInt s.IRtotal) irBaseline) (fl.ofRat (95 / 100)) s.LFoutput
  { s with
    IR_baseline := irBaseline
    IR_HFoutput := irHF
    red_baseline := redBaseline
    red_HFoutput := redHF
    IR_HFoutput2 := fl.add irHF s.hysterisis
    LFoutput := lf
    shiftedOutput := fl.sub lf (fl.mul (fl.ofInt (wrap16 t.garbage)) (fl.ofRat (5 / 100))) }

/-- Lines 437-449: running peaks, and their default reset after 1800 ms. -/
def trackPeak (fl : FloatSem) (s : State fl.F) (t : Tick) : State fl.F :=
  let irPeak : Int :=
    if fl.lt (fl.ofInt s.IR_peak) s.IR_HFoutput then wrap16 (fl.toInt s.IR_HFoutput) else s.IR_peak
  let redPeak : Int := if s.red_HFoutput > s.red_Peak then s.red_HFoutput else s.red_Peak
  if usub (millis t.ms441) s.lastPeakTime > 1800 then
    { s with
      IR_smoothPeak :=
        wrap16 (fl.toInt (smooth fl (fl.ofInt irPeak) (fl.ofRat (6 / 10)) (fl.ofInt s.IR_smoothPeak)))
      IR_peak := 0
      red_smoothPeak :=
        wrap32 (fl.toInt (smooth fl (fl.ofInt redPeak) (fl.ofRat (6 / 10)) (fl.ofInt s.red_smoothPeak)))
      red_Peak := 0
      lastPeakTime := millis t.ms448 }
  else
    { s with IR_peak := irPeak, red_Peak := redPeak }

/-- Lines 451-458: running valleys, and their default reset after 1800 ms. -/
def trackValley (fl : FloatSem) (s : State fl.F) (t : Tick) : State fl.F :=
  let irValley : Int :=
    if fl.lt s.IR_HFoutput (fl.ofInt s.IR_valley) then wrap16 (fl.toInt s.IR_HFoutput) else s.IR_valley
  let redValley : Int := if s.red_HFoutput < s.red_valley then s.red_HFoutput else s.red_valley
  if usub (millis t.ms454) s.lastValleyTime > 1800 then
    { s with
      IR_smoothValley :=
        wrap16 (fl.toInt (smooth fl (fl.ofInt irValley) (fl.ofRat (6 / 10)) (fl.ofInt s.IR_smoothValley)))
      IR_valley := 0
      red_valley := redValley
      lastValleyTime := millis t.ms457 }
  else
    { s with IR_valley := irValley, red_valley := redValley }

/-- The hysteresis of line 460, computed from the local `IR_signalSize`, which
still holds its indeterminate initial content there. -/
def hysteresisOf (t : Tick) : Int := constrain (Int.tdiv (wrap16 t.garbage) 15) 35 120

/-- Lines 460-486: the threshold test. In a beat the hysteresis is negated
and the valleys are smoothed, otherwise the peaks are. The value assigned to
the local `IR_signalSize` at line 469 is only printed. -/
def classify (fl : FloatSem) (s : State fl.F) (t : Tick) : State fl.F :=
  if fl.lt s.IR_HFoutput2 s.shiftedOutput then
    let redSmoothValley : Int :=
      wrap16 (fl.toInt (smooth fl (fl.ofInt s.red_valley) (fl.ofRat (99 / 100))
        (fl.ofInt s.red_smoothValley)))
    { s with
      lastBinOut := s.binOut
      binOut := 1
      hysterisis := fl.neg (fl.ofInt (hysteresisOf t))
      IR_smoothValley :=
        wrap16 (fl.toInt (smooth fl (fl.ofInt s.IR_valley) (fl.ofRat (99 / 100))
          (fl.ofInt s.IR_smoothValley)))
      IR_valley := 32767
      red_smoothValley := redSmoothValley
      red_signalSize := wrap16 (wrap32 (s.red_smoothPeak - redSmoothValley))
      red_valley := 32767
      lastValleyTime := millis t.ms476 }
  else
    { s with
      lastBinOut := s.binOut
      binOut := 0
      hysterisis := fl.ofInt (hysteresisOf t)
      IR_smoothPeak :=
        wrap16 (fl.toInt (smooth fl (fl.ofInt s.IR_peak) (fl.ofRat (99 / 100))
          (fl.ofInt s.IR_smoothPeak)))
      IR_peak := 0
      red_smoothPeak :=
        wrap32 (fl.toInt (smooth fl (fl.ofInt s.red_Peak) (fl.ofRat (99 / 100))
          (fl.ofInt s.red_smoothPeak)))
      red_Peak := 0
      lastPeakTime := millis t.ms485 }

/-- Lines 488-507: the edge of `binOut` decides the event. On a rising edge
the beat times are shifted and the BPM is the quotient of two 32-bit unsigned
values (`60000` does not fit an `int`, so it is a `long`), stored in an
`unsigned int`; then `newHeartbeat` runs. -/
def edge {F : Type} (s : State F) (t : Tick) : Except Fault (Int × State F) :=
  if s.lastBinOut = 1 ∧ s.binOut = 0 then
    Except.ok (-1, s)
  else if s.lastBinOut = 0 ∧ s.binOut = 1 then
    let interval := usub (millis t.ms495) s.lastBeat
    if interval = 0 then
      Except.error Fault.divByZero
    else
      Except.ok (1, newHeartbeat
        { s with
          previousBeat := s.lastBeat
          lastBeat := millis t.ms495
          latestBpm := u16 ((60000 / interval : Nat) : Int) })
  else
    Except.ok (0, s)

/-- The main running function, lines 424-507. -/
def running (fl : FloatSem) (s : State fl.F) (t : Tick) : Except Fault (Int × State fl.F) :=
  edge (classify fl (trackValley fl (trackPeak fl (filters fl s t) t) t) t) t

/-- The function `readPulseSensor`. It returns 1 for a beat start, -1 for a
beat end and 0 otherwise. -/
def readPulseSensor (fl : FloatSem) (s : State fl.F) (t : Tick) :
    Except Fault (Int × State fl.F) :=
  let s0 := lazyTimers s t
  if average t Fetch.ps1 = 0 ∧ average t Fetch.ps2 = 0 ∧ average t Fetch.ps3 = 0 then
    Except.error Fault.restart
  else
    let s1 := presence s0 t
    if s1.foundNewFinger < 20 then
      Except.ok (0, { s1 with IR_baseline := fl.ofInt (usub s1.lastTotal 200) })
    else if s1.lastTotal > 20000 then
      running fl s1 t
    else
      Except.ok (0, s1)

/-! ## The animators -/

/-- Arduino's `min(a, b)` macro, `((a)<(b)?(a):(b))`, on signed values. -/
def cmin (a b : Int) : Int := if a < b then a else b

/-- Arduino's `max(a, b)` macro, `((a)>(b)?(a):(b))`, on signed values. -/
def cmax (a b : Int) : Int := if a > b then a else b

/-- The value of `int bpm = max(min(latestBpm, 100), 45);` (lines 227, 275 and
317): `latestBpm` is an `unsigned int`, so both comparisons are unsigned. -/
def clampBpm (latestBpm : Nat) : Int :=
  let low : Nat := if latestBpm < 100 then latestBpm else 100
  let bpm : Nat := if low > 45 then low else 45
  wrap16 (bpm : Int)

/-- The value of `nextBeat` in `runStemRising` (line 228). -/
def stemNextBeat (fl : FloatSem) (s : State fl.F) : Nat :=
  u32 (fl.toInt (fl.add (fl.ofInt s.lastBeat)
    (fl.div (fl.ofRat 60000) (fl.div (fl.ofInt (clampBpm s.latestBpm)) (fl.ofRat (1 / 2))))))

/-- The value of `nextBeat` in `beginLedRising` and `beginLedFalling` (lines
276 and 318), which is only printed. -/
def ledNextBeat (fl : FloatSem) (s : State fl.F) : Nat :=
  u32 (fl.toInt (fl.add (fl.ofInt s.lastBeat)
    (fl.div (fl.ofRat 60000) (fl.ofInt (clampBpm s.latestBpm)))))

/-- The value of `millisToNextBeat` (lines 229, 296 and 329). -/
def millisTo (now target : Nat) : Nat := if now > target then 0 else usub target now

/-- The value of `progress` (lines 232, 299 and 332): the sum is an
`unsigned long` before it is converted. -/
def progressOf (fl : FloatSem) (millisFromLastBeat millisToNextBeat : Nat) : fl.F :=
  fl.div (fl.ofInt millisFromLastBeat) (fl.ofInt (uadd millisFromLastBeat millisToNextBeat))

/-- The values of `i` in the loops `for (int i = -1*STEM_PULSE_WIDTH; i < STEM_PULSE_WIDTH; i++)`. -/
def pulseWindow : List Int :=
  (List.range (2 * STEM_PULSE_WIDTH).toNat).map (fun (k : Nat) => (k : Int) - STEM_PULSE_WIDTH)

/-- The loop of lines 242-244, which resets the pixels around the old index. -/
def resetWindow (count cur : Int) (px : List Colour) : List Colour :=
  pulseWindow.foldl (fun p i => setPixelColor p (cmin (count - 1) (wrap16 (cur + i))) (Color 0 0 0)) px

/-- The red level of line 255, `(int)floor(255.0/(abs(i)+1))`. -/
def fadeLevel (fl : FloatSem) (i : Int) : Int :=
  wrap16 (fl.toInt (fl.floor (fl.div (fl.ofRat 255) (fl.ofInt (|i| + 1)))))

/-- The loop of lines 249-257, which paints the pixels around the new index. -/
def paintWindow (fl : FloatSem) (count cur : Int) (px : List Colour) : List Colour :=
  pulseWindow.foldl
    (fun p i =>
      if wrap16 (cur + i) < 0 ∨ wrap16 (cur + i) > count then p
      else setPixelColor p (cmin (count - 1) (wrap16 (cur + i))) (Color (fadeLevel fl i) 0 0))
    px

/-- The value of `progress` in `runStemRising` at the clock reading `now`. -/
def stemProgress (fl : FloatSem) (s : State fl.F) (now : Nat) : fl.F :=
  progressOf fl (usub (millis now) s.lastBeat) (millisTo (millis now) (stemNextBeat fl s))

/-- The function `runStemRising`; `now` is the reading of `millis()`. -/
def runStemRising (fl : FloatSem) (s : State fl.F) (now : Nat) : Bool × State fl.F :=
  let progress := stemProgress fl s now
  let newLed : Int := wrap16 (fl.toInt (fl.floor (fl.mul progress (fl.ofInt s.stripLedCount))))
  let s1 : State fl.F :=
    if s.currentStripLed ≠ newLed then
      { s with
        pixels := paintWindow fl s.stripLedCount newLed
          (resetWindow s.stripLedCount s.currentStripLed s.pixels)
        currentStripLed := newLed }
    else s
  if s1.currentStripLed = s1.stripLedCount ∨ fl.le (fl.ofRat 1) progress = true then
    (true, { s1 with currentStripLed := 0, pixels := clearPixels s1.stripLedCount s1.pixels })
  else
    (false, s1)

/-- The function `beginLedRising`; `now` is the reading of `millis()`. -/
def beginLedRising {F : Type} (s : State F) (now : Nat) : State F :=
  let begin1 := if millis now > s.endLedRiseTime then millis now else s.beginLedRiseTime
  let begin2 :=
    if millis now < s.endLedFallTime then usub begin1 (usub 600 s.endLedFallTime) else begin1
  { s with beginLedRiseTime := begin2, endLedRiseTime := uadd begin2 300 }

/-- The value of `progress` in `runLedRising` at the clock reading `now`. -/
def riseProgress (fl : FloatSem) (s : State fl.F) (now : Nat) : fl.F :=
  progressOf fl (usub (millis now) s.beginLedRiseTime) (millisTo (millis now) s.endLedRiseTime)

/-- The brightness of line 307, `max(8, min((int)floor(255 * progress), 255))`. -/
def riseBrightness (fl : FloatSem) (progress : fl.F) : Int :=
  cmax 8 (cmin (wrap16 (fl.toInt (fl.floor (fl.mul (fl.ofInt 255) progress)))) 255)

/-- The function `runLedRising`; `now` is the reading of `millis()`. The
brightness is stored in the `uint16_t ledBrightness`, which is then given to
`analogWrite` as an `int`. -/
def runLedRising (fl : FloatSem) (s : State fl.F) (now : Nat) : Bool × State fl.F :=
  let progress := riseProgress fl s now
  let brightness := u16 (riseBrightness fl progress)
  (fl.le (fl.ofRat 1) progress, { s with ledBrightness := brightness, petalRed := wrap16 brightness })

/-- The function `beginLedFalling`; `now` is the reading of `millis()`. -/
def beginLedFalling {F : Type} (s : State F) (now : Nat) : State F :=
  { s with beginLedFallTime := millis now, endLedFallTime := uadd (millis now) 600 }

/-- The value of `progress` in `runLedFalling` at the clock reading `now`. -/
def fallProgress (fl : FloatSem) (s : State fl.F) (now : Nat) : fl.F :=
  progressOf fl (usub (millis now) s.beginLedFallTime) (millisTo (millis now) s.endLedFallTime)

/-- The brightness of line 338, `max(255 - (int)floor(255 * progress), 8)`. -/
def fallBrightness (fl : FloatSem) (progress : fl.F) : Int :=
  cmax (wrap16 (255 - wrap16 (fl.toInt (fl.floor (fl.mul (fl.ofInt 255) progress))))) 8

/-- The function `runLedFalling`; `now` is the reading of `millis()`. -/
def runLedFalling (fl : FloatSem) (s : State fl.F) (now : Nat) : Bool × State fl.F :=
  let progress := fallProgress fl s now
  let brightness := u16 (fallBrightness fl progress)
  (fl.le (fl.ofRat 1) progress, { s with ledBrightness := brightness, petalRed := wrap16 brightness })

/-! ## The 32-bit floating-point type of the target -/

/-- Rounding of a rational to the nearest integer, ties to the even one. -/
def roundEven (m : ℚ) : Int :=
  if m - ⌊m⌋ < 1 / 2 then ⌊m⌋
  else if 1 / 2 < m - ⌊m⌋ then ⌊m⌋ + 1
  else if ⌊m⌋ % 2 = 0 then ⌊m⌋ else ⌊m⌋ + 1

/-- The spacing of the binary32 values at the magnitude `a`: `2^(e-23)` when
`2^e <= a < 2^(e+1)` (24 significant bits), and `2^(-149)` below `2^(-126)`
(subnormal values). -/
def quantum (a : ℚ) : ℚ := (2 : ℚ) ^ (max (Int.log 2 a) (-126) - 23)

/-- The binary32 value nearest to a rational, ties to even, before overflow is
looked at. -/
def round32 (x : ℚ) : ℚ := roundEven (x / quantum |x|) * quantum |x|

/-- The values of the IEEE 754 binary32 type: the finite ones (as rationals),
the two infinities and NaN. The sign of zero is not kept: in this arithmetic
it only decides the sign of a quotient by zero. -/
inductive B32 where
  | fin (q : ℚ)
  | inf (negative : Bool)
  | nan

/-- Rounding of the exact result of an operation: a result that rounds to
`2^128` or beyond in magnitude overflows to an infinity. -/
def B32.ofRat (x : ℚ) : B32 :=
  if |round32 x| < (2 : ℚ) ^ (128 : Nat) then B32.fin (round32 x) else B32.inf (decide (x < 0))

/-- Negation. -/
def B32.neg : B32 → B32
  | B32.fin a => B32.fin (-a)
  | B32.inf s => B32.inf (!s)
  | B32.nan => B32.nan

/-- Addition. -/
def B32.add : B32 → B32 → B32
  | B32.fin a, B32.fin b => B32.ofRat (a + b)
  | B32.fin _, B32.inf s => B32.inf s
  | B32.inf s, B32.fin _ => B32.inf s
  | B32.inf s, B32.inf t => if s = t then B32.inf s else B32.nan
  | _, _ => B32.nan

/-- Multiplication. -/
def B32.mul : B32 → B32 → B32
  | B32.fin a, B32.fin b => B32.ofRat (a * b)
  | B32.fin a, B32.inf s => if a = 0 then B32.nan else B32.inf (xor s (decide (a < 0)))
  | B32.inf s, B32.fin b => if b = 0 then B32.nan else B32.inf (xor s (decide (b < 0)))
  | B32.inf s, B32.inf t => B32.inf (xor s t)
  | _, _ => B32.nan

/-- Division. -/
def B32.div : B32 → B32 → B32
  | B32.fin a, B32.fin b =>
    if b = 0 then (if a = 0 then B32.nan else B32.inf (decide (a < 0))) else B32.ofRat (a / b)
  | B32.fin _, B32.inf _ => B32.fin 0
  | B32.inf s, B32.fin b => B32.inf (xor s (decide (b < 0)))
  | _, _ => B32.nan

/-- The comparison `a < b`, false when an operand is NaN. -/
def B32.lt : B32 → B32 → Bool
  | B32.fin a, B32.fin b => decide (a < b)
  | B32.fin _, B32.inf s => !s
  | B32.inf s, B32.fin _ => s
  | B32.inf s, B32.inf t => s && !t
  | _, _ => false

/-- The comparison `a <= b`, false when an operand is NaN. -/
def B32.le : B32 → B32 → Bool
  | B32.fin a, B32.fin b => decide (a ≤ b)
  | B32.fin _, B32.inf s => !s
  | B32.inf s, B32.fin _ => s
  | B32.inf s, B32.inf t => s || !t
  | _, _ => false

/-- The function `floor`, whose result is a binary32 value without rounding. -/
def B32.floor : B32 → B32
  | B32.fin a => B32.fin ((⌊a⌋ : Int) : ℚ)
  | x => x

/-- The C conversion to an integer type, which truncates toward zero. The
conversion of an infinity or of NaN, which C leaves undefined, gives 0 here. -/
def B32.toInt : B32 → Int
  | B32.fin a => truncQ a
  | _ => 0

/-- The IEEE 754 binary32 arithmetic with rounding to nearest, ties to even:
the `float` and the `double` of the target. Integers and decimal constants
are converted by rounding. -/
@[reducible]
def binary32 : FloatSem where
  F := B32
  ofInt := fun n => B32.ofRat (n : ℚ)
  ofRat := B32.ofRat
  add := B32.add
  sub := fun a b => B32.add a (B32.neg b)
  mul := B32.mul
  div := B32.div
  neg := B32.neg
  lt := B32.lt
  le := B32.le
  floor := B32.floor
  toInt := B32.toInt

/-! ## Runs of the detector -/

/-- The events that successive calls of `readPulseSensor` return, from the
state `s`, one call for each element of `ticks`. A call that does not return
(restart, or division by zero) ends the run. -/
def runEvents (fl : FloatSem) : State fl.F → List Tick → List Int
  | _, [] => []
  | s, t :: ts =>
    match readPulseSensor fl s t with
    | Except.error _ => []
    | Except.ok (ev, s1) => ev :: runEvents fl s1 ts

/-- The state after successive calls of `readPulseSensor` from `s`, one call
for each element of `ticks`, when all of them return. -/
def runState (fl : FloatSem) : State fl.F → List Tick → Option (State fl.F)
  | s, [] => some s
  | s, t :: ts =>
    match readPulseSensor fl s t with
    | Except.error _ => none
    | Except.ok (_, s1) => runState fl s1 ts

/-- The fault that ends the run of `ticks` from `s`, if a call does not return. -/
def runFault (fl : FloatSem) : State fl.F → List Tick → Option Fault
  | _, [] => none
  | s, t :: ts =>
    match readPulseSensor fl s t with
    | Except.error e => some e
    | Except.ok (_, s1) => runFault fl s1 ts

/-- A tick whose five fetches all return `f`, whose local `IR_signalSize`
holds `g`, and during which every `millis()` call reads `ms`. -/
def tickAt (f : Fetch) (g : Int) (ms : Nat) : Tick where
  fetch := fun _ => f
  garbage := g
  ms361 := ms
  ms362 := ms
  ms363 := ms
  ms364 := ms
  ms441 := ms
  ms448 := ms
  ms454 := ms
  ms457 := ms
  ms476 := ms
  ms485 := ms
  ms495 := ms

/-- A finger on the sensor: red 100, IR1 20000, IR2 20001 at every fetch,
the local `IR_signalSize` holding 0, every clock reading 1000. -/
def steady : Tick := tickAt ⟨100, 20000, 20001⟩ 0 1000

/-- The state that `edge` receives in a running call. -/
def classified (fl : FloatSem) (s : State fl.F) (t : Tick) : State fl.F :=
  classify fl (trackValley fl (trackPeak fl (filters fl (presence (lazyTimers s t) t) t) t) t) t

/-- The threshold test of line 463, on the values that the filters of the
call leave. -/
def inBeat (fl : FloatSem) (s : State fl.F) (t : Tick) : Bool :=
  fl.lt (filters fl (presence (lazyTimers s t) t) t).IR_HFoutput2
    (filters fl (presence (lazyTimers s t) t) t).shiftedOutput

/-- The averaged sample is (0,0,0). -/
def zeroSample (t : Tick) : Prop :=
  average t Fetch.ps1 = 0 ∧ average t Fetch.ps2 = 0 ∧ average t Fetch.ps3 = 0

instance (t : Tick) : Decidable (zeroSample t) := by
  unfold zeroSample; infer_instance

/-! ## The fields that decide the events -/

/-- The fields of the state that the events and the BPM depend on. The
running peaks and valleys and the red channel are not among them: the program
never reads back what it derives from them. -/
structure Decisive (F : Type) where
  found : Int
  lastTotal : Nat
  baseline : F
  hf : F
  lf : F
  hyst : F
  binOut : Int
  lastBeat : Nat
  previousBeat : Nat
  latestBpm : Nat

/-- The decisive fields of a state. -/
def decisive {F : Type} (s : State F) : Decisive F where
  found := s.foundNewFinger
  lastTotal := s.lastTotal
  baseline := s.IR_baseline
  hf := s.IR_HFoutput
  lf := s.LFoutput
  hyst := s.hysterisis
  binOut := s.binOut
  lastBeat := s.lastBeat
  previousBeat := s.previousBeat
  latestBpm := s.latestBpm

/-- The effect of lines 424-435 on the decisive fields. -/
def filtersD (fl : FloatSem) (d : Decisive fl.F) (t : Tick) : Decisive fl.F :=
  let base := smooth fl (fl.ofInt (irTotalOf t)) (fl.ofRat (99 / 100)) d.baseline
  { d with
    found := nextFound d.lastTotal (totalOf t) d.found
    lastTotal := totalOf t
    baseline := base
    hf := smooth fl (fl.sub (fl.ofInt (irTotalOf t)) base) (fl.ofRat (2 / 10)) d.hf
    lf := smooth fl (fl.sub (fl.ofInt (irTotalOf t)) base) (fl.ofRat (95 / 100)) d.lf }

/-- The threshold test of line 463, from the decisive fields before the call:
`IR_HFoutput + hysterisis < LFoutput - IR_signalSize * .05`. -/
def beatD (fl : FloatSem) (d : Decisive fl.F) (t : Tick) : Bool :=
  fl.lt (fl.add (filtersD fl d t).hf d.hyst)
    (fl.sub (filtersD fl d t).lf (fl.mul (fl.ofInt (wrap16 t.garbage)) (fl.ofRat (5 / 100))))

/-- The effect of lines 424-486 on the decisive fields. -/
def classifyD (fl : FloatSem) (d : Decisive fl.F) (t : Tick) : Decisive fl.F :=
  { filtersD fl d t with
    hyst := if beatD fl d t = true
      then fl.neg (fl.ofInt (hysteresisOf t)) else fl.ofInt (hysteresisOf t)
    binOut := if beatD fl d t = true then 1 else 0 }

/-- The effect of lines 488-507 on the decisive fields; `last` is `lastBinOut`. -/
def edgeD {F : Type} (last : Int) (d : Decisive F) (t : Tick) : Except Fault (Int × Decisive F) :=
  if last = 1 ∧ d.binOut = 0 then Except.ok (-1, d)
  else if last = 0 ∧ d.binOut = 1 then
    if usub (millis t.ms495) d.lastBeat = 0 then Except.error Fault.divByZero
    else
      Except.ok (1, { d with
        previousBeat := d.lastBeat
        lastBeat := millis t.ms495
        latestBpm := u16 ((60000 / usub (millis t.ms495) d.lastBeat : Nat) : Int) })
  else Except.ok (0, d)

/-- The effect of one call of `readPulseSensor` on the decisive fields
(`readPulseSensor_decisive` proves that it is). -/
def stepD (fl : FloatSem) (d : Decisive fl.F) (t : Tick) : Except Fault (Int × Decisive fl.F) :=
  if zeroSample t then Except.error Fault.restart
  else if nextFound d.lastTotal (totalOf t) d.found < 20 then
    Except.ok (0, { d with
      found := nextFound d.lastTotal (totalOf t) d.found
      lastTotal := totalOf t
      baseline := fl.ofInt (usub (totalOf t) 200) })
  else if totalOf t > 20000 then
    edgeD d.binOut (classifyD fl d t) t
  else
    Except.ok (0, { d with
      found := nextFound d.lastTotal (totalOf t) d.found
      lastTotal := totalOf t })

/-- The events, the fault and the final decisive fields of a run of `stepD`. -/
def runD (fl : FloatSem) : Decisive fl.F → List Tick → List Int × Option Fault × Option (Decisive fl.F)
  | d, [] => ([], none, some d)
  | d, t :: ts =>
    match stepD fl d t with
    | Except.error e => ([], some e, none)
    | Except.ok (ev, d1) => (ev :: (runD fl d1 ts).1, (runD fl d1 ts).2)


/-! ## Concrete inputs -/

/-- The sample of a finger on the sensor: red 100, IR1 20000, IR2 20001. -/
def fingerFetch : Fetch := ⟨100, 20000, 20001⟩

/-- Every fetch of the tick returns `fingerFetch`. -/
def Finger (t : Tick) : Prop := t.fetch = fun _ => fingerFetch

/-- The decisive fields while the filters are primed on `fingerFetch`, the
presence counter being `k`. -/
def primed (k : Int) : Decisive ℚ := ⟨k, 40101, 39901, 0, 0, 0, 0, 0, 0, 0⟩

/-- The finger is half lifted: red 100, IR1 15000, IR2 15001, at 1400 ms. -/
def dropTick : Tick := tickAt ⟨100, 15000, 15001⟩ 0 1400

/-- The finger is back, at 1800 ms. -/
def backTick : Tick := tickAt fingerFetch 0 1800

/-- Nineteen ticks of a steady finger, then `dropTick`, then `backTick`. -/
def threeEdges : List Tick := List.replicate 19 steady ++ [dropTick, backTick]

/-- A finger on the sensor just before the 32-bit clock wraps around. -/
def lateTick : Tick := tickAt fingerFetch 0 4294967290

/-- A finger on the sensor while the clock wraps around: the readings of
`millis()` are 4294967295 until line 485, and the reading of line 495 is 0. -/
def wrapTick : Tick := { tickAt fingerFetch 0 4294967295 with ms495 := 4294967296 }

/-- Eighteen ticks of a finger before the clock wraps, then `wrapTick`. -/
def wrapRun : List Tick := List.replicate 18 lateTick ++ [wrapTick]

/-- A detector that has seen no finger for a long time: the presence counter
is at its cap and the last total is 3. -/
def idleState : State exact.F := { initState exact with foundNewFinger := 25, lastTotal := 3 }

/-- A sample whose total is exactly 20000: red 6666, IR1 6667, IR2 6667. -/
def edgeTick : Tick := tickAt ⟨6666, 6667, 6667⟩ 0 1000

/-- A petal whose fall window starts at 1256 ms and ends at 1768 ms. -/
def earlyFall : State exact.F :=
  { initState exact with beginLedFallTime := 1256, endLedFallTime := 1768 }

/-- A petal whose fall window starts at 1000 ms and ends at 1600 ms. -/
def midFall : State exact.F :=
  { initState exact with beginLedFallTime := 1000, endLedFallTime := 1600 }

/-- A stem whose last beat was at 1000 ms, at 60 BPM: the pulse takes 500 ms. -/
def stemAt60 : State exact.F := { initState exact with lastBeat := 1000, latestBpm := 60 }


/-! ## The orchestrator -/

/-- The readings of the `millis()` calls that one pass of `loop` can make
outside `readPulseSensor`, named after their line: in `runStemRising` (226),
`beginLedRising` (277), `runLedRising` (295), `beginLedFalling` (322) and
`runLedFalling` (328). -/
structure LoopClock where
  ms226 : Nat
  ms277 : Nat
  ms295 : Nat
  ms322 : Nat
  ms328 : Nat

/-- Lines 178-186 of `loop`: a positive `sensorOn` forces the stem state;
otherwise a stem in progress makes one step and, when it is done, the petal
rise begins. -/
def stemPhase (fl : FloatSem) (sensorOn : Int) (s : State fl.F) (c : LoopClock) : State fl.F :=
  if sensorOn > 0 then
    { s with appState := AppState.STATE_STEM_RISING }
  else if s.appState = AppState.STATE_STEM_RISING then
    if (runStemRising fl s c.ms226).1 = true then
      beginLedRising
        { (runStemRising fl s c.ms226).2 with appState := AppState.STATE_LED_RISING } c.ms277
    else (runStemRising fl s c.ms226).2
  else s

/-- The test of line 188: a petal rising step runs in this pass. -/
def risingRuns {F : Type} (s : State F) : Prop :=
  s.appState = AppState.STATE_LED_RISING ∨ s.petalState = AppState.STATE_LED_RISING

instance {F : Type} (s : State F) : Decidable (risingRuns s) := by
  unfold risingRuns; infer_instance

/-- Lines 188-201 of `loop`: one step of the petal rise, or else one step of
the petal fall. -/
def petalPhase (fl : FloatSem) (s : State fl.F) (c : LoopClock) : State fl.F :=
  if risingRuns s then
    if (runLedRising fl s c.ms295).1 = true then
      beginLedFalling
        { (runLedRising fl s c.ms295).2 with
          appState :=
            if (runLedRising fl s c.ms295).2.appState = AppState.STATE_LED_RISING
            then AppState.STATE_LED_FALLING else (runLedRising fl s c.ms295).2.appState
          petalState := AppState.STATE_LED_FALLING } c.ms322
    else (runLedRising fl s c.ms295).2
  else if s.appState = AppState.STATE_LED_FALLING ∨ s.petalState = AppState.STATE_LED_FALLING then
    if (runLedFalling fl s c.ms328).1 = true then
      { (runLedFalling fl s c.ms328).2 with
        appState :=
          if (runLedFalling fl s c.ms328).2.appState = AppState.STATE_LED_FALLING
          then AppState.STATE_RESTING else (runLedFalling fl s c.ms328).2.appState
        petalState := AppState.STATE_RESTING }
    else (runLedFalling fl s c.ms328).2
  else s

/-- The function `loop`: one pass. It does not end when `readPulseSensor`
does not return. -/
def loop (fl : FloatSem) (s : State fl.F) (t : Tick) (c : LoopClock) : Except Fault (State fl.F) :=
  match readPulseSensor fl s t with
  | Except.error e => Except.error e
  | Except.ok (sensorOn, s1) => Except.ok (petalPhase fl (stemPhase fl sensorOn s1 c) c)

/-- The states that the program reaches from `setup` by passes of `loop`,
with any samples and clock readings. A pass that restarts the device leads
back to the state after `setup`. -/
inductive Reachable (fl : FloatSem) : State fl.F → Prop where
  | setup : Reachable fl (initState fl)
  | pass (s s1 : State fl.F) (t : Tick) (c : LoopClock) :
      Reachable fl s → loop fl s t c = Except.ok s1 → Reachable fl s1


/-- The tick `steady` with the local `IR_signalSize` holding 3000. -/
def loudTick : Tick := tickAt fingerFetch 3000 1000

/-- A petal whose fall began at 9600 ms. -/
def fallingPetal : State exact.F := beginLedFalling (initState exact) 9600


/-- A petal whose fall began 296 ms before the 32-bit clock wraps around. -/
def lateFall : State exact.F := beginLedFalling (initState exact) 4294967000


/-! ## The fields of the animators -/

/-- The fields of the state that belong to the orchestrator and to the two
animators. `readPulseSensor` writes them only through `newHeartbeat`. -/
structure Outer where
  stripLedCount : Int
  currentStripLed : Int
  pixels : List Colour
  appState : AppState
  petalState : AppState
  ledBrightness : Nat
  petalRed : Int
  beginLedRiseTime : Nat
  endLedRiseTime : Nat
  beginLedFallTime : Nat
  endLedFallTime : Nat

/-- The animator fields of a state. -/
def outer {F : Type} (s : State F) : Outer where
  stripLedCount := s.stripLedCount
  currentStripLed := s.currentStripLed
  pixels := s.pixels
  appState := s.appState
  petalState := s.petalState
  ledBrightness := s.ledBrightness
  petalRed := s.petalRed
  beginLedRiseTime := s.beginLedRiseTime
  endLedRiseTime := s.endLedRiseTime
  beginLedFallTime := s.beginLedFallTime
  endLedFallTime := s.endLedFallTime

/-- The effect of `newHeartbeat` on the animator fields. -/
def heartbeatO (o : Outer) : Outer :=
  { o with pixels := clearPixels o.stripLedCount o.pixels, currentStripLed := 0 }

/-- A clock for `loop` in which every reading is `ms`. -/
def clockAt (ms : Nat) : LoopClock := ⟨ms, ms, ms, ms, ms⟩

/-- A state whose detector is primed, with the presence counter at 19; the
petal is rising and the stem pulse is at pixel 120, which is lit. -/
def risingPrimed : State exact.F :=
  { initState exact with
    foundNewFinger := 19
    lastTotal := 40101
    IR_baseline := 39901
    appState := AppState.STATE_LED_RISING
    petalState := AppState.STATE_LED_RISING
    currentStripLed := 120
    pixels := (initState exact).pixels.set 120 ⟨255, 0, 0⟩ }

/-! ## The stem on its own -/

/-- The value of `newLed` in `runStemRising` (line 234) at the clock reading
`now`. -/
def stemNewLed (fl : FloatSem) (s : State fl.F) (now : Nat) : Int :=
  wrap16 (fl.toInt (fl.floor (fl.mul (stemProgress fl s now) (fl.ofInt s.stripLedCount))))

/-- The strip after lines 240-260 of `runStemRising`: repainted when the
index moves. -/
def stemPainted (fl : FloatSem) (s : State fl.F) (now : Nat) : List Colour :=
  if s.currentStripLed ≠ stemNewLed fl s now then
    paintWindow fl s.stripLedCount (stemNewLed fl s now)
      (resetWindow s.stripLedCount s.currentStripLed s.pixels)
  else s.pixels

/-- Every pixel that is not (0,0,0) lies in the window of the pulse, from
`currentStripLed - STEM_PULSE_WIDTH` to `currentStripLed + STEM_PULSE_WIDTH - 1`. -/
def litInWindow {F : Type} (s : State F) : Prop :=
  ∀ (p : Nat) (c : Colour), s.pixels[p]? = some c → c ≠ black →
    s.currentStripLed - STEM_PULSE_WIDTH ≤ (p : Int) ∧
    (p : Int) ≤ s.currentStripLed + STEM_PULSE_WIDTH - 1

/-- The states of the stem that calls of `newHeartbeat` and `runStemRising`
reach from a cleared strip with the index at 0. `stripLedCount` is the `int`
that holds the length of the strip. The clock reading of a call is any
value, and between two calls the detector may store any beat times and any
BPM (lines 493-496). A call of `runStemRising` whose progress has a zero
denominator is left out: its progress is not a finite value on the target. -/
inductive StemReachable (fl : FloatSem) : State fl.F → Prop where
  | start (s : State fl.F) :
      s.stripLedCount = (s.pixels.length : Int) → s.pixels.length ≤ 32767 →
      (∀ c ∈ s.pixels, c = black) → s.currentStripLed = 0 → StemReachable fl s
  | heartbeat (s : State fl.F) : StemReachable fl s → StemReachable fl (newHeartbeat s)
  | beat (s : State fl.F) (previousBeat lastBeat latestBpm : Nat) :
      StemReachable fl s →
      StemReachable fl
        { s with previousBeat := previousBeat, lastBeat := lastBeat, latestBpm := latestBpm }
  | step (s : State fl.F) (now : Nat) :
      StemReachable fl s →
      0 < uadd (usub (millis now) s.lastBeat) (millisTo (millis now) (stemNextBeat fl s)) →
      StemReachable fl (runStemRising fl s now).2

/-- The stem in binary32 arithmetic after 4 hours and 40 minutes: the last
beat was at 16777219 ms (just above 2^24), at 60 BPM. -/
def lateStem : State binary32.F :=
  { initState binary32 with lastBeat := 16777219, latestBpm := 60 }

/-- The stem in binary32 arithmetic whose last beat was at 1000 ms, at 60
BPM. -/
def earlyStem : State binary32.F := { initState binary32 with lastBeat := 1000, latestBpm := 60 }

/-! # Theorems -/
/-! ## Lemmas on the detector -/

theorem filters_binOut (fl : FloatSem) (s : State fl.F) (t : Tick) :
    (filters fl s t).binOut = s.binOut := rfl

theorem trackPeak_binOut (fl : FloatSem) (s : State fl.F) (t : Tick) :
    (trackPeak fl s t).binOut = s.binOut := by
  simp only [trackPeak]; split_ifs <;> rfl

theorem trackValley_binOut (fl : FloatSem) (s : State fl.F) (t : Tick) :
    (trackValley fl s t).binOut = s.binOut := by
  simp only [trackValley]; split_ifs <;> rfl

theorem classify_lastBinOut (fl : FloatSem) (s : State fl.F) (t : Tick) :
    (classify fl s t).lastBinOut = s.binOut := by
  simp only [classify]; split_ifs <;> rfl

theorem classify_binOut (fl : FloatSem) (s : State fl.F) (t : Tick) :
    (classify fl s t).binOut = if fl.lt s.IR_HFoutput2 s.shiftedOutput = true then 1 else 0 := by
  simp only [classify]; split_ifs <;> rfl

theorem newHeartbeat_binOut {F : Type} (s : State F) : (newHeartbeat s).binOut = s.binOut := rfl

/-- What `edge` returns, in terms of the two classifications it compares. -/
theorem edge_ok {F : Type} (s : State F) (t : Tick) (ev : Int) (s1 : State F)
    (h : edge s t = Except.ok (ev, s1))
    (hl : s.lastBinOut = 0 ∨ s.lastBinOut = 1) (hb : s.binOut = 0 ∨ s.binOut = 1) :
    s1.binOut = s.binOut ∧ ev = s.binOut - s.lastBinOut := by
  simp only [edge] at h
  split_ifs at h with h1 h2 h3
  · simp only [Except.ok.injEq, Prod.mk.injEq] at h
    obtain ⟨rfl, rfl⟩ := h
    simp [h1.1, h1.2]
  · simp only [Except.ok.injEq, Prod.mk.injEq] at h
    obtain ⟨rfl, rfl⟩ := h
    simp [h2.1, h2.2, newHeartbeat_binOut]
  · simp only [Except.ok.injEq, Prod.mk.injEq] at h
    obtain ⟨rfl, rfl⟩ := h
    refine ⟨rfl, ?_⟩
    rcases hl with hl | hl <;> rcases hb with hb | hb <;> simp_all

/-- One returning call moves `binOut` inside 0, 1 and returns the difference
between its new and its old value. -/
theorem readPulseSensor_event (fl : FloatSem) (s : State fl.F) (t : Tick) (ev : Int)
    (s1 : State fl.F) (h : readPulseSensor fl s t = Except.ok (ev, s1))
    (hb : s.binOut = 0 ∨ s.binOut = 1) :
    (s1.binOut = 0 ∨ s1.binOut = 1) ∧ ev = s1.binOut - s.binOut := by
  unfold readPulseSensor at h
  simp only at h
  split_ifs at h with h0 h1 h2
  · cases h; exact ⟨hb, by simp [presence, lazyTimers]⟩
  · unfold running at h
    have hlast := classify_lastBinOut fl
      (trackValley fl (trackPeak fl (filters fl (presence (lazyTimers s t) t) t) t) t) t
    rw [trackValley_binOut, trackPeak_binOut, filters_binOut] at hlast
    have hold : (presence (lazyTimers s t) t).binOut = s.binOut := rfl
    rw [hold] at hlast
    have hnew := classify_binOut fl
      (trackValley fl (trackPeak fl (filters fl (presence (lazyTimers s t) t) t) t) t) t
    have hnew01 : (classify fl (trackValley fl (trackPeak fl
        (filters fl (presence (lazyTimers s t) t) t) t) t) t).binOut = 0 ∨
        (classify fl (trackValley fl (trackPeak fl
        (filters fl (presence (lazyTimers s t) t) t) t) t) t).binOut = 1 := by
      rw [hnew]; split <;> simp
    obtain ⟨e1, e2⟩ := edge_ok _ t ev s1 h (by rw [hlast]; exact hb) hnew01
    rw [hlast] at e2
    rw [e1]
    exact ⟨hnew01, e2⟩
  · cases h; exact ⟨hb, by simp [presence, lazyTimers]⟩

theorem runEvents_cons_ok (fl : FloatSem) (s s1 : State fl.F) (t : Tick) (ts : List Tick)
    (ev : Int) (h : readPulseSensor fl s t = Except.ok (ev, s1)) :
    runEvents fl s (t :: ts) = ev :: runEvents fl s1 ts := by
  simp only [runEvents, h]

theorem runEvents_cons_error (fl : FloatSem) (s : State fl.F) (t : Tick) (ts : List Tick)
    (e : Fault) (h : readPulseSensor fl s t = Except.error e) :
    runEvents fl s (t :: ts) = [] := by
  simp only [runEvents, h]

/-- From a state inside a beat, a beat start is preceded by a beat end. -/
theorem start_after_high (fl : FloatSem) (ticks : List Tick) :
    ∀ (s : State fl.F) (m b : List Int), s.binOut = 1 →
      runEvents fl s ticks = m ++ 1 :: b → (-1 : Int) ∈ m := by
  induction ticks with
  | nil => intro s m b _ h; simp [runEvents] at h
  | cons t ts ih =>
    intro s m b hs h
    cases hr : readPulseSensor fl s t with
    | error e => rw [runEvents_cons_error fl s t ts e hr] at h; simp at h
    | ok r =>
      obtain ⟨ev, s1⟩ := r
      rw [runEvents_cons_ok fl s s1 t ts ev hr] at h
      obtain ⟨h01, hev⟩ := readPulseSensor_event fl s t ev s1 hr (Or.inr hs)
      cases m with
      | nil =>
        simp only [List.nil_append, List.cons.injEq] at h
        omega
      | cons e m1 =>
        simp only [List.cons_append, List.cons.injEq] at h
        obtain ⟨rfl, h2⟩ := h
        by_cases he : ev = -1
        · simp [he]
        · have hs1 : s1.binOut = 1 := by omega
          exact List.mem_cons_of_mem _ (ih s1 m1 b hs1 h2)

/-- From a state outside a beat, a beat end is preceded by a beat start. -/
theorem end_after_low (fl : FloatSem) (ticks : List Tick) :
    ∀ (s : State fl.F) (m b : List Int), s.binOut = 0 →
      runEvents fl s ticks = m ++ (-1) :: b → (1 : Int) ∈ m := by
  induction ticks with
  | nil => intro s m b _ h; simp [runEvents] at h
  | cons t ts ih =>
    intro s m b hs h
    cases hr : readPulseSensor fl s t with
    | error e => rw [runEvents_cons_error fl s t ts e hr] at h; simp at h
    | ok r =>
      obtain ⟨ev, s1⟩ := r
      rw [runEvents_cons_ok fl s s1 t ts ev hr] at h
      obtain ⟨h01, hev⟩ := readPulseSensor_event fl s t ev s1 hr (Or.inl hs)
      cases m with
      | nil =>
        simp only [List.nil_append, List.cons.injEq] at h
        omega
      | cons e m1 =>
        simp only [List.cons_append, List.cons.injEq] at h
        obtain ⟨rfl, h2⟩ := h
        by_cases he : ev = 1
        · simp [he]
        · have hs1 : s1.binOut = 0 := by omega
          exact List.mem_cons_of_mem _ (ih s1 m1 b hs1 h2)

/-- Between two events of the same kind there is one of the other kind, from
every state whose `binOut` is 0 or 1. -/
theorem alternate_from (fl : FloatSem) (ticks : List Tick) :
    ∀ (s : State fl.F) (a m b : List Int), (s.binOut = 0 ∨ s.binOut = 1) →
      (runEvents fl s ticks = a ++ 1 :: (m ++ 1 :: b) → (-1 : Int) ∈ m) ∧
      (runEvents fl s ticks = a ++ (-1) :: (m ++ (-1) :: b) → (1 : Int) ∈ m) := by
  induction ticks with
  | nil => intro s a m b _; constructor <;> intro h <;> simp [runEvents] at h
  | cons t ts ih =>
    intro s a m b hs
    cases hr : readPulseSensor fl s t with
    | error e =>
      rw [runEvents_cons_error fl s t ts e hr]
      constructor <;> intro h <;> simp at h
    | ok r =>
      obtain ⟨ev, s1⟩ := r
      rw [runEvents_cons_ok fl s s1 t ts ev hr]
      obtain ⟨h01, hev⟩ := readPulseSensor_event fl s t ev s1 hr hs
      cases a with
      | nil =>
        simp only [List.nil_append, List.cons.injEq]
        constructor
        · rintro ⟨rfl, h2⟩
          exact start_after_high fl ts s1 m b (by omega) h2
        · rintro ⟨rfl, h2⟩
          exact end_after_low fl ts s1 m b (by omega) h2
      | cons e a1 =>
        simp only [List.cons_append, List.cons.injEq]
        constructor
        · rintro ⟨_, h2⟩
          exact (ih s1 a1 m b h01).1 h2
        · rintro ⟨_, h2⟩
          exact (ih s1 a1 m b h01).2 h2

theorem initState_binOut (fl : FloatSem) : (initState fl).binOut = 0 := rfl

theorem trackPeak_IR_HFoutput2 (fl : FloatSem) (s : State fl.F) (t : Tick) :
    (trackPeak fl s t).IR_HFoutput2 = s.IR_HFoutput2 := by
  simp only [trackPeak]; split_ifs <;> rfl

theorem trackPeak_shiftedOutput (fl : FloatSem) (s : State fl.F) (t : Tick) :
    (trackPeak fl s t).shiftedOutput = s.shiftedOutput := by
  simp only [trackPeak]; split_ifs <;> rfl

theorem trackPeak_lastBeat (fl : FloatSem) (s : State fl.F) (t : Tick) :
    (trackPeak fl s t).lastBeat = s.lastBeat := by
  simp only [trackPeak]; split_ifs <;> rfl

theorem trackValley_IR_HFoutput2 (fl : FloatSem) (s : State fl.F) (t : Tick) :
    (trackValley fl s t).IR_HFoutput2 = s.IR_HFoutput2 := by
  simp only [trackValley]; split_ifs <;> rfl

theorem trackValley_shiftedOutput (fl : FloatSem) (s : State fl.F) (t : Tick) :
    (trackValley fl s t).shiftedOutput = s.shiftedOutput := by
  simp only [trackValley]; split_ifs <;> rfl

theorem trackValley_lastBeat (fl : FloatSem) (s : State fl.F) (t : Tick) :
    (trackValley fl s t).lastBeat = s.lastBeat := by
  simp only [trackValley]; split_ifs <;> rfl

theorem classify_lastBeat (fl : FloatSem) (s : State fl.F) (t : Tick) :
    (classify fl s t).lastBeat = s.lastBeat := by
  simp only [classify]; split_ifs <;> rfl

theorem classified_lastBeat (fl : FloatSem) (s : State fl.F) (t : Tick) :
    (classified fl s t).lastBeat = s.lastBeat := by
  simp only [classified, classify_lastBeat, trackValley_lastBeat, trackPeak_lastBeat]
  rfl

theorem classified_lastBinOut (fl : FloatSem) (s : State fl.F) (t : Tick) :
    (classified fl s t).lastBinOut = s.binOut := by
  simp only [classified, classify_lastBinOut, trackValley_binOut, trackPeak_binOut]
  rfl

theorem classified_binOut (fl : FloatSem) (s : State fl.F) (t : Tick) :
    (classified fl s t).binOut = if inBeat fl s t = true then 1 else 0 := by
  simp only [classified, classify_binOut, trackValley_IR_HFoutput2, trackValley_shiftedOutput,
    trackPeak_IR_HFoutput2, trackPeak_shiftedOutput, inBeat]
/-! ## Rounding to binary32 -/

theorem roundEven_bounds (m : ℚ) : ⌊m⌋ ≤ roundEven m ∧ roundEven m ≤ ⌊m⌋ + 1 := by
  unfold roundEven
  split_ifs <;> omega

theorem roundEven_intCast (k : Int) : roundEven (k : ℚ) = k := by
  unfold roundEven
  rw [Int.floor_intCast, sub_self, if_pos (by norm_num)]

theorem roundEven_mono (m n : ℚ) (h : m ≤ n) : roundEven m ≤ roundEven n := by
  have hf : ⌊m⌋ ≤ ⌊n⌋ := Int.floor_mono h
  rcases lt_or_eq_of_le hf with hlt | heq
  · have := (roundEven_bounds m).2
    have := (roundEven_bounds n).1
    omega
  · unfold roundEven
    rw [← heq]
    have hr : m - ⌊m⌋ ≤ n - ⌊m⌋ := by linarith
    split_ifs <;> first | omega | (exfalso; linarith)

theorem roundEven_le (m : ℚ) (k : Int) (h : m ≤ k) : roundEven m ≤ k := by
  have := roundEven_mono m k h
  rwa [roundEven_intCast] at this

theorem le_roundEven (m : ℚ) (k : Int) (h : (k : ℚ) ≤ m) : k ≤ roundEven m := by
  have := roundEven_mono k m h
  rwa [roundEven_intCast] at this

theorem quantum_pos (a : ℚ) : 0 < quantum a := by
  unfold quantum
  positivity

/-- The binade of a positive rational. -/
theorem binade (a : ℚ) (ha : 0 < a) :
    (2 : ℚ) ^ Int.log 2 a ≤ a ∧ a < (2 : ℚ) ^ (Int.log 2 a + 1) := by
  have h1 := Int.zpow_log_le_self (b := 2) (by norm_num) ha
  have h2 := Int.lt_zpow_succ_log_self (b := 2) (by norm_num) a
  simpa using And.intro h1 h2

theorem log_eq (a : ℚ) (e : Int) (h1 : (2 : ℚ) ^ e ≤ a) (h2 : a < (2 : ℚ) ^ (e + 1)) :
    Int.log 2 a = e := by
  have ha : 0 < a := lt_of_lt_of_le (by positivity) h1
  have h3 : e ≤ Int.log 2 a := (Int.zpow_le_iff_le_log (b := 2) (by norm_num) ha).mp (by simpa using h1)
  have h4 : Int.log 2 a < e + 1 := (Int.lt_zpow_iff_log_lt (b := 2) (by norm_num) ha).mp (by simpa using h2)
  omega

/-- The exponent of the spacing at the magnitude `a`. -/
theorem quantum_exp (a : ℚ) (ha : 0 < a) :
    a < (2 : ℚ) ^ (max (Int.log 2 a) (-126) + 1) ∧
    (-126 ≤ Int.log 2 a → (2 : ℚ) ^ (max (Int.log 2 a) (-126)) ≤ a) := by
  obtain ⟨h1, h2⟩ := binade a ha
  constructor
  · refine lt_of_lt_of_le h2 ?_
    exact zpow_le_zpow_right₀ (by norm_num) (by omega)
  · intro h
    rw [max_eq_left h]
    exact h1

theorem round32_zero : round32 0 = 0 := by
  unfold round32
  rw [zero_div]
  have : roundEven 0 = 0 := by simpa using roundEven_intCast 0
  rw [this]
  simp

theorem round32_nonneg (x : ℚ) (hx : 0 ≤ x) : 0 ≤ round32 x := by
  unfold round32
  have hq := quantum_pos |x|
  have h0 : (0 : Int) ≤ roundEven (x / quantum |x|) :=
    le_roundEven _ 0 (by simpa using div_nonneg hx (le_of_lt hq))
  have : (0 : ℚ) ≤ (roundEven (x / quantum |x|) : ℚ) := by exact_mod_cast h0
  exact mul_nonneg this (le_of_lt hq)

/-- A positive rational rounds to at most the end of its binade. -/
theorem round32_le_top (x : ℚ) (hx : 0 < x) :
    round32 x ≤ (2 : ℚ) ^ (max (Int.log 2 x) (-126) + 1) := by
  unfold round32
  rw [abs_of_pos hx]
  have hq := quantum_pos x
  obtain ⟨h1, _⟩ := quantum_exp x hx
  have hsplit : (2 : ℚ) ^ (max (Int.log 2 x) (-126) + 1) = ((16777216 : Int) : ℚ) * quantum x := by
    unfold quantum
    have : ((16777216 : Int) : ℚ) = (2 : ℚ) ^ (24 : Int) := by norm_num
    rw [this, ← zpow_add₀ (by norm_num)]
    congr 1
    ring
  rw [hsplit]
  apply mul_le_mul_of_nonneg_right _ (le_of_lt hq)
  have : roundEven (x / quantum x) ≤ 16777216 := by
    apply roundEven_le
    rw [div_le_iff₀ hq, ← hsplit]
    exact le_of_lt h1
  exact_mod_cast this

/-- A normal positive rational rounds to at least the start of its binade. -/
theorem round32_ge_bottom (x : ℚ) (hx : 0 < x) (hn : -126 ≤ Int.log 2 x) :
    (2 : ℚ) ^ (Int.log 2 x) ≤ round32 x := by
  unfold round32
  rw [abs_of_pos hx]
  have hq := quantum_pos x
  obtain ⟨_, h2⟩ := quantum_exp x hx
  have h2 := h2 hn
  rw [max_eq_left hn] at h2
  have hsplit : (2 : ℚ) ^ (Int.log 2 x) = ((8388608 : Int) : ℚ) * quantum x := by
    unfold quantum
    rw [max_eq_left hn]
    have : ((8388608 : Int) : ℚ) = (2 : ℚ) ^ (23 : Int) := by norm_num
    rw [this, ← zpow_add₀ (by norm_num)]
    congr 1
    ring
  rw [hsplit]
  apply mul_le_mul_of_nonneg_right _ (le_of_lt hq)
  have : 8388608 ≤ roundEven (x / quantum x) := by
    apply le_roundEven
    rw [le_div_iff₀ hq, ← hsplit]
    exact h2
  exact_mod_cast this

/-- Rounding is monotone on the rationals that are not negative. -/
theorem round32_mono (x y : ℚ) (hx : 0 ≤ x) (hxy : x ≤ y) : round32 x ≤ round32 y := by
  rcases eq_or_lt_of_le hx with h0 | hpos
  · rw [← h0, round32_zero]
    exact round32_nonneg y (le_trans hx hxy)
  · have hy : 0 < y := lt_of_lt_of_le hpos hxy
    have hlog : Int.log 2 x ≤ Int.log 2 y := Int.log_mono_right hpos hxy
    by_cases he : max (Int.log 2 x) (-126) = max (Int.log 2 y) (-126)
    · have hq : quantum x = quantum y := by unfold quantum; rw [he]
      unfold round32
      rw [abs_of_pos hpos, abs_of_pos hy, hq]
      apply mul_le_mul_of_nonneg_right _ (le_of_lt (quantum_pos y))
      have := roundEven_mono (x / quantum y) (y / quantum y)
        (div_le_div_of_nonneg_right hxy (le_of_lt (quantum_pos y)))
      exact_mod_cast this
    · have hlt : max (Int.log 2 x) (-126) < Int.log 2 y := by
        generalize Int.log 2 x = a at he hlog ⊢
        generalize Int.log 2 y = b at he hlog ⊢
        omega
      have hn : -126 ≤ Int.log 2 y := by
        have := le_max_right (Int.log 2 x) (-126)
        omega
      calc round32 x ≤ (2 : ℚ) ^ (max (Int.log 2 x) (-126) + 1) := round32_le_top x hpos
        _ ≤ (2 : ℚ) ^ (Int.log 2 y) := zpow_le_zpow_right₀ (by norm_num) (by omega)
        _ ≤ round32 y := round32_ge_bottom y hy hn

/-- A rational `k * 2^j` with fewer than 24 significant bits, at or above the
smallest spacing, is a binary32 value: rounding leaves it alone. -/
theorem round32_scaled (k j : Int) (hk : |k| < 16777216) (hj : -149 ≤ j) :
    round32 ((k : ℚ) * (2 : ℚ) ^ j) = (k : ℚ) * (2 : ℚ) ^ j := by
  rcases eq_or_ne k 0 with h0 | h0
  · rw [h0]; simp [round32_zero]
  · have hp : (0 : ℚ) < (2 : ℚ) ^ j := by positivity
    have habs : |(k : ℚ) * (2 : ℚ) ^ j| = (|k| : Int) * (2 : ℚ) ^ j := by
      rw [abs_mul, abs_of_pos hp, Int.cast_abs]
    have hk0 : (0 : ℚ) < ((|k| : Int) : ℚ) := by exact_mod_cast abs_pos.mpr h0
    have ha : 0 < |(k : ℚ) * (2 : ℚ) ^ j| := by rw [habs]; exact mul_pos hk0 hp
    have hlt : |(k : ℚ) * (2 : ℚ) ^ j| < (2 : ℚ) ^ (j + 24) := by
      rw [habs, zpow_add₀ (by norm_num), mul_comm]
      apply mul_lt_mul_of_pos_left _ hp
      have : ((|k| : Int) : ℚ) < ((16777216 : Int) : ℚ) := by exact_mod_cast hk
      calc ((|k| : Int) : ℚ) < ((16777216 : Int) : ℚ) := this
        _ = (2 : ℚ) ^ (24 : Int) := by norm_num
    have he : Int.log 2 |(k : ℚ) * (2 : ℚ) ^ j| < j + 24 :=
      (Int.lt_zpow_iff_log_lt (b := 2) (by norm_num) ha).mp (by simpa using hlt)
    have hm : max (Int.log 2 |(k : ℚ) * (2 : ℚ) ^ j|) (-126) - 23 ≤ j := by
      generalize Int.log 2 |(k : ℚ) * (2 : ℚ) ^ j| = e at he ⊢
      omega
    unfold round32 quantum
    generalize max (Int.log 2 |(k : ℚ) * (2 : ℚ) ^ j|) (-126) - 23 = m at hm ⊢
    obtain ⟨t, ht⟩ : ∃ t : Nat, j = m + (t : Int) := ⟨(j - m).toNat, by omega⟩
    have hpm : (0 : ℚ) < (2 : ℚ) ^ m := by positivity
    have hdiv : (k : ℚ) * (2 : ℚ) ^ j / (2 : ℚ) ^ m = ((k * 2 ^ t : Int) : ℚ) := by
      rw [ht, zpow_add₀ (by norm_num), zpow_natCast]
      push_cast
      field_simp
      ring
    rw [hdiv, roundEven_intCast, ← hdiv]
    field_simp

/-! ### The four ways a call of the detector ends -/

theorem readPulseSensor_zero (fl : FloatSem) (s : State fl.F) (t : Tick) (h : zeroSample t) :
    readPulseSensor fl s t = Except.error Fault.restart := by
  unfold zeroSample at h
  simp only [readPulseSensor, h, and_self, if_true]

theorem readPulseSensor_priming (fl : FloatSem) (s : State fl.F) (t : Tick) (h : ¬ zeroSample t)
    (hp : (presence (lazyTimers s t) t).foundNewFinger < 20) :
    readPulseSensor fl s t = Except.ok (0,
      { presence (lazyTimers s t) t with IR_baseline := fl.ofInt (usub (totalOf t) 200) }) := by
  unfold zeroSample at h
  simp only [readPulseSensor, h, if_false, hp, if_true]
  rfl

theorem readPulseSensor_running (fl : FloatSem) (s : State fl.F) (t : Tick) (h : ¬ zeroSample t)
    (hp : ¬ (presence (lazyTimers s t) t).foundNewFinger < 20) (ht : totalOf t > 20000) :
    readPulseSensor fl s t = edge (classified fl s t) t := by
  unfold zeroSample at h
  have ht1 : (presence (lazyTimers s t) t).lastTotal > 20000 := ht
  simp only [readPulseSensor, h, if_false, hp, ht1, if_true]
  rfl

theorem readPulseSensor_idle (fl : FloatSem) (s : State fl.F) (t : Tick) (h : ¬ zeroSample t)
    (hp : ¬ (presence (lazyTimers s t) t).foundNewFinger < 20) (ht : ¬ totalOf t > 20000) :
    readPulseSensor fl s t = Except.ok (0, presence (lazyTimers s t) t) := by
  unfold zeroSample at h
  have ht1 : ¬ (presence (lazyTimers s t) t).lastTotal > 20000 := ht
  simp only [readPulseSensor, h, if_false, hp, ht1]

/-- A call that returns 1 went through the rising edge of lines 493-507. -/
theorem edge_one {F : Type} (s : State F) (t : Tick) (s1 : State F)
    (h : edge s t = Except.ok (1, s1)) :
    usub (millis t.ms495) s.lastBeat ≠ 0 ∧
    s1 = newHeartbeat
      { s with
        previousBeat := s.lastBeat
        lastBeat := millis t.ms495
        latestBpm := u16 ((60000 / usub (millis t.ms495) s.lastBeat : Nat) : Int) } := by
  simp only [edge] at h
  split_ifs at h with h1 h2 h3
  · simp only [Except.ok.injEq, Prod.mk.injEq] at h
    omega
  · simp only [Except.ok.injEq, Prod.mk.injEq] at h
    exact ⟨h3, h.2.symm⟩
  · simp only [Except.ok.injEq, Prod.mk.injEq] at h
    omega

/-- A call that returns 1 is a running call. -/
theorem readPulseSensor_one (fl : FloatSem) (s : State fl.F) (t : Tick) (s1 : State fl.F)
    (h : readPulseSensor fl s t = Except.ok (1, s1)) :
    edge (classified fl s t) t = Except.ok (1, s1) := by
  by_cases hz : zeroSample t
  · rw [readPulseSensor_zero fl s t hz] at h; cases h
  · by_cases hp : (presence (lazyTimers s t) t).foundNewFinger < 20
    · rw [readPulseSensor_priming fl s t hz hp] at h
      simp only [Except.ok.injEq, Prod.mk.injEq] at h
      omega
    · by_cases ht : totalOf t > 20000
      · rw [readPulseSensor_running fl s t hz hp ht] at h; exact h
      · rw [readPulseSensor_idle fl s t hz hp ht] at h
        simp only [Except.ok.injEq, Prod.mk.injEq] at h
        omega

theorem u16_small (n : Nat) (h : n < 65536) : u16 (n : Int) = n := by
  unfold u16; omega

theorem usub_of_le (a b : Nat) (h : b ≤ a) (ha : a < 4294967296) : usub a b = a - b := by
  unfold usub u32; omega

theorem millis_small (v : Nat) (h : v < 4294967296) : millis v = v := by
  unfold millis; omega

/-! ### The decisive fields -/

theorem decisive_trackPeak (fl : FloatSem) (s : State fl.F) (t : Tick) :
    decisive (trackPeak fl s t) = decisive s := by
  simp only [trackPeak]; split_ifs <;> rfl

theorem decisive_trackValley (fl : FloatSem) (s : State fl.F) (t : Tick) :
    decisive (trackValley fl s t) = decisive s := by
  simp only [trackValley]; split_ifs <;> rfl

theorem decisive_classify (fl : FloatSem) (s : State fl.F) (t : Tick) :
    decisive (classify fl s t) =
      { decisive s with
        hyst := if fl.lt s.IR_HFoutput2 s.shiftedOutput = true
          then fl.neg (fl.ofInt (hysteresisOf t)) else fl.ofInt (hysteresisOf t)
        binOut := if fl.lt s.IR_HFoutput2 s.shiftedOutput = true then 1 else 0 } := by
  simp only [classify]; split_ifs <;> rfl

theorem decisive_classified (fl : FloatSem) (s : State fl.F) (t : Tick) :
    decisive (classified fl s t) = classifyD fl (decisive s) t := by
  simp only [classified, decisive_classify, decisive_trackValley, decisive_trackPeak,
    trackValley_IR_HFoutput2, trackValley_shiftedOutput, trackPeak_IR_HFoutput2,
    trackPeak_shiftedOutput]
  rfl

theorem decisive_newHeartbeat {F : Type} (s : State F) : decisive (newHeartbeat s) = decisive s := rfl

/-- The decisive fields after `edge`, from the decisive fields before it. -/
theorem edge_decisive {F : Type} (s : State F) (t : Tick) :
    Except.map (fun r => (r.1, decisive r.2)) (edge s t) = edgeD s.lastBinOut (decisive s) t := by
  have e1 : (decisive s).binOut = s.binOut := rfl
  have e2 : (decisive s).lastBeat = s.lastBeat := rfl
  simp only [edge, edgeD, e1, e2]
  split_ifs <;> rfl

/-- One call of `readPulseSensor` acts on the decisive fields as `stepD` does:
it fails when `stepD` fails, with the same fault, and otherwise returns the
event of `stepD` and a state whose decisive fields are those of `stepD`. -/
theorem readPulseSensor_decisive (fl : FloatSem) (s : State fl.F) (t : Tick) :
    Except.map (fun r => (r.1, decisive r.2)) (readPulseSensor fl s t) =
      stepD fl (decisive s) t := by
  by_cases hz : zeroSample t
  · rw [readPulseSensor_zero fl s t hz]
    simp only [stepD, hz, if_true]
    rfl
  · by_cases hp : (presence (lazyTimers s t) t).foundNewFinger < 20
    · rw [readPulseSensor_priming fl s t hz hp]
      have hp1 : nextFound (decisive s).lastTotal (totalOf t) (decisive s).found < 20 := hp
      simp only [stepD, hz, if_false, hp1, if_true]
      rfl
    · have hp1 : ¬ nextFound (decisive s).lastTotal (totalOf t) (decisive s).found < 20 := hp
      by_cases ht : totalOf t > 20000
      · rw [readPulseSensor_running fl s t hz hp ht, edge_decisive, classified_lastBinOut,
          decisive_classified]
        simp only [stepD, hz, if_false, hp1, ht, if_true]
        rfl
      · rw [readPulseSensor_idle fl s t hz hp ht]
        simp only [stepD, hz, if_false, hp1, ht]
        rfl

/-- A run of the detector acts on the decisive fields as `runD` does. -/
theorem run_decisive (fl : FloatSem) (ticks : List Tick) :
    ∀ s : State fl.F,
      (runEvents fl s ticks, runFault fl s ticks, (runState fl s ticks).map decisive) =
        runD fl (decisive s) ticks := by
  induction ticks with
  | nil => intro s; rfl
  | cons t ts ih =>
    intro s
    have hsim := readPulseSensor_decisive fl s t
    cases hr : readPulseSensor fl s t with
    | error e =>
      rw [hr] at hsim
      simp only [runEvents, runFault, runState, runD, hr, ← hsim, Except.map]
      rfl
    | ok r =>
      obtain ⟨ev, s1⟩ := r
      rw [hr] at hsim
      simp only [runEvents, runFault, runState, runD, hr, ← hsim, Except.map, ← ih s1]

/-! ### Runs on a steady finger -/

theorem average_const (t : Tick) (f : Fetch) (channel : Fetch → Nat) (hf : t.fetch = fun _ => f)
    (h : channel f < 800000000) : average t channel = channel f := by
  simp only [average, burstSum, SAMPLES_TO_AVERAGE, hf, List.range, List.range.loop, List.foldl,
    uadd]
  omega

theorem average_tickAt (f : Fetch) (g : Int) (ms : Nat) (channel : Fetch → Nat)
    (h : channel f < 800000000) : average (tickAt f g ms) channel = channel f :=
  average_const (tickAt f g ms) f channel rfl h

theorem finger_facts (t : Tick) (h : Finger t) :
    ¬ zeroSample t ∧ totalOf t = 40101 ∧ irTotalOf t = 40001 := by
  unfold Finger at h
  simp [zeroSample, totalOf, irTotalOf, average_const t fingerFetch _ h, fingerFetch, uadd]

theorem decisive_initState :
    decisive (initState exact) = ⟨0, 0, (0 : ℚ), (0 : ℚ), (0 : ℚ), (0 : ℚ), 0, 0, 0, 0⟩ := by
  simp [decisive, initState, setup, boot, clearStemLeds, exact]

theorem stepD_cross (t : Tick) (h : Finger t) :
    stepD exact ⟨0, 0, (0 : ℚ), (0 : ℚ), (0 : ℚ), (0 : ℚ), 0, 0, 0, 0⟩ t =
      Except.ok (0, primed 2) := by
  simp [stepD, finger_facts t h, nextFound, wrap16, usub, u32, exact, primed]

theorem stepD_primed (t : Tick) (h : Finger t) (k : Int) (h1 : 1 ≤ k) (h2 : k < 19) :
    stepD exact (primed k) t = Except.ok (0, primed (k + 1)) := by
  have hn : nextFound 40101 40101 k = k + 1 := by
    simp only [nextFound, wrap16]
    norm_num
    omega
  simp [stepD, finger_facts t h, hn, usub, u32, exact, primed]
  omega

/-- The decisive fields after the first beat on a steady finger, at the clock
reading `now`. -/
theorem stepD_beat (t : Tick) (h : Finger t) (hg : t.garbage = 0) :
    stepD exact (primed 19) t =
      if millis t.ms495 = 0 then Except.error Fault.divByZero
      else Except.ok (1, ⟨20, 40101, (40000 : ℚ), (1 / 5 : ℚ), (19 / 20 : ℚ), (-35 : ℚ), 1,
        millis t.ms495, 0, u16 ((60000 / millis t.ms495 : Nat) : Int)⟩) := by
  have hn : nextFound 40101 40101 19 = 20 := by
    simp only [nextFound, wrap16]
    norm_num
  have hu : usub (millis t.ms495) 0 = millis t.ms495 := by
    unfold usub u32 millis; omega
  simp [stepD, finger_facts t h, hn, hu, exact, primed, edgeD, classifyD, beatD, filtersD,
    smooth, hysteresisOf, constrain, hg, wrap16]
  norm_num

theorem runD_cons_ok (fl : FloatSem) (d d1 : Decisive fl.F) (t : Tick) (ts : List Tick) (ev : Int)
    (h : stepD fl d t = Except.ok (ev, d1)) :
    runD fl d (t :: ts) = (ev :: (runD fl d1 ts).1, (runD fl d1 ts).2) := by
  simp only [runD, h]

theorem runD_cons_error (fl : FloatSem) (d : Decisive fl.F) (t : Tick) (ts : List Tick) (e : Fault)
    (h : stepD fl d t = Except.error e) :
    runD fl d (t :: ts) = ([], some e, none) := by
  simp only [runD, h]

/-- While the presence counter stays below 20, a steady finger gives no event. -/
theorem runD_primed (ticks : List Tick) :
    ∀ (k : Int) (rest : List Tick), (∀ t ∈ ticks, Finger t) → 1 ≤ k → k + ticks.length ≤ 19 →
      runD exact (primed k) (ticks ++ rest) =
        (List.replicate ticks.length 0 ++ (runD exact (primed (k + ticks.length)) rest).1,
          (runD exact (primed (k + ticks.length)) rest).2) := by
  induction ticks with
  | nil => intro k rest _ _ _; simp
  | cons t ts ih =>
    intro k rest hf h1 h2
    have hlen : ((t :: ts).length : Int) = (ts.length : Int) + 1 := by simp
    rw [List.cons_append,
      runD_cons_ok exact _ _ t _ 0 (stepD_primed t (hf t (List.mem_cons_self _ _)) k h1 (by omega)),
      ih (k + 1) rest (fun u hu => hf u (List.mem_cons_of_mem _ hu)) (by omega) (by omega)]
    have e : k + 1 + (ts.length : Int) = k + ((t :: ts).length : Int) := by omega
    rw [e]
    simp [List.replicate_succ]

/-- A run from the initial state on a finger: eighteen calls without an event,
then a beat start, which divides by zero when the clock reads 0. -/
theorem runD_finger (t0 tb : Tick) (mid rest : List Tick) (h0 : Finger t0) (hb : Finger tb)
    (hmid : ∀ t ∈ mid, Finger t) (hlen : mid.length = 17) (hg : tb.garbage = 0) :
    runD exact (decisive (initState exact)) (t0 :: (mid ++ tb :: rest)) =
      if millis tb.ms495 = 0 then (List.replicate 18 0, some Fault.divByZero, none)
      else (List.replicate 18 0 ++ 1 :: (runD exact ⟨20, 40101, (40000 : ℚ), (1 / 5 : ℚ),
          (19 / 20 : ℚ), (-35 : ℚ), 1, millis tb.ms495, 0,
          u16 ((60000 / millis tb.ms495 : Nat) : Int)⟩ rest).1,
        (runD exact ⟨20, 40101, (40000 : ℚ), (1 / 5 : ℚ), (19 / 20 : ℚ), (-35 : ℚ), 1,
          millis tb.ms495, 0, u16 ((60000 / millis tb.ms495 : Nat) : Int)⟩ rest).2) := by
  rw [decisive_initState, runD_cons_ok exact _ _ t0 _ 0 (stepD_cross t0 h0),
    runD_primed mid 2 (tb :: rest) hmid (by norm_num) (by rw [hlen]; norm_num), hlen]
  have hk : (2 : Int) + ((17 : Nat) : Int) = 19 := by norm_num
  rw [hk]
  have hstep := stepD_beat tb hb hg
  by_cases hz : millis tb.ms495 = 0
  · rw [if_pos hz] at hstep
    rw [if_pos hz, runD_cons_error exact _ tb rest _ hstep]
    rfl
  · rw [if_neg hz] at hstep
    rw [if_neg hz, runD_cons_ok exact _ _ tb rest 1 hstep]
    rfl

/-- Eighteen calls on a finger, from the initial state: no event, and the
presence counter reaches 19. -/
theorem runD_finger18 (t0 : Tick) (mid : List Tick) (h0 : Finger t0)
    (hmid : ∀ t ∈ mid, Finger t) (hlen : mid.length = 17) :
    runD exact (decisive (initState exact)) (t0 :: mid) =
      (List.replicate 18 0, none, some (primed 19)) := by
  have h := runD_primed mid 2 [] hmid (by norm_num) (by rw [hlen]; norm_num)
  rw [List.append_nil, hlen] at h
  rw [decisive_initState, runD_cons_ok exact _ _ t0 _ 0 (stepD_cross t0 h0), h]
  have hk : (2 : Int) + ((17 : Nat) : Int) = 19 := by norm_num
  rw [hk]
  rfl

theorem finger_steady : Finger steady := rfl

theorem finger_backTick : Finger backTick := rfl

theorem finger_lateTick : Finger lateTick := rfl

theorem finger_wrapTick : Finger wrapTick := rfl

theorem finger_replicate (t : Tick) (h : Finger t) (n : Nat) :
    ∀ u ∈ List.replicate n t, Finger u := by
  intro u hu
  rw [List.eq_of_mem_replicate hu]
  exact h

/-- The run of nineteen steady ticks, on the decisive fields. -/
theorem runD_steady19 :
    runD exact (decisive (initState exact)) (List.replicate 19 steady) =
      (List.replicate 18 0 ++ [1], none,
        some ⟨20, 40101, (40000 : ℚ), (1 / 5 : ℚ), (19 / 20 : ℚ), (-35 : ℚ), 1, 1000, 0, 60⟩) := by
  have hl : List.replicate 19 steady = steady :: (List.replicate 17 steady ++ steady :: []) := rfl
  rw [hl, runD_finger steady steady (List.replicate 17 steady) [] finger_steady finger_steady
    (finger_replicate steady finger_steady 17) (by simp) rfl]
  rfl

/-- The run of eighteen steady ticks, on the decisive fields. -/
theorem runD_steady18 :
    runD exact (decisive (initState exact)) (List.replicate 18 steady) =
      (List.replicate 18 0, none, some (primed 19)) := by
  have hl : List.replicate 18 steady = steady :: List.replicate 17 steady := rfl
  rw [hl, runD_finger18 steady (List.replicate 17 steady) finger_steady
    (finger_replicate steady finger_steady 17) (by simp)]

/-- The run `wrapRun`, on the decisive fields. -/
theorem runD_wrapRun :
    runD exact (decisive (initState exact)) wrapRun =
      (List.replicate 18 0, some Fault.divByZero, none) := by
  have hl : wrapRun = lateTick :: (List.replicate 17 lateTick ++ wrapTick :: []) := rfl
  rw [hl, runD_finger lateTick wrapTick (List.replicate 17 lateTick) [] finger_lateTick
    finger_wrapTick (finger_replicate lateTick finger_lateTick 17) (by simp) rfl]
  rfl

theorem stepD_drop :
    stepD exact ⟨20, 40101, (40000 : ℚ), (1 / 5 : ℚ), (19 / 20 : ℚ), (-35 : ℚ), 1, 1000, 0, 60⟩
        dropTick =
      Except.ok (-1, ⟨21, 30101, (3010099 / 100 : ℚ), (-9919 / 500 : ℚ), (-94943 / 1000 : ℚ),
        (35 : ℚ), 0, 1000, 0, 60⟩) := by
  have hf : ¬ zeroSample dropTick ∧ totalOf dropTick = 30101 ∧ irTotalOf dropTick = 30001 := by
    simp [zeroSample, totalOf, irTotalOf, dropTick, average_tickAt, uadd]
  have hn : nextFound 40101 30101 20 = 21 := by
    simp only [nextFound, wrap16]
    norm_num
  have hg : dropTick.garbage = 0 := rfl
  simp [stepD, hf, hn, exact, edgeD, classifyD, beatD, filtersD, smooth, hysteresisOf,
    constrain, hg, wrap16]
  norm_num

theorem stepD_back :
    stepD exact ⟨21, 30101, (3010099 / 100 : ℚ), (-9919 / 500 : ℚ), (-94943 / 1000 : ℚ),
        (35 : ℚ), 0, 1000, 0, 60⟩ backTick =
      Except.ok (1, ⟨22, 40101, (399019999 / 10000 : ℚ), (196481 / 50000 : ℚ),
        (17860589 / 200000 : ℚ), (-35 : ℚ), 1, 1800, 1000, 75⟩) := by
  have hn : nextFound 30101 40101 21 = 22 := by
    simp only [nextFound, wrap16]
    norm_num
  have hg : backTick.garbage = 0 := rfl
  have hm : millis backTick.ms495 = 1800 := by
    simp [millis, backTick, tickAt]
  have hu : usub 1800 1000 = 800 := by
    simp [usub, u32]
  simp [stepD, finger_facts backTick finger_backTick, hn, hm, hu, exact, edgeD, classifyD, beatD,
    filtersD, smooth, hysteresisOf, constrain, hg, wrap16, u16]
  norm_num

/-- The run `threeEdges`, on the decisive fields. -/
theorem runD_threeEdges :
    runD exact (decisive (initState exact)) threeEdges =
      (List.replicate 18 0 ++ [1, -1, 1], none,
        some ⟨22, 40101, (399019999 / 10000 : ℚ), (196481 / 50000 : ℚ),
          (17860589 / 200000 : ℚ), (-35 : ℚ), 1, 1800, 1000, 75⟩) := by
  have hl : threeEdges =
      steady :: (List.replicate 17 steady ++ steady :: [dropTick, backTick]) := rfl
  rw [hl, runD_finger steady steady (List.replicate 17 steady) [dropTick, backTick] finger_steady
    finger_steady (finger_replicate steady finger_steady 17) (by simp) rfl]
  have hm : millis steady.ms495 = 1000 := by simp [millis, steady, tickAt]
  have h60 : u16 ((60000 / 1000 : Nat) : Int) = 60 := by simp [u16]
  rw [hm, if_neg (by norm_num), h60, runD_cons_ok exact _ _ dropTick _ (-1) stepD_drop,
    runD_cons_ok exact _ _ backTick _ 1 stepD_back]
  rfl

/-! ### From the decisive fields back to the detector -/

theorem call_of_stepD (fl : FloatSem) (s : State fl.F) (t : Tick) (ev : Int) (d1 : Decisive fl.F)
    (h : stepD fl (decisive s) t = Except.ok (ev, d1)) :
    ∃ s1, readPulseSensor fl s t = Except.ok (ev, s1) ∧ decisive s1 = d1 := by
  have hsim := readPulseSensor_decisive fl s t
  rw [h] at hsim
  cases hr : readPulseSensor fl s t with
  | error e => rw [hr] at hsim; cases hsim
  | ok r =>
    obtain ⟨ev1, s1⟩ := r
    rw [hr] at hsim
    simp only [Except.map, Except.ok.injEq, Prod.mk.injEq] at hsim
    exact ⟨s1, by rw [hsim.1], hsim.2⟩

theorem events_of_runD (fl : FloatSem) (s : State fl.F) (ticks : List Tick) (evs : List Int)
    (f : Option Fault) (d : Option (Decisive fl.F))
    (h : runD fl (decisive s) ticks = (evs, f, d)) :
    runEvents fl s ticks = evs ∧ runFault fl s ticks = f ∧
      (runState fl s ticks).map decisive = d := by
  have hsim := run_decisive fl ticks s
  rw [h] at hsim
  simp only [Prod.mk.injEq] at hsim
  exact hsim

theorem state_of_runD (fl : FloatSem) (s : State fl.F) (ticks : List Tick) (evs : List Int)
    (f : Option Fault) (d : Decisive fl.F)
    (h : runD fl (decisive s) ticks = (evs, f, some d)) :
    ∃ s1, runState fl s ticks = some s1 ∧ decisive s1 = d := by
  have h3 := (events_of_runD fl s ticks evs f (some d) h).2.2
  cases hr : runState fl s ticks with
  | none => rw [hr] at h3; cases h3
  | some s1 =>
    rw [hr] at h3
    simp only [Option.map_some', Option.some.injEq] at h3
    exact ⟨s1, rfl, h3⟩

/-- What a beat start stores. -/
theorem beat_start_fields (fl : FloatSem) (s s1 : State fl.F) (t : Tick)
    (h : readPulseSensor fl s t = Except.ok (1, s1))
    (hnow : t.ms495 < 4294967296) (hpos : s.lastBeat < t.ms495) :
    s1.previousBeat = s.lastBeat ∧ s1.lastBeat = t.ms495 ∧
    s1.latestBpm = 60000 / (t.ms495 - s.lastBeat) := by
  obtain ⟨_, hs1⟩ := edge_one _ t s1 (readPulseSensor_one fl s t s1 h)
  refine ⟨?_, ?_, ?_⟩
  · rw [hs1]
    show (classified fl s t).lastBeat = _
    exact classified_lastBeat fl s t
  · rw [hs1]
    show millis t.ms495 = _
    exact millis_small _ hnow
  · rw [hs1]
    show u16 ((60000 / usub (millis t.ms495) (classified fl s t).lastBeat : Nat) : Int) = _
    rw [classified_lastBeat, millis_small _ hnow, usub_of_le _ _ (le_of_lt hpos) hnow]
    exact u16_small _ (lt_of_le_of_lt (Nat.div_le_self _ _) (by norm_num))

/-- The run of nineteen steady ticks and `dropTick`, on the decisive fields. -/
theorem runD_twenty :
    runD exact (decisive (initState exact)) (List.replicate 19 steady ++ [dropTick]) =
      (List.replicate 18 0 ++ [1, -1], none,
        some ⟨21, 30101, (3010099 / 100 : ℚ), (-9919 / 500 : ℚ), (-94943 / 1000 : ℚ),
          (35 : ℚ), 0, 1000, 0, 60⟩) := by
  have hl : List.replicate 19 steady ++ [dropTick] =
      steady :: (List.replicate 17 steady ++ steady :: [dropTick]) := rfl
  rw [hl, runD_finger steady steady (List.replicate 17 steady) [dropTick] finger_steady
    finger_steady (finger_replicate steady finger_steady 17) (by simp) rfl]
  have hm : millis steady.ms495 = 1000 := by simp [millis, steady, tickAt]
  have h60 : u16 ((60000 / 1000 : Nat) : Int) = 60 := by simp [u16]
  rw [hm, if_neg (by norm_num), h60, runD_cons_ok exact _ _ dropTick _ (-1) stepD_drop]
  rfl

/-! ## C1 -/

/-- C1: in every run of `readPulseSensor` calls from the initial state, with
any samples, any clock readings and any floating-point semantics, the events
alternate: between two calls that return 1 (BeatStart) a call returns -1
(BeatEnd), and between two calls that return -1 a call returns 1. In
particular no two BeatStart follow each other. -/
theorem beat_events_alternate (fl : FloatSem) (ticks : List Tick) (a m b : List Int) :
    (runEvents fl (initState fl) ticks = a ++ 1 :: (m ++ 1 :: b) → (-1 : Int) ∈ m) ∧
    (runEvents fl (initState fl) ticks = a ++ (-1) :: (m ++ (-1) :: b) → (1 : Int) ∈ m) :=
  alternate_from fl ticks (initState fl) a m b (Or.inl (initState_binOut fl))


/-- Witness of C1: the run `threeEdges` from the initial state returns a beat
start, a beat end and a beat start. -/
theorem beat_events_alternate_witness :
    runEvents exact (initState exact) threeEdges =
        List.replicate 18 0 ++ 1 :: ([-1] ++ 1 :: []) ∧
      (-1 : Int) ∈ [(-1 : Int)] := by
  have hrun : runEvents exact (initState exact) threeEdges =
      List.replicate 18 0 ++ 1 :: ([-1] ++ 1 :: []) :=
    (events_of_runD exact _ _ _ _ _ runD_threeEdges).1
  exact ⟨hrun, (beat_events_alternate exact threeEdges (List.replicate 18 0) [-1] []).1 hrun⟩

/-! ## C2 -/

/-- C2: when a call of `readPulseSensor` returns 1 (BeatStart) and the clock
reading `now` of line 495 is above the stored `lastBeat`, afterwards
`previousBeat` is the old `lastBeat`, `lastBeat` is `now` and `latestBpm` is
the integer quotient `60000 / (now - old lastBeat)`; two beats 800 ms apart
give 75. -/
theorem beat_start_bpm (fl : FloatSem) (s s1 : State fl.F) (t : Tick)
    (h : readPulseSensor fl s t = Except.ok (1, s1))
    (hnow : t.ms495 < 4294967296) (hpos : s.lastBeat < t.ms495) :
    s1.previousBeat = s.lastBeat ∧ s1.lastBeat = t.ms495 ∧
    s1.latestBpm = 60000 / (t.ms495 - s.lastBeat) ∧
    (t.ms495 = s.lastBeat + 800 → s1.latestBpm = 75) := by
  obtain ⟨h1, h2, h3⟩ := beat_start_fields fl s s1 t h hnow hpos
  refine ⟨h1, h2, h3, ?_⟩
  intro h800
  rw [h3, h800, Nat.add_sub_cancel_left]

/-- Witness of C2: after a beat at 1000 ms and a beat end, the call at 1800 ms
returns a beat start and stores 75. -/
theorem beat_start_bpm_witness :
    ∃ s s1 : State exact.F,
      runState exact (initState exact) (List.replicate 19 steady ++ [dropTick]) = some s ∧
      readPulseSensor exact s backTick = Except.ok (1, s1) ∧
      s.lastBeat = 1000 ∧ backTick.ms495 = 1800 ∧ s1.latestBpm = 75 := by
  obtain ⟨s, hs, hd⟩ := state_of_runD exact _ _ _ _ _ runD_twenty
  have hstep := stepD_back
  rw [← hd] at hstep
  obtain ⟨s1, h1, _⟩ := call_of_stepD exact s backTick 1 _ hstep
  have hlast : s.lastBeat = 1000 := congrArg Decisive.lastBeat hd
  have hms : backTick.ms495 = 1800 := rfl
  exact ⟨s, s1, hs, h1, hlast, hms,
    (beat_start_bpm exact s s1 backTick h1 (by rw [hms]; norm_num) (by rw [hlast, hms]; norm_num)).2.2.2
      (by rw [hlast, hms])⟩

/-! ## C3 -/

/-- C3 (the code does not do it): from the initial state, eighteen priming
calls on a finger and then the first beat start, at the moment the 32-bit
clock has wrapped to 0, which is also the stored `lastBeat`: the call of line
496 divides by zero, nothing guards it. -/
theorem bpm_division_unguarded :
    runEvents exact (initState exact) wrapRun = List.replicate 18 0 ∧
    runFault exact (initState exact) wrapRun = some Fault.divByZero ∧
    millis wrapTick.ms495 = (initState exact).lastBeat :=
  ⟨(events_of_runD exact _ _ _ _ _ runD_wrapRun).1,
    (events_of_runD exact _ _ _ _ _ runD_wrapRun).2.1, rfl⟩

/-! ## C4 -/

/-- Counterexample to C4: from the initial state, after eighteen calls
`lastBeat`, `previousBeat` and `latestBpm` are still 0; the nineteenth call
is the first beat start, at 1000 ms, and it sets `latestBpm` to 60. -/
theorem first_beat_sets_bpm :
    (runState exact (initState exact) (List.replicate 18 steady)).map
        (fun s => (s.lastBeat, s.previousBeat, s.latestBpm)) = some (0, 0, 0) ∧
    runEvents exact (initState exact) (List.replicate 19 steady) = List.replicate 18 0 ++ [1] ∧
    (runState exact (initState exact) (List.replicate 19 steady)).map
        (fun s => s.latestBpm) = some 60 := by
  obtain ⟨s18, h18, d18⟩ := state_of_runD exact _ _ _ _ _ runD_steady18
  obtain ⟨s19, h19, d19⟩ := state_of_runD exact _ _ _ _ _ runD_steady19
  refine ⟨?_, (events_of_runD exact _ _ _ _ _ runD_steady19).1, ?_⟩
  · rw [h18]
    have e1 : s18.lastBeat = 0 := congrArg Decisive.lastBeat d18
    have e2 : s18.previousBeat = 0 := congrArg Decisive.previousBeat d18
    have e3 : s18.latestBpm = 0 := congrArg Decisive.latestBpm d18
    simp only [Option.map_some', e1, e2, e3]
  · rw [h19]
    have e3 : s19.latestBpm = 60 := congrArg Decisive.latestBpm d19
    simp only [Option.map_some', e3]

/-- C4, amended: the first beat start does store a BPM. When `lastBeat` is
still 0 and the call returns 1 at the clock reading `now`, with
`0 < now < 2^32`, afterwards `previousBeat` is 0, `lastBeat` is `now` and
`latestBpm` is `60000 / now`, which is not 0 as long as `now ≤ 60000`. -/
theorem first_beat_bpm (fl : FloatSem) (s s1 : State fl.F) (t : Tick)
    (h : readPulseSensor fl s t = Except.ok (1, s1)) (h0 : s.lastBeat = 0)
    (hnow : t.ms495 < 4294967296) (hpos : 0 < t.ms495) :
    s1.previousBeat = 0 ∧ s1.lastBeat = t.ms495 ∧ s1.latestBpm = 60000 / t.ms495 ∧
    (t.ms495 ≤ 60000 → s1.latestBpm ≠ 0) := by
  obtain ⟨h1, h2, h3⟩ := beat_start_fields fl s s1 t h hnow (by rw [h0]; exact hpos)
  rw [h0] at h1 h3
  rw [Nat.sub_zero] at h3
  refine ⟨h1, h2, h3, ?_⟩
  intro hle
  rw [h3]
  exact Nat.ne_of_gt (Nat.div_pos hle hpos)

/-- Witness of the amended C4: the first beat start of nineteen steady ticks,
at 1000 ms, stores 60. -/
theorem first_beat_bpm_witness :
    ∃ s s1 : State exact.F,
      runState exact (initState exact) (List.replicate 18 steady) = some s ∧
      readPulseSensor exact s steady = Except.ok (1, s1) ∧
      s.lastBeat = 0 ∧ steady.ms495 = 1000 ∧ s1.latestBpm = 60000 / 1000 := by
  obtain ⟨s, hs, hd⟩ := state_of_runD exact _ _ _ _ _ runD_steady18
  have hstep := stepD_beat steady finger_steady rfl
  have hm : millis steady.ms495 = 1000 := by simp [millis, steady, tickAt]
  rw [hm, if_neg (by norm_num), ← hd] at hstep
  obtain ⟨s1, h1, _⟩ := call_of_stepD exact s steady 1 _ hstep
  have hlast : s.lastBeat = 0 := congrArg Decisive.lastBeat hd
  have hms : steady.ms495 = 1000 := rfl
  exact ⟨s, s1, hs, h1, hlast, hms,
    (first_beat_bpm exact s s1 steady h1 hlast (by rw [hms]; norm_num) (by rw [hms]; norm_num)).2.2.1⟩

/-! ## C5 -/

/-- C5: for every value of `latestBpm`, the `bpm` of `runStemRising`,
`beginLedRising` and `beginLedFalling` is `max(min(latestBpm, 100), 45)`: it
lies in [45, 100], it is `latestBpm` exactly when `latestBpm` is in
[45, 100], and it is the value that enters the two `nextBeat` computations. -/
theorem bpm_clamped (fl : FloatSem) (s : State fl.F) :
    clampBpm s.latestBpm = max (min (s.latestBpm : Int) 100) 45 ∧
    45 ≤ clampBpm s.latestBpm ∧ clampBpm s.latestBpm ≤ 100 ∧
    (clampBpm s.latestBpm = (s.latestBpm : Int) ↔ 45 ≤ s.latestBpm ∧ s.latestBpm ≤ 100) ∧
    stemNextBeat fl s = u32 (fl.toInt (fl.add (fl.ofInt s.lastBeat) (fl.div (fl.ofRat 60000)
      (fl.div (fl.ofInt (max (min (s.latestBpm : Int) 100) 45)) (fl.ofRat (1 / 2)))))) ∧
    ledNextBeat fl s = u32 (fl.toInt (fl.add (fl.ofInt s.lastBeat) (fl.div (fl.ofRat 60000)
      (fl.ofInt (max (min (s.latestBpm : Int) 100) 45))))) := by
  have hc : clampBpm s.latestBpm = max (min (s.latestBpm : Int) 100) 45 := by
    simp only [clampBpm, wrap16]
    split_ifs <;> omega
  refine ⟨hc, ?_, ?_, ?_, ?_, ?_⟩
  · rw [hc]; omega
  · rw [hc]; omega
  · rw [hc]; omega
  · simp only [stemNextBeat, hc]
  · simp only [ledNextBeat, hc]

/-! ## C6 -/

theorem totalOf_lt (t : Tick) : totalOf t < 4294967296 := by
  unfold totalOf uadd
  exact Nat.mod_lt _ (by norm_num)

theorem totalOf_zero (t : Tick) (h : zeroSample t) : totalOf t = 0 := by
  obtain ⟨h1, h2, h3⟩ := h
  simp [totalOf, h1, h2, h3, uadd]

theorem nextFound_cross (lastTotal total : Nat) (found : Int) (h1 : lastTotal < 20000)
    (h2 : total > 20000) : nextFound lastTotal total found = 2 := by
  simp only [nextFound, h1, h2, and_self, if_true, wrap16]
  norm_num

/-- Counterexample to C6: the previous total is 3 and the current total is
exactly 20000, which is at least 20000. The call returns 0, but the presence
counter stays at 25 and the IR baseline keeps its value 0: it is not set to
20000 - 200. -/
theorem total_20000_is_no_finger :
    idleState.lastTotal < 20000 ∧ totalOf edgeTick = 20000 ∧
    ∃ s1 : State exact.F, readPulseSensor exact idleState edgeTick = Except.ok (0, s1) ∧
      s1.foundNewFinger = 25 ∧ s1.IR_baseline = (0 : ℚ) ∧
      s1.IR_baseline ≠ exact.ofInt ((20000 - 200 : Nat) : Int) := by
  have hf : ¬ zeroSample edgeTick ∧ totalOf edgeTick = 20000 := by
    simp [zeroSample, totalOf, edgeTick, average_tickAt, uadd]
  have hn : nextFound 3 20000 25 = 25 := by
    simp only [nextFound, wrap16]
    norm_num
  have hp : ¬ (presence (lazyTimers idleState edgeTick) edgeTick).foundNewFinger < 20 := by
    show ¬ nextFound 3 (totalOf edgeTick) 25 < 20
    rw [hf.2, hn]
    norm_num
  refine ⟨by show (3 : Nat) < 20000; norm_num, hf.2, _,
    readPulseSensor_idle exact idleState edgeTick hf.1 hp (by rw [hf.2]; norm_num), ?_, ?_, ?_⟩
  · show nextFound 3 (totalOf edgeTick) 25 = 25
    rw [hf.2, hn]
  · show (((0 : Int) : ℚ)) = 0
    norm_num
  · show (((0 : Int) : ℚ)) ≠ (((20000 - 200 : Nat) : Int) : ℚ)
    norm_num

/-- C6, amended: the current total has to be above 20000, not only at least
20000. A call in which the previous total was below 20000 and the current
total is above 20000 returns 0, leaves the presence counter at 2 (it is set
to 1 and incremented), and sets the IR baseline to `total - 200`. -/
theorem new_finger_marked (fl : FloatSem) (s : State fl.F) (t : Tick)
    (hlast : s.lastTotal < 20000) (htotal : totalOf t > 20000) :
    ∃ s1 : State fl.F, readPulseSensor fl s t = Except.ok (0, s1) ∧
      s1.foundNewFinger = 2 ∧ s1.IR_baseline = fl.ofInt ((totalOf t - 200 : Nat) : Int) ∧
      s1.lastTotal = totalOf t := by
  have hz : ¬ zeroSample t := by
    intro h
    rw [totalOf_zero t h] at htotal
    omega
  have hfound : (presence (lazyTimers s t) t).foundNewFinger = 2 :=
    nextFound_cross s.lastTotal (totalOf t) s.foundNewFinger hlast htotal
  have hp : (presence (lazyTimers s t) t).foundNewFinger < 20 := by
    rw [hfound]; norm_num
  refine ⟨_, readPulseSensor_priming fl s t hz hp, hfound, ?_, rfl⟩
  show fl.ofInt (usub (totalOf t) 200) = _
  rw [usub_of_le _ _ (by omega) (totalOf_lt t)]

/-- Witness of the amended C6: the first call on a finger, from the initial
state. -/
theorem new_finger_marked_witness :
    (initState exact).lastTotal < 20000 ∧ totalOf steady > 20000 ∧
    ∃ s1 : State exact.F, readPulseSensor exact (initState exact) steady = Except.ok (0, s1) ∧
      s1.foundNewFinger = 2 ∧ s1.IR_baseline = exact.ofInt ((totalOf steady - 200 : Nat) : Int) ∧
      s1.lastTotal = totalOf steady := by
  have h1 : (initState exact).lastTotal < 20000 := by
    show (0 : Nat) < 20000
    norm_num
  have h2 : totalOf steady > 20000 := by
    rw [(finger_facts steady finger_steady).2.1]
    norm_num
  exact ⟨h1, h2, new_finger_marked exact (initState exact) steady h1 h2⟩

/-! ## C7 -/

/-- C7 (the code does not do it): from the initial state, whose last total is
0, nineteen calls on a finger of total 40101. The first call is the presence
crossing; the calls 1 to 18 return 0, and the nineteenth call already returns
1, a beat start: only 18 calls are silent, not 20. -/
theorem event_on_nineteenth_call :
    (initState exact).lastTotal < 20000 ∧ totalOf steady > 20000 ∧
    runEvents exact (initState exact) (List.replicate 19 steady) = List.replicate 18 0 ++ [1] := by
  refine ⟨?_, ?_, (events_of_runD exact _ _ _ _ _ runD_steady19).1⟩
  · show (0 : Nat) < 20000
    norm_num
  · rw [(finger_facts steady finger_steady).2.1]
    norm_num

/-! ## C8 -/

theorem edge_not_restart {F : Type} (s : State F) (t : Tick) :
    edge s t ≠ Except.error Fault.restart := by
  simp only [edge]
  split_ifs <;> simp

/-- C8: `readPulseSensor` ends in the device restart exactly when the averaged
sample is (0,0,0). The restart takes the place of the return: the call hands
back no event and no updated state (last total, presence counter, baselines
and beat state are not written). When a channel is not zero the call does not
restart. -/
theorem restart_iff_zero_sample (fl : FloatSem) (s : State fl.F) (t : Tick) :
    readPulseSensor fl s t = Except.error Fault.restart ↔
      (average t Fetch.ps1 = 0 ∧ average t Fetch.ps2 = 0 ∧ average t Fetch.ps3 = 0) := by
  constructor
  · intro h
    by_contra hz
    have hz1 : ¬ zeroSample t := hz
    by_cases hp : (presence (lazyTimers s t) t).foundNewFinger < 20
    · rw [readPulseSensor_priming fl s t hz1 hp] at h; cases h
    · by_cases ht : totalOf t > 20000
      · rw [readPulseSensor_running fl s t hz1 hp ht] at h
        exact edge_not_restart _ t h
      · rw [readPulseSensor_idle fl s t hz1 hp ht] at h; cases h
  · intro h
    exact readPulseSensor_zero fl s t h

/-! ## C9 -/

theorem riseBrightness_bounds (fl : FloatSem) (p : fl.F) :
    8 ≤ riseBrightness fl p ∧ riseBrightness fl p ≤ 255 := by
  simp only [riseBrightness, cmax, cmin]
  split_ifs <;> omega

theorem fallBrightness_lower (fl : FloatSem) (p : fl.F) :
    8 ≤ fallBrightness fl p ∧ fallBrightness fl p ≤ 32767 := by
  simp only [fallBrightness, cmax]
  split_ifs
  · constructor
    · omega
    · unfold wrap16; omega
  · omega

theorem u16_of_range (n : Int) (h0 : 0 ≤ n) (h1 : n ≤ 32767) :
    ((u16 n : Nat) : Int) = n ∧ wrap16 ((u16 n : Nat) : Int) = n := by
  unfold u16 wrap16
  omega

theorem truncQ_intCast (n : Int) : truncQ (n : ℚ) = n := by
  unfold truncQ
  split_ifs
  · exact Int.floor_intCast n
  · exact Int.ceil_intCast n

/-- The level `(int)floor(255 * progress)` in exact arithmetic, for a progress
between 0 and 1. -/
theorem level_of_unit (p : ℚ) (h0 : 0 ≤ p) (h1 : p ≤ 1) :
    0 ≤ wrap16 (exact.toInt (exact.floor (exact.mul (exact.ofInt 255) p))) ∧
    wrap16 (exact.toInt (exact.floor (exact.mul (exact.ofInt 255) p))) ≤ 255 := by
  show 0 ≤ wrap16 (truncQ ((⌊((255 : Int) : ℚ) * p⌋ : Int) : ℚ)) ∧
    wrap16 (truncQ ((⌊((255 : Int) : ℚ) * p⌋ : Int) : ℚ)) ≤ 255
  rw [truncQ_intCast]
  have hlo : (0 : Int) ≤ ⌊((255 : Int) : ℚ) * p⌋ := by
    apply Int.floor_nonneg.mpr
    have : (0 : ℚ) ≤ ((255 : Int) : ℚ) := by norm_num
    exact mul_nonneg this h0
  have hhi : ⌊((255 : Int) : ℚ) * p⌋ ≤ 255 := by
    have h2 : ((255 : Int) : ℚ) * p ≤ ((255 : Int) : ℚ) := by
      have : (0 : ℚ) ≤ ((255 : Int) : ℚ) := by norm_num
      calc ((255 : Int) : ℚ) * p ≤ ((255 : Int) : ℚ) * 1 := mul_le_mul_of_nonneg_left h1 this
        _ = ((255 : Int) : ℚ) := mul_one _
    have := Int.floor_le_floor h2
    rwa [Int.floor_intCast] at this
  unfold wrap16
  omega

/-- The progress in exact arithmetic is between 0 and 1 when the sum of the
elapsed and of the remaining time is not zero and fits 32 bits. -/
theorem progress_unit (a b : Nat) (h0 : 0 < a + b) (h1 : a + b < 4294967296) :
    0 ≤ progressOf exact a b ∧ progressOf exact a b ≤ 1 := by
  have hu : uadd a b = a + b := by unfold uadd; omega
  show 0 ≤ (((a : Nat) : Int) : ℚ) / (((uadd a b : Nat) : Int) : ℚ) ∧
    (((a : Nat) : Int) : ℚ) / (((uadd a b : Nat) : Int) : ℚ) ≤ 1
  rw [hu]
  have hdq : (0 : ℚ) < (((a + b : Nat) : Int) : ℚ) := by exact_mod_cast h0
  have hnq : (0 : ℚ) ≤ (((a : Nat) : Int) : ℚ) := by exact_mod_cast Nat.zero_le _
  have hleq : (((a : Nat) : Int) : ℚ) ≤ (((a + b : Nat) : Int) : ℚ) := by
    exact_mod_cast Nat.le_add_right a b
  exact ⟨div_nonneg hnq (le_of_lt hdq), (div_le_one hdq).mpr hleq⟩

/-- Counterexample to C9: the fall window is [1256, 1768] and the clock reads
1000, before the window. The elapsed time wraps to 4294967040, the sum to
512, the progress is 8388607.5 and `floor(255 * progress)` is 2139094912,
which is -128 as a 16-bit `int`: the brightness stored and written is 383. -/
theorem early_clock_brightness :
    (runLedFalling exact earlyFall 1000).2.ledBrightness = 383 ∧
    (runLedFalling exact earlyFall 1000).2.petalRed = 383 := by
  have hp : fallProgress exact earlyFall 1000 = (16777215 / 2 : ℚ) := by
    show (((usub (millis 1000) 1256 : Nat) : Int) : ℚ) /
      (((uadd (usub (millis 1000) 1256) (millisTo (millis 1000) 1768) : Nat) : Int) : ℚ) = _
    have h1 : usub (millis 1000) 1256 = 4294967040 := by simp [usub, u32, millis]
    have h2 : millisTo (millis 1000) 1768 = 768 := by simp [millisTo, usub, u32, millis]
    rw [h1, h2]
    norm_num [uadd]
  have hfl : ⌊((255 : Int) : ℚ) * (16777215 / 2 : ℚ)⌋ = 2139094912 := by
    rw [Int.floor_eq_iff]
    constructor <;> norm_num
  have hb : fallBrightness exact (fallProgress exact earlyFall 1000) = 383 := by
    rw [hp]
    show cmax (wrap16 (255 - wrap16 (truncQ ((⌊((255 : Int) : ℚ) * (16777215 / 2 : ℚ)⌋ : Int) : ℚ)))) 8
      = 383
    rw [hfl, truncQ_intCast]
    simp [wrap16, cmax]
  simp only [runLedFalling, hb]
  simp [u16, wrap16]

/-- C9, amended: for every petal state, clock reading and floating-point
semantics, the brightness that `runLedRising` stores in `ledBrightness` and
writes to the petal channel lies in [8, 255], and the one of `runLedFalling`
is at least 8. The one of `runLedFalling` is at most 255, in exact
arithmetic, when the sum `millisFromLastBeat + millisToNextBeat` is not zero
and does not overflow 32 bits, which holds whenever the clock reading is
after `beginLedFallTime`, or equal to it and before `endLedFallTime`. -/
theorem petal_brightness_bounds (fl : FloatSem) (s : State fl.F) (q : State exact.F) (now : Nat) :
    (8 ≤ (runLedRising fl s now).2.ledBrightness ∧ (runLedRising fl s now).2.ledBrightness ≤ 255 ∧
      (runLedRising fl s now).2.petalRed = (runLedRising fl s now).2.ledBrightness) ∧
    (8 ≤ (runLedFalling fl s now).2.ledBrightness ∧
      (runLedFalling fl s now).2.petalRed = (runLedFalling fl s now).2.ledBrightness) ∧
    (0 < usub (millis now) q.beginLedFallTime + millisTo (millis now) q.endLedFallTime →
      usub (millis now) q.beginLedFallTime + millisTo (millis now) q.endLedFallTime < 4294967296 →
      (runLedFalling exact q now).2.ledBrightness ≤ 255) ∧
    (now < 4294967296 → q.endLedFallTime < 4294967296 → q.beginLedFallTime ≤ now →
      (q.beginLedFallTime < now ∨ now < q.endLedFallTime) →
      0 < usub (millis now) q.beginLedFallTime + millisTo (millis now) q.endLedFallTime ∧
      usub (millis now) q.beginLedFallTime + millisTo (millis now) q.endLedFallTime <
        4294967296) := by
  refine ⟨?_, ?_, ?_, ?_⟩
  · obtain ⟨h1, h2⟩ := riseBrightness_bounds fl (riseProgress fl s now)
    obtain ⟨e1, e2⟩ := u16_of_range _ (by omega) (by omega : riseBrightness fl (riseProgress fl s now) ≤ 32767)
    simp only [runLedRising]
    refine ⟨?_, ?_, e2.trans e1.symm⟩ <;> omega
  · obtain ⟨h1, h2⟩ := fallBrightness_lower fl (fallProgress fl s now)
    obtain ⟨e1, e2⟩ := u16_of_range _ (by omega) h2
    simp only [runLedFalling]
    refine ⟨?_, e2.trans e1.symm⟩
    omega
  · intro hpos hfit
    obtain ⟨p0, p1⟩ := progress_unit _ _ hpos hfit
    obtain ⟨l0, l1⟩ := level_of_unit _ p0 p1
    have hbr : fallBrightness exact (fallProgress exact q now) ≤ 255 := by
      simp only [fallBrightness, fallProgress, cmax]
      have hw : ∀ x : Int, 0 ≤ x → x ≤ 255 → wrap16 (255 - x) = 255 - x := by
        intro x hx0 hx1
        unfold wrap16
        omega
      rw [hw _ l0 l1]
      split_ifs <;> omega
    obtain ⟨h1, h2⟩ := fallBrightness_lower exact (fallProgress exact q now)
    obtain ⟨e1, _⟩ := u16_of_range _ (by omega) h2
    simp only [runLedFalling]
    omega
  · intro hnow hfin hb hne
    rw [millis_small now hnow, usub_of_le _ _ hb hnow]
    unfold millisTo
    split_ifs with h
    · omega
    · rw [usub_of_le _ _ (by omega) hfin]
      omega

/-- Witness of the amended C9: the fall window is [1000, 1600] and the clock
reads 1300. -/
theorem petal_brightness_bounds_witness :
    (1300 < 4294967296 ∧ midFall.endLedFallTime < 4294967296 ∧ midFall.beginLedFallTime ≤ 1300 ∧
      (midFall.beginLedFallTime < 1300 ∨ 1300 < midFall.endLedFallTime)) ∧
    (runLedFalling exact midFall 1300).2.ledBrightness ≤ 255 := by
  have h1 : (1300 : Nat) < 4294967296 := by norm_num
  have h2 : midFall.endLedFallTime < 4294967296 := by
    show (1600 : Nat) < 4294967296
    norm_num
  have h3 : midFall.beginLedFallTime ≤ 1300 := by
    show (1000 : Nat) ≤ 1300
    norm_num
  have h4 : midFall.beginLedFallTime < 1300 ∨ 1300 < midFall.endLedFallTime := by
    left
    show (1000 : Nat) < 1300
    norm_num
  have h5 := (petal_brightness_bounds exact midFall midFall 1300).2.2.2 h1 h2 h3 h4
  exact ⟨⟨h1, h2, h3, h4⟩,
    (petal_brightness_bounds exact midFall midFall 1300).2.2.1 h5.1 h5.2⟩

/-! ## C10 -/

theorem setPixelColor_length (px : List Colour) (n : Int) (c : Colour) :
    (setPixelColor px n c).length = px.length := by
  unfold setPixelColor
  split_ifs <;> simp

theorem foldl_setPixel_length {α : Type} (f : α → Int) (g : α → Colour) (l : List α) :
    ∀ px : List Colour, (l.foldl (fun p i => setPixelColor p (f i) (g i)) px).length = px.length := by
  induction l with
  | nil => intro px; rfl
  | cons a l ih => intro px; rw [List.foldl_cons, ih, setPixelColor_length]

theorem resetWindow_length (count cur : Int) (px : List Colour) :
    (resetWindow count cur px).length = px.length := by
  unfold resetWindow
  exact foldl_setPixel_length _ (fun _ => Color 0 0 0) pulseWindow px

theorem paintWindow_length (fl : FloatSem) (count cur : Int) (px : List Colour) :
    (paintWindow fl count cur px).length = px.length := by
  unfold paintWindow
  generalize pulseWindow = l
  induction l generalizing px with
  | nil => rfl
  | cons a l ih =>
    rw [List.foldl_cons, ih]
    split_ifs
    · rfl
    · exact setPixelColor_length _ _ _

theorem setPixelColor_getElem? (px : List Colour) (n : Int) (c : Colour) (i : Nat) :
    (setPixelColor px n c)[i]? = if u16 n = i ∧ i < px.length then some c else px[i]? := by
  unfold setPixelColor
  by_cases h : u16 n < px.length
  · rw [if_pos h]
    by_cases hi : u16 n = i
    · subst hi
      rw [List.getElem?_set_self h, if_pos ⟨rfl, h⟩]
    · rw [List.getElem?_set_ne hi, if_neg (fun hh => hi hh.1)]
  · rw [if_neg h]
    by_cases hi : u16 n = i ∧ i < px.length
    · exact absurd (hi.1 ▸ hi.2) h
    · rw [if_neg hi]

/-- After the first `n` steps of the clearing loop the first `n` pixels are
(0,0,0). -/
theorem clear_prefix (px : List Colour) (hlen : px.length ≤ 65536) (n : Nat) :
    ((List.range n).foldl (fun p (i : Nat) => setPixelColor p (i : Int) black) px).length =
      px.length ∧
    ∀ i, i < n → i < px.length →
      ((List.range n).foldl (fun p (i : Nat) => setPixelColor p (i : Int) black) px)[i]? =
        some black := by
  induction n with
  | zero => exact ⟨rfl, fun i hi => absurd hi (Nat.not_lt_zero i)⟩
  | succ n ih =>
    obtain ⟨h1, h2⟩ := ih
    rw [List.range_succ, List.foldl_append, List.foldl_cons, List.foldl_nil]
    refine ⟨by rw [setPixelColor_length, h1], ?_⟩
    intro i hi hil
    rw [setPixelColor_getElem?, h1]
    by_cases hc : u16 (n : Int) = i ∧ i < px.length
    · rw [if_pos hc]
    · rw [if_neg hc]
      have hin : i ≠ n := by
        intro hin
        apply hc
        subst hin
        exact ⟨by unfold u16; omega, hil⟩
      exact h2 i (by omega) hil

/-- The clearing loop leaves every pixel at (0,0,0) when the strip has
`count` pixels. -/
theorem clearPixels_black (count : Int) (px : List Colour) (hc : count = px.length)
    (hlen : px.length ≤ 32767) :
    (clearPixels count px).length = px.length ∧ ∀ c ∈ clearPixels count px, c = black := by
  unfold clearPixels
  have hn : count.toNat = px.length := by omega
  obtain ⟨h1, h2⟩ := clear_prefix px (by omega) count.toNat
  refine ⟨h1, ?_⟩
  intro c hc1
  obtain ⟨i, hi, hget⟩ := List.getElem_of_mem hc1
  have h3 := h2 i (by rw [hn, ← h1]; exact hi) (by rw [← h1]; exact hi)
  rw [List.getElem?_eq_getElem hi] at h3
  rw [← hget]
  exact Option.some.inj h3

/-- When the test `progress >= 1.0` holds, `runStemRising` reports the end of
the stem, with the index at 0 and the strip cleared. -/
theorem runStemRising_done (fl : FloatSem) (s : State fl.F) (now : Nat)
    (hc : s.stripLedCount = s.pixels.length) (hlen : s.pixels.length ≤ 32767)
    (hp : fl.le (fl.ofRat 1) (stemProgress fl s now) = true) :
    (runStemRising fl s now).1 = true ∧ (runStemRising fl s now).2.currentStripLed = 0 ∧
    (∀ c ∈ (runStemRising fl s now).2.pixels, c = black) ∧
    (runStemRising fl s now).2.pixels.length = s.pixels.length := by
  simp only [runStemRising, hp, or_true, if_true]
  refine ⟨trivial, trivial, ?_⟩
  split_ifs with hne
  · have hl : (paintWindow fl s.stripLedCount
        (wrap16 (fl.toInt (fl.floor (fl.mul (stemProgress fl s now) (fl.ofInt s.stripLedCount)))))
        (resetWindow s.stripLedCount s.currentStripLed s.pixels)).length = s.pixels.length := by
      rw [paintWindow_length, resetWindow_length]
    obtain ⟨h1, h2⟩ := clearPixels_black s.stripLedCount _ (by rw [hl]; exact hc) (by rw [hl]; exact hlen)
    exact ⟨h2, by rw [h1, hl]⟩
  · obtain ⟨h1, h2⟩ := clearPixels_black s.stripLedCount s.pixels hc hlen
    exact ⟨h2, h1⟩

/-- The clamped BPM as a natural number. -/
theorem clampBpm_nat (b : Nat) :
    ∃ k : Nat, clampBpm b = (k : Int) ∧ 45 ≤ k ∧ k ≤ 100 := by
  refine ⟨(clampBpm b).toNat, ?_, ?_, ?_⟩ <;>
  · simp only [clampBpm, wrap16]
    split_ifs <;> omega

/-- In exact arithmetic `nextBeat` is `lastBeat + 30000 / bpm`, the quotient
being truncated by the conversion to `unsigned long`. -/
theorem stemNextBeat_exact (q : State exact.F) (hover : q.lastBeat + 666 < 4294967296) :
    stemNextBeat exact q = q.lastBeat + 30000 / (clampBpm q.latestBpm).toNat ∧
    300 ≤ 30000 / (clampBpm q.latestBpm).toNat ∧ 30000 / (clampBpm q.latestBpm).toNat ≤ 666 := by
  obtain ⟨k, hk, h45, h100⟩ := clampBpm_nat q.latestBpm
  have hkn : (clampBpm q.latestBpm).toNat = k := by rw [hk]; rfl
  rw [hkn]
  have hlo : 300 ≤ 30000 / k := (Nat.le_div_iff_mul_le (by omega)).mpr (by omega)
  have hhi : 30000 / k ≤ 666 := by
    have : 30000 / k < 667 := (Nat.div_lt_iff_lt_mul (by omega)).mpr (by omega)
    omega
  refine ⟨?_, hlo, hhi⟩
  show u32 (truncQ ((((q.lastBeat : Nat) : Int) : ℚ) +
    (60000 : ℚ) / (((clampBpm q.latestBpm : Int) : ℚ) / (1 / 2)))) = _
  rw [hk]
  have hkq : ((k : Int) : ℚ) ≠ 0 := by
    have : (0 : ℚ) < ((k : Int) : ℚ) := by exact_mod_cast (by omega : 0 < k)
    exact ne_of_gt this
  have e1 : (60000 : ℚ) / ((((k : Nat) : Int) : ℚ) / (1 / 2)) = ((30000 : Nat) : ℚ) / ((k : Nat) : ℚ) := by
    push_cast
    have hkq2 : (k : ℚ) ≠ 0 := by exact_mod_cast (by omega : k ≠ 0)
    field_simp
    ring
  rw [e1]
  have hq0 : (0 : ℚ) ≤ ((30000 : Nat) : ℚ) / ((k : Nat) : ℚ) := by positivity
  have hL0 : (0 : ℚ) ≤ (((q.lastBeat : Nat) : Int) : ℚ) := by exact_mod_cast Nat.zero_le _
  have hfloor : truncQ ((((q.lastBeat : Nat) : Int) : ℚ) + ((30000 : Nat) : ℚ) / ((k : Nat) : ℚ)) =
      ((q.lastBeat : Nat) : Int) + ((30000 / k : Nat) : Int) := by
    unfold truncQ
    rw [if_pos (add_nonneg hL0 hq0), Int.floor_int_add, Rat.floor_natCast_div_natCast,
      Int.natCast_div]
  rw [hfloor]
  unfold u32
  omega

/-- In exact arithmetic, with a clock that has not wrapped since the last
beat, the test `progress >= 1.0` holds exactly from `nextBeat` on; before
`nextBeat` the progress is the elapsed part of the run. -/
theorem stemProgress_exact (q : State exact.F) (now : Nat) (hnow : now < 4294967296)
    (hover : q.lastBeat + 666 < 4294967296) (hlast : q.lastBeat ≤ now) :
    (stemNextBeat exact q ≤ now → stemProgress exact q now = (1 : ℚ)) ∧
    (now < stemNextBeat exact q →
      stemProgress exact q now =
        ((now - q.lastBeat : Nat) : ℚ) / ((30000 / (clampBpm q.latestBpm).toNat : Nat) : ℚ) ∧
      now - q.lastBeat < 30000 / (clampBpm q.latestBpm).toNat) := by
  obtain ⟨hnb, hlo, hhi⟩ := stemNextBeat_exact q hover
  have hm : millis now = now := millis_small now hnow
  have ha : usub now q.lastBeat = now - q.lastBeat := usub_of_le _ _ hlast hnow
  constructor
  · intro hle
    have hb : millisTo now (stemNextBeat exact q) = 0 := by
      unfold millisTo
      split_ifs with h
      · rfl
      · have : stemNextBeat exact q = now := by omega
        rw [this]
        unfold usub u32
        omega
    show (((usub (millis now) q.lastBeat : Nat) : Int) : ℚ) /
      (((uadd (usub (millis now) q.lastBeat) (millisTo (millis now) (stemNextBeat exact q)) : Nat) : Int) : ℚ) = 1
    rw [hm, hb, ha]
    have hu : uadd (now - q.lastBeat) 0 = now - q.lastBeat := by unfold uadd; omega
    rw [hu]
    have hpos : (0 : ℚ) < (((now - q.lastBeat : Nat) : Int) : ℚ) := by
      exact_mod_cast (by omega : 0 < now - q.lastBeat)
    exact div_self (ne_of_gt hpos)
  · intro hlt
    have hb : millisTo now (stemNextBeat exact q) = stemNextBeat exact q - now := by
      unfold millisTo
      rw [if_neg (by omega)]
      exact usub_of_le _ _ (by omega) (by omega)
    refine ⟨?_, by omega⟩
    show (((usub (millis now) q.lastBeat : Nat) : Int) : ℚ) /
      (((uadd (usub (millis now) q.lastBeat) (millisTo (millis now) (stemNextBeat exact q)) : Nat) : Int) : ℚ) = _
    rw [hm, hb, ha]
    have hu : uadd (now - q.lastBeat) (stemNextBeat exact q - now) =
        30000 / (clampBpm q.latestBpm).toNat := by
      unfold uadd; omega
    rw [hu]
    push_cast
    rfl

/-- In exact arithmetic a progress in [0, 1) gives a new index inside the
strip. -/
theorem newLed_inside (p : ℚ) (count : Int) (hp0 : 0 ≤ p) (hp1 : p < 1) (hc0 : 0 < count)
    (hc1 : count ≤ 32767) :
    0 ≤ wrap16 (exact.toInt (exact.floor (exact.mul p (exact.ofInt count)))) ∧
    wrap16 (exact.toInt (exact.floor (exact.mul p (exact.ofInt count)))) < count := by
  show 0 ≤ wrap16 (truncQ ((⌊p * ((count : Int) : ℚ)⌋ : Int) : ℚ)) ∧
    wrap16 (truncQ ((⌊p * ((count : Int) : ℚ)⌋ : Int) : ℚ)) < count
  rw [truncQ_intCast]
  have hcq : (0 : ℚ) < ((count : Int) : ℚ) := by exact_mod_cast hc0
  have hlo : (0 : Int) ≤ ⌊p * ((count : Int) : ℚ)⌋ :=
    Int.floor_nonneg.mpr (mul_nonneg hp0 (le_of_lt hcq))
  have hhi : ⌊p * ((count : Int) : ℚ)⌋ < count := by
    rw [Int.floor_lt]
    calc p * ((count : Int) : ℚ) < 1 * ((count : Int) : ℚ) :=
          mul_lt_mul_of_pos_right hp1 hcq
      _ = ((count : Int) : ℚ) := one_mul _
  unfold wrap16
  omega

/-- The progress is not negative in exact arithmetic. -/
theorem progressOf_nonneg (a b : Nat) : (0 : ℚ) ≤ progressOf exact a b := by
  show (0 : ℚ) ≤ (((a : Nat) : Int) : ℚ) / (((uadd a b : Nat) : Int) : ℚ)
  have h1 : (0 : ℚ) ≤ (((a : Nat) : Int) : ℚ) := by exact_mod_cast Nat.zero_le _
  have h2 : (0 : ℚ) ≤ (((uadd a b : Nat) : Int) : ℚ) := by exact_mod_cast Nat.zero_le _
  exact div_nonneg h1 h2

theorem clearPixels_length (count : Int) (px : List Colour) :
    (clearPixels count px).length = px.length := by
  unfold clearPixels
  exact foldl_setPixel_length (fun (i : Nat) => (i : Int)) (fun _ => black) _ px

theorem initState_strip (fl : FloatSem) :
    (initState fl).stripLedCount = ((initState fl).pixels.length : Int) ∧
    (initState fl).pixels.length = 300 := by
  have h : (initState fl).pixels.length = 300 := by
    simp only [initState, setup, clearStemLeds, boot, clearPixels_length, List.length_replicate,
      NUMBER_OF_STEM_LEDS]
  refine ⟨?_, h⟩
  rw [h]
  simp only [initState, setup, clearStemLeds, boot, List.length_replicate, NUMBER_OF_STEM_LEDS]

/-- The value that `runStemRising` returns. -/
theorem runStemRising_fst (fl : FloatSem) (s : State fl.F) (now : Nat) :
    (runStemRising fl s now).1 = true ↔
      (wrap16 (fl.toInt (fl.floor (fl.mul (stemProgress fl s now) (fl.ofInt s.stripLedCount)))) =
          s.stripLedCount ∨
        fl.le (fl.ofRat 1) (stemProgress fl s now) = true) := by
  simp only [runStemRising]
  split_ifs with h1 h2 h3
  · simp only [true_iff]
    rcases h2 with h2 | h2
    · exact Or.inl h2
    · exact Or.inr h2
  · simp only [Bool.false_eq_true, false_iff]
    intro h
    exact h2 h
  · simp only [true_iff]
    rcases h3 with h3 | h3
    · exact Or.inl ((not_not.mp h1).symm.trans h3)
    · exact Or.inr h3
  · simp only [Bool.false_eq_true, false_iff]
    intro h
    apply h3
    rcases h with h | h
    · exact Or.inl ((not_not.mp h1).trans h)
    · exact Or.inr h

/-! ## C13 -/

/-- C13 (the code does not do it): the fall began at 9600 ms, so it ends at
10200 ms, and no rise is in progress; `beginLedRising` is called at 10000
ms. Line 288 subtracts `600 - endLedFallTime`, which wraps as an unsigned
value: the rise start becomes 19600, after `now`, not before it. The window
is 300 ms, it ends at 19900. -/
theorem rise_start_forward_dated :
    10000 < fallingPetal.endLedFallTime ∧ 10000 > fallingPetal.endLedRiseTime ∧
    (beginLedRising fallingPetal 10000).beginLedRiseTime = 19600 ∧
    (beginLedRising fallingPetal 10000).endLedRiseTime = 19900 := by
  have he : fallingPetal.endLedFallTime = 10200 := by
    simp [fallingPetal, beginLedFalling, millis, uadd]
  have hr : fallingPetal.endLedRiseTime = 0 := rfl
  have hb : (beginLedRising fallingPetal 10000).beginLedRiseTime = 19600 := by
    simp [beginLedRising, he, hr, millis, usub, u32]
  refine ⟨by rw [he]; norm_num, by rw [hr]; norm_num, hb, ?_⟩
  show uadd (beginLedRising fallingPetal 10000).beginLedRiseTime 300 = 19900
  rw [hb]
  simp [uadd]

/-! ## C14 -/

/-- C14: in exact arithmetic every value is a fixed point of the smoothing
primitive, `smooth(x, alpha, x) = x` for every `x` and every `alpha`, where
`smooth(raw, alpha, prior) = prior*(1-alpha) + raw*alpha`. -/
theorem smooth_fixed_point (x alpha : ℚ) :
    smooth exact x alpha x = x ∧
    ∀ raw prior : ℚ, smooth exact raw alpha prior = prior * (1 - alpha) + raw * alpha := by
  constructor
  · show x * (((1 : Int) : ℚ) - alpha) + x * alpha = x
    push_cast
    ring
  · intro raw prior
    show prior * (((1 : Int) : ℚ) - alpha) + raw * alpha = _
    push_cast
    ring

/-! ## C17 and C18 -/

theorem edge_keeps {F : Type} (s : State F) (t : Tick) (ev : Int) (s1 : State F)
    (h : edge s t = Except.ok (ev, s1)) :
    s1.binOut = s.binOut ∧ s1.hysterisis = s.hysterisis ∧ s1.shiftedOutput = s.shiftedOutput ∧
    s1.LFoutput = s.LFoutput := by
  simp only [edge] at h
  split_ifs at h with h1 h2 h3
  · simp only [Except.ok.injEq, Prod.mk.injEq] at h
    obtain ⟨_, rfl⟩ := h
    exact ⟨rfl, rfl, rfl, rfl⟩
  · simp only [Except.ok.injEq, Prod.mk.injEq] at h
    obtain ⟨_, rfl⟩ := h
    exact ⟨rfl, rfl, rfl, rfl⟩
  · simp only [Except.ok.injEq, Prod.mk.injEq] at h
    obtain ⟨_, rfl⟩ := h
    exact ⟨rfl, rfl, rfl, rfl⟩

theorem hysteresisOf_bounds (t : Tick) : 35 ≤ hysteresisOf t ∧ hysteresisOf t ≤ 120 := by
  simp only [hysteresisOf, constrain]
  split_ifs <;> omega

/-- The classification and the hysteresis that a running call leaves. -/
theorem running_hysteresis (fl : FloatSem) (s s1 : State fl.F) (t : Tick) (ev : Int)
    (hz : ¬ zeroSample t) (hp : ¬ nextFound s.lastTotal (totalOf t) s.foundNewFinger < 20)
    (ht : totalOf t > 20000) (h : readPulseSensor fl s t = Except.ok (ev, s1)) :
    (s1.binOut = 1 ∧ s1.hysterisis = fl.neg (fl.ofInt (hysteresisOf t))) ∨
    (s1.binOut = 0 ∧ s1.hysterisis = fl.ofInt (hysteresisOf t)) := by
  rw [readPulseSensor_running fl s t hz hp ht] at h
  obtain ⟨hb, hh, _, _⟩ := edge_keeps _ t ev s1 h
  have hd := decisive_classified fl s t
  have hb1 : (classified fl s t).binOut = if beatD fl (decisive s) t = true then 1 else 0 :=
    congrArg Decisive.binOut hd
  have hh1 : (classified fl s t).hysterisis =
      if beatD fl (decisive s) t = true then fl.neg (fl.ofInt (hysteresisOf t))
      else fl.ofInt (hysteresisOf t) := congrArg Decisive.hyst hd
  rw [hb, hh, hb1, hh1]
  cases beatD fl (decisive s) t
  · right
    exact ⟨rfl, rfl⟩
  · left
    exact ⟨rfl, rfl⟩

/-- C18: after every running call of `readPulseSensor` that returns (the
presence counter has reached 20 and the total is above 20000), whatever the
content of `IR_signalSize` and the floating-point semantics, the stored
hysteresis is `-h` when `binOut = 1` and `h` when `binOut = 0`, for an
integer `h` in [35, 120]; in exact arithmetic it lies in [-120, -35] when
`binOut = 1` and in [35, 120] when `binOut = 0`. -/
theorem hysteresis_sign (fl : FloatSem) (s s1 : State fl.F) (q q1 : State exact.F) (t : Tick)
    (ev : Int) :
    (¬ zeroSample t → ¬ nextFound s.lastTotal (totalOf t) s.foundNewFinger < 20 →
      totalOf t > 20000 → readPulseSensor fl s t = Except.ok (ev, s1) →
      ∃ h : Int, 35 ≤ h ∧ h ≤ 120 ∧
        ((s1.binOut = 1 ∧ s1.hysterisis = fl.neg (fl.ofInt h)) ∨
          (s1.binOut = 0 ∧ s1.hysterisis = fl.ofInt h))) ∧
    (¬ zeroSample t → ¬ nextFound q.lastTotal (totalOf t) q.foundNewFinger < 20 →
      totalOf t > 20000 → readPulseSensor exact q t = Except.ok (ev, q1) →
      (q1.binOut = 1 ∧ (-120 : ℚ) ≤ q1.hysterisis ∧ q1.hysterisis ≤ (-35 : ℚ)) ∨
        (q1.binOut = 0 ∧ (35 : ℚ) ≤ q1.hysterisis ∧ q1.hysterisis ≤ (120 : ℚ))) := by
  obtain ⟨b0, b1⟩ := hysteresisOf_bounds t
  constructor
  · intro hz hp ht h
    exact ⟨hysteresisOf t, b0, b1, running_hysteresis fl s s1 t ev hz hp ht h⟩
  · intro hz hp ht h
    have c0 : (35 : ℚ) ≤ ((hysteresisOf t : Int) : ℚ) := by exact_mod_cast b0
    have c1 : ((hysteresisOf t : Int) : ℚ) ≤ (120 : ℚ) := by exact_mod_cast b1
    rcases running_hysteresis exact q q1 t ev hz hp ht h with ⟨hb, hh⟩ | ⟨hb, hh⟩
    · left
      have e : q1.hysterisis = -((hysteresisOf t : Int) : ℚ) := hh
      rw [e]
      exact ⟨hb, by linarith, by linarith⟩
    · right
      have e : q1.hysterisis = ((hysteresisOf t : Int) : ℚ) := hh
      rw [e]
      exact ⟨hb, c0, c1⟩

/-- Witness of C18: the first beat start of nineteen steady ticks is a running
call. -/
theorem hysteresis_sign_witness :
    ∃ q q1 : State exact.F,
      runState exact (initState exact) (List.replicate 18 steady) = some q ∧
      readPulseSensor exact q steady = Except.ok (1, q1) ∧
      ((q1.binOut = 1 ∧ (-120 : ℚ) ≤ q1.hysterisis ∧ q1.hysterisis ≤ (-35 : ℚ)) ∨
        (q1.binOut = 0 ∧ (35 : ℚ) ≤ q1.hysterisis ∧ q1.hysterisis ≤ (120 : ℚ))) := by
  obtain ⟨q, hq, hd⟩ := state_of_runD exact _ _ _ _ _ runD_steady18
  have hstep := stepD_beat steady finger_steady rfl
  have hm : millis steady.ms495 = 1000 := by simp [millis, steady, tickAt]
  rw [hm, if_neg (by norm_num), ← hd] at hstep
  obtain ⟨q1, h1, _⟩ := call_of_stepD exact q steady 1 _ hstep
  obtain ⟨hz, ht, _⟩ := finger_facts steady finger_steady
  have hlast : q.lastTotal = 40101 := congrArg Decisive.lastTotal hd
  have hfound : q.foundNewFinger = 19 := congrArg Decisive.found hd
  have hn : nextFound 40101 40101 19 = 20 := by
    simp only [nextFound, wrap16]
    norm_num
  exact ⟨q, q1, hq, h1,
    (hysteresis_sign exact q q1 q q1 steady 1).2 hz (by rw [hlast, ht, hfound, hn]; norm_num)
      (by rw [ht]; norm_num) h1⟩

theorem stepD_quiet :
    stepD exact ⟨20, 40101, (40000 : ℚ), (1 / 5 : ℚ), (19 / 20 : ℚ), (-35 : ℚ), 1, 1000, 0, 60⟩
        steady =
      Except.ok (0, ⟨21, 40101, (4000099 / 100 : ℚ), (81 / 500 : ℚ), (57 / 1000 : ℚ),
        (-35 : ℚ), 1, 1000, 0, 60⟩) := by
  have hn : nextFound 40101 40101 20 = 21 := by
    simp only [nextFound, wrap16]
    norm_num
  have hg : steady.garbage = 0 := rfl
  simp [stepD, finger_facts steady finger_steady, hn, exact, edgeD, classifyD, beatD, filtersD,
    smooth, hysteresisOf, constrain, hg, wrap16]
  norm_num

theorem finger_loudTick : Finger loudTick := rfl

theorem stepD_loud :
    stepD exact ⟨20, 40101, (40000 : ℚ), (1 / 5 : ℚ), (19 / 20 : ℚ), (-35 : ℚ), 1, 1000, 0, 60⟩
        loudTick =
      Except.ok (-1, ⟨21, 40101, (4000099 / 100 : ℚ), (81 / 500 : ℚ), (57 / 1000 : ℚ),
        (120 : ℚ), 0, 1000, 0, 60⟩) := by
  have hn : nextFound 40101 40101 20 = 21 := by
    simp only [nextFound, wrap16]
    norm_num
  have hg : loudTick.garbage = 3000 := rfl
  have htd : Int.tdiv 3000 15 = 200 := by decide
  simp [stepD, finger_facts loudTick finger_loudTick, hn, exact, edgeD, classifyD, beatD, filtersD,
    smooth, hysteresisOf, constrain, hg, wrap16, htd]
  norm_num

/-- Nineteen steady ticks and one more tick, on the decisive fields. -/
theorem runD_after_beat (t : Tick) (ev : Int) (d : Decisive exact.F)
    (h : stepD exact ⟨20, 40101, (40000 : ℚ), (1 / 5 : ℚ), (19 / 20 : ℚ), (-35 : ℚ), 1, 1000, 0,
      60⟩ t = Except.ok (ev, d)) :
    runD exact (decisive (initState exact)) (List.replicate 19 steady ++ [t]) =
      (List.replicate 18 0 ++ [1, ev], none, some d) := by
  have hl : List.replicate 19 steady ++ [t] =
      steady :: (List.replicate 17 steady ++ steady :: [t]) := rfl
  rw [hl, runD_finger steady steady (List.replicate 17 steady) [t] finger_steady
    finger_steady (finger_replicate steady finger_steady 17) (by simp) rfl]
  have hm : millis steady.ms495 = 1000 := by simp [millis, steady, tickAt]
  have h60 : u16 ((60000 / 1000 : Nat) : Int) = 60 := by simp [u16]
  rw [hm, if_neg (by norm_num), h60, runD_cons_ok exact _ _ t _ ev h]
  rfl

theorem final_of_runD {α : Type} (fl : FloatSem) (s : State fl.F) (ticks : List Tick)
    (evs : List Int) (f : Option Fault) (d : Decisive fl.F) (g : Decisive fl.F → α)
    (h : runD fl (decisive s) ticks = (evs, f, some d)) :
    (runState fl s ticks).map (fun s1 => g (decisive s1)) = some (g d) := by
  obtain ⟨s1, h1, h2⟩ := state_of_runD fl s ticks evs f d h
  rw [h1, Option.map_some', h2]

/-- C17 (the code does not do it): after nineteen steady ticks, whose last one
is in a beat, the twentieth call is made twice with the same sample and the
same clock readings, from the same state; only the content of the
uninitialised local `IR_signalSize` differs, 0 or 3000. The call returns 0
and stores the hysteresis -35 in one case, it returns -1 and stores 120 in
the other: threshold and hysteresis follow the content of the local, not a
value carried by the detector state. -/
theorem signal_size_is_not_state :
    loudTick = { steady with garbage := 3000 } ∧
    runEvents exact (initState exact) (List.replicate 19 steady ++ [steady]) =
      List.replicate 18 0 ++ [1, 0] ∧
    (runState exact (initState exact) (List.replicate 19 steady ++ [steady])).map
      (fun s => s.hysterisis) = some (-35 : ℚ) ∧
    runEvents exact (initState exact) (List.replicate 19 steady ++ [loudTick]) =
      List.replicate 18 0 ++ [1, -1] ∧
    (runState exact (initState exact) (List.replicate 19 steady ++ [loudTick])).map
      (fun s => s.hysterisis) = some (120 : ℚ) :=
  ⟨rfl,
    (events_of_runD exact _ _ _ _ _ (runD_after_beat steady 0 _ stepD_quiet)).1,
    final_of_runD exact _ _ _ _ _ Decisive.hyst (runD_after_beat steady 0 _ stepD_quiet),
    (events_of_runD exact _ _ _ _ _ (runD_after_beat loudTick (-1) _ stepD_loud)).1,
    final_of_runD exact _ _ _ _ _ Decisive.hyst (runD_after_beat loudTick (-1) _ stepD_loud)⟩

/-! ## C12 and C16: the petal ramp in exact arithmetic -/

theorem progressOf_exact (a b : Nat) :
    progressOf exact a b = (a : ℚ) / ((uadd a b : Nat) : ℚ) := by
  show (((a : Nat) : Int) : ℚ) / (((uadd a b : Nat) : Int) : ℚ) = _
  push_cast
  rfl

theorem floor255_bounds (p : ℚ) (h0 : 0 ≤ p) (h1 : p ≤ 1) :
    0 ≤ ⌊((255 : Int) : ℚ) * p⌋ ∧ ⌊((255 : Int) : ℚ) * p⌋ ≤ 255 := by
  have h255 : (0 : ℚ) ≤ ((255 : Int) : ℚ) := by norm_num
  constructor
  · exact Int.floor_nonneg.mpr (mul_nonneg h255 h0)
  · have h2 : ((255 : Int) : ℚ) * p ≤ ((255 : Int) : ℚ) := by
      calc ((255 : Int) : ℚ) * p ≤ ((255 : Int) : ℚ) * 1 := mul_le_mul_of_nonneg_left h1 h255
        _ = ((255 : Int) : ℚ) := mul_one _
    have := Int.floor_le_floor h2
    rwa [Int.floor_intCast] at this

/-- The level `(int)floor(255 * progress)` is monotone on [0, 1], in exact
arithmetic. -/
theorem level_mono (p1 p2 : ℚ) (h0 : 0 ≤ p1) (h12 : p1 ≤ p2) (h1 : p2 ≤ 1) :
    0 ≤ wrap16 (exact.toInt (exact.floor (exact.mul (exact.ofInt 255) p1))) ∧
    wrap16 (exact.toInt (exact.floor (exact.mul (exact.ofInt 255) p1))) ≤
      wrap16 (exact.toInt (exact.floor (exact.mul (exact.ofInt 255) p2))) ∧
    wrap16 (exact.toInt (exact.floor (exact.mul (exact.ofInt 255) p2))) ≤ 255 := by
  obtain ⟨a0, a1⟩ := floor255_bounds p1 h0 (le_trans h12 h1)
  obtain ⟨b0, b1⟩ := floor255_bounds p2 (le_trans h0 h12) h1
  have hfl : ⌊((255 : Int) : ℚ) * p1⌋ ≤ ⌊((255 : Int) : ℚ) * p2⌋ := by
    apply Int.floor_le_floor
    have : (0 : ℚ) ≤ ((255 : Int) : ℚ) := by norm_num
    exact mul_le_mul_of_nonneg_left h12 this
  show 0 ≤ wrap16 (truncQ ((⌊((255 : Int) : ℚ) * p1⌋ : Int) : ℚ)) ∧
    wrap16 (truncQ ((⌊((255 : Int) : ℚ) * p1⌋ : Int) : ℚ)) ≤
      wrap16 (truncQ ((⌊((255 : Int) : ℚ) * p2⌋ : Int) : ℚ)) ∧
    wrap16 (truncQ ((⌊((255 : Int) : ℚ) * p2⌋ : Int) : ℚ)) ≤ 255
  rw [truncQ_intCast, truncQ_intCast]
  unfold wrap16
  omega

/-- The level of the progress `n / d`, in exact arithmetic. -/
theorem level_div (n d : Nat) (_hd : 0 < d) (hn : n ≤ d) :
    wrap16 (exact.toInt (exact.floor (exact.mul (exact.ofInt 255) ((n : ℚ) / (d : ℚ))))) =
      ((255 * n / d : Nat) : Int) := by
  show wrap16 (truncQ ((⌊((255 : Int) : ℚ) * ((n : ℚ) / (d : ℚ))⌋ : Int) : ℚ)) = _
  rw [truncQ_intCast]
  have e : ((255 : Int) : ℚ) * ((n : ℚ) / (d : ℚ)) = ((255 * n : Nat) : ℚ) / (d : ℚ) := by
    push_cast
    ring
  rw [e, Rat.floor_natCast_div_natCast, ← Int.natCast_div]
  have hle : 255 * n / d ≤ 255 := by
    apply Nat.div_le_of_le_mul
    nlinarith
  generalize 255 * n / d = m at hle ⊢
  unfold wrap16
  omega

/-- The progress of a window, in exact arithmetic, at two clock readings that
are not before the start of the window: it does not decrease. The
denominator at the first reading is assumed not to be zero. -/
theorem progress_mono (begin finish now1 now2 : Nat) (h2 : now2 < 4294967296)
    (hfin : finish < 4294967296) (hb : begin ≤ now1) (h12 : now1 ≤ now2)
    (hden : 0 < uadd (usub now1 begin) (millisTo now1 finish)) :
    0 ≤ progressOf exact (usub now1 begin) (millisTo now1 finish) ∧
    progressOf exact (usub now1 begin) (millisTo now1 finish) ≤
      progressOf exact (usub now2 begin) (millisTo now2 finish) ∧
    progressOf exact (usub now2 begin) (millisTo now2 finish) ≤ 1 := by
  have ha1 : usub now1 begin = now1 - begin := usub_of_le _ _ hb (by omega)
  have ha2 : usub now2 begin = now2 - begin := usub_of_le _ _ (by omega) h2
  have hm1 : millisTo now1 finish = if now1 > finish then 0 else finish - now1 := by
    unfold millisTo
    split_ifs with h
    · rfl
    · exact usub_of_le _ _ (by omega) hfin
  have hm2 : millisTo now2 finish = if now2 > finish then 0 else finish - now2 := by
    unfold millisTo
    split_ifs with h
    · rfl
    · exact usub_of_le _ _ (by omega) hfin
  rw [ha1, hm1] at hden
  rw [progressOf_exact, progressOf_exact, ha1, ha2, hm1, hm2]
  have hu1 : uadd (now1 - begin) (if now1 > finish then 0 else finish - now1) =
      (now1 - begin) + (if now1 > finish then 0 else finish - now1) := by
    unfold uadd
    split_ifs <;> omega
  have hu2 : uadd (now2 - begin) (if now2 > finish then 0 else finish - now2) =
      (now2 - begin) + (if now2 > finish then 0 else finish - now2) := by
    unfold uadd
    split_ifs <;> omega
  rw [hu1] at hden
  rw [hu1, hu2]
  have hd1 : (0 : ℚ) <
      (((now1 - begin) + (if now1 > finish then 0 else finish - now1) : Nat) : ℚ) := by
    exact_mod_cast hden
  have hden2 : 0 < (now2 - begin) + (if now2 > finish then 0 else finish - now2) := by
    split_ifs at hden ⊢ <;> omega
  have hd2 : (0 : ℚ) <
      (((now2 - begin) + (if now2 > finish then 0 else finish - now2) : Nat) : ℚ) := by
    exact_mod_cast hden2
  refine ⟨div_nonneg (by exact_mod_cast Nat.zero_le _) (le_of_lt hd1), ?_, ?_⟩
  · rw [div_le_div_iff₀ hd1 hd2]
    have key : (now1 - begin) * ((now2 - begin) + (if now2 > finish then 0 else finish - now2)) ≤
        (now2 - begin) * ((now1 - begin) + (if now1 > finish then 0 else finish - now1)) := by
      split_ifs with c2 c1 c1
      · simp only [Nat.add_zero]
        exact le_of_eq (Nat.mul_comm _ _)
      · simp only [Nat.add_zero]
        have e : now1 - begin + (finish - now1) = finish - begin := by omega
        rw [e, Nat.mul_comm]
        exact Nat.mul_le_mul_left _ (by omega)
      · omega
      · have e1 : now1 - begin + (finish - now1) = finish - begin := by omega
        have e2 : now2 - begin + (finish - now2) = finish - begin := by omega
        rw [e1, e2]
        exact Nat.mul_le_mul_right _ (by omega)
    exact_mod_cast key
  · rw [div_le_one hd2]
    exact_mod_cast Nat.le_add_right _ _

/-- The progress is 1 after the end of a window that has begun, in exact
arithmetic. -/
theorem progress_after (begin finish now : Nat) (hnow : now < 4294967296)
    (_hfin : finish < 4294967296) (hb : begin < now) (he : finish ≤ now) :
    progressOf exact (usub now begin) (millisTo now finish) = 1 := by
  have ha : usub now begin = now - begin := usub_of_le _ _ (le_of_lt hb) hnow
  have hm : millisTo now finish = 0 := by
    unfold millisTo
    split_ifs with h
    · rfl
    · have : finish = now := by omega
      rw [this]
      unfold usub u32
      omega
  rw [progressOf_exact, ha, hm]
  have hu : uadd (now - begin) 0 = now - begin := by unfold uadd; omega
  rw [hu]
  have hpos : (0 : ℚ) < ((now - begin : Nat) : ℚ) := by
    exact_mod_cast (by omega : 0 < now - begin)
  exact div_self (ne_of_gt hpos)

/-- A zero denominator at a reading that is not before the start of the
window: the reading is the start, and the window has no length. -/
theorem degenerate_window (begin finish now : Nat) (hnow : now < 4294967296)
    (hfin : finish < 4294967296) (hb : begin ≤ now)
    (hden : ¬ 0 < uadd (usub now begin) (millisTo now finish)) :
    now = begin ∧ finish ≤ begin := by
  have ha : usub now begin = now - begin := usub_of_le _ _ hb hnow
  rw [ha] at hden
  unfold millisTo uadd at hden
  split_ifs at hden with h
  · omega
  · rw [usub_of_le _ _ (by omega) hfin] at hden
    omega

theorem riseBrightness_one : riseBrightness exact (1 : ℚ) = 255 := by
  have h := level_div 1 1 (by norm_num) (le_refl 1)
  have e : ((1 : Nat) : ℚ) / ((1 : Nat) : ℚ) = 1 := by norm_num
  rw [e] at h
  simp only [riseBrightness, h]
  simp [cmax, cmin]

theorem fallBrightness_one : fallBrightness exact (1 : ℚ) = 8 := by
  have h := level_div 1 1 (by norm_num) (le_refl 1)
  have e : ((1 : Nat) : ℚ) / ((1 : Nat) : ℚ) = 1 := by norm_num
  rw [e] at h
  simp only [fallBrightness, h]
  simp [cmax, wrap16]

/-- The two brightness formulas along a progress that does not decrease. -/
theorem brightness_mono (p1 p2 : ℚ) (h0 : 0 ≤ p1) (h12 : p1 ≤ p2) (h1 : p2 ≤ 1) :
    riseBrightness exact p1 ≤ riseBrightness exact p2 ∧
    fallBrightness exact p2 ≤ fallBrightness exact p1 := by
  obtain ⟨l0, l12, l1⟩ := level_mono p1 p2 h0 h12 h1
  simp only [riseBrightness, fallBrightness, cmax, cmin]
  generalize wrap16 (exact.toInt (exact.floor (exact.mul (exact.ofInt 255) p1))) = a at l0 l12 ⊢
  generalize wrap16 (exact.toInt (exact.floor (exact.mul (exact.ofInt 255) p2))) = b at l12 l1 ⊢
  have wa : wrap16 (255 - a) = 255 - a := by unfold wrap16; omega
  have wb : wrap16 (255 - b) = 255 - b := by unfold wrap16; omega
  rw [wa, wb]
  constructor <;> split_ifs <;> omega

/-- The brightness of a window at two readings that are not before its start,
in exact arithmetic. -/
theorem window_mono (begin finish now1 now2 : Nat) (h2 : now2 < 4294967296)
    (hfin : finish < 4294967296) (hb : begin ≤ now1) (h12 : now1 ≤ now2) :
    riseBrightness exact (progressOf exact (usub now1 begin) (millisTo now1 finish)) ≤
      riseBrightness exact (progressOf exact (usub now2 begin) (millisTo now2 finish)) ∧
    fallBrightness exact (progressOf exact (usub now2 begin) (millisTo now2 finish)) ≤
      fallBrightness exact (progressOf exact (usub now1 begin) (millisTo now1 finish)) := by
  by_cases hden : 0 < uadd (usub now1 begin) (millisTo now1 finish)
  · obtain ⟨p0, p12, p1⟩ := progress_mono begin finish now1 now2 h2 hfin hb h12 hden
    exact brightness_mono _ _ p0 p12 p1
  · obtain ⟨e1, e2⟩ := degenerate_window begin finish now1 (by omega) hfin hb hden
    by_cases heq : now2 = now1
    · rw [heq]
      exact ⟨le_refl _, le_refl _⟩
    · rw [progress_after begin finish now2 h2 hfin (by omega) (by omega), riseBrightness_one,
        fallBrightness_one]
      exact ⟨(riseBrightness_bounds exact _).2, (fallBrightness_lower exact _).1⟩

/-- C12: in exact arithmetic the petal ramp is monotone in the clock. With
`beginLedRiseTime` and `endLedRiseTime` fixed, for all clock readings
`beginLedRiseTime <= now1 <= now2` the brightness written by `runLedRising` at
`now1` is at most the one written at `now2`; with `beginLedFallTime` and
`endLedFallTime` fixed, for all `beginLedFallTime <= now1 <= now2` the
brightness written by `runLedFalling` at `now1` is at least the one written
at `now2`. -/
theorem petal_ramp_monotone (s : State exact.F) (now1 now2 : Nat) (h2 : now2 < 4294967296)
    (h12 : now1 ≤ now2) :
    (s.endLedRiseTime < 4294967296 → s.beginLedRiseTime ≤ now1 →
      (runLedRising exact s now1).2.ledBrightness ≤ (runLedRising exact s now2).2.ledBrightness ∧
      (runLedRising exact s now1).2.petalRed ≤ (runLedRising exact s now2).2.petalRed) ∧
    (s.endLedFallTime < 4294967296 → s.beginLedFallTime ≤ now1 →
      (runLedFalling exact s now2).2.ledBrightness ≤ (runLedFalling exact s now1).2.ledBrightness ∧
      (runLedFalling exact s now2).2.petalRed ≤ (runLedFalling exact s now1).2.petalRed) := by
  have hm1 : millis now1 = now1 := millis_small now1 (by omega)
  have hm2 : millis now2 = now2 := millis_small now2 h2
  constructor
  · intro hfin hb
    have h := (window_mono s.beginLedRiseTime s.endLedRiseTime now1 now2 h2 hfin hb h12).1
    obtain ⟨a0, a1⟩ := riseBrightness_bounds exact (riseProgress exact s now1)
    obtain ⟨b0, b1⟩ := riseBrightness_bounds exact (riseProgress exact s now2)
    obtain ⟨ea, ea2⟩ := u16_of_range _ (by omega) (by omega : riseBrightness exact (riseProgress exact s now1) ≤ 32767)
    obtain ⟨eb, eb2⟩ := u16_of_range _ (by omega) (by omega : riseBrightness exact (riseProgress exact s now2) ≤ 32767)
    have h' : riseBrightness exact (riseProgress exact s now1) ≤
        riseBrightness exact (riseProgress exact s now2) := by
      simp only [riseProgress, hm1, hm2]
      exact h
    simp only [runLedRising]
    constructor
    · omega
    · rw [ea2, eb2]
      exact h'
  · intro hfin hb
    have h := (window_mono s.beginLedFallTime s.endLedFallTime now1 now2 h2 hfin hb h12).2
    obtain ⟨a0, a1⟩ := fallBrightness_lower exact (fallProgress exact s now1)
    obtain ⟨b0, b1⟩ := fallBrightness_lower exact (fallProgress exact s now2)
    obtain ⟨ea, ea2⟩ := u16_of_range _ (by omega) a1
    obtain ⟨eb, eb2⟩ := u16_of_range _ (by omega) b1
    have h' : fallBrightness exact (fallProgress exact s now2) ≤
        fallBrightness exact (fallProgress exact s now1) := by
      simp only [fallProgress, hm1, hm2]
      exact h
    simp only [runLedFalling]
    constructor
    · omega
    · rw [ea2, eb2]
      exact h'

/-- Witness of C12: the fall window [1000, 1600] at the readings 1200 and
1500. -/
theorem petal_ramp_monotone_witness :
    (midFall.endLedFallTime < 4294967296 ∧ midFall.beginLedFallTime ≤ 1200) ∧
    (runLedFalling exact midFall 1500).2.ledBrightness ≤
      (runLedFalling exact midFall 1200).2.ledBrightness := by
  have h1 : midFall.endLedFallTime < 4294967296 := by
    show (1600 : Nat) < 4294967296
    norm_num
  have h2 : midFall.beginLedFallTime ≤ 1200 := by
    show (1000 : Nat) ≤ 1200
    norm_num
  exact ⟨⟨h1, h2⟩,
    ((petal_ramp_monotone midFall 1200 1500 (by norm_num) (by norm_num)).2 h1 h2).1⟩

/-- Counterexample to C16: `beginLedFalling` is called at 4294967000 ms, so
`endLedFallTime` wraps to 304. At 4294967100 ms, 100 ms later, `runLedFalling`
writes the floor 8 and reports completion; `max(255 - floor(255*100/600), 8)`
is 213. -/
theorem fall_cut_at_clock_wrap :
    lateFall.beginLedFallTime = 4294967000 ∧ lateFall.endLedFallTime = 304 ∧
    (runLedFalling exact lateFall 4294967100).2.ledBrightness = 8 ∧
    (runLedFalling exact lateFall 4294967100).1 = true ∧
    4294967100 < 4294967000 + 600 ∧ max (255 - 255 * (4294967100 - 4294967000) / 600) 8 = 213 := by
  have hb : lateFall.beginLedFallTime = 4294967000 := by
    simp [lateFall, beginLedFalling, millis]
  have he : lateFall.endLedFallTime = 304 := by
    simp [lateFall, beginLedFalling, millis, uadd]
  have hp : fallProgress exact lateFall 4294967100 = (1 : ℚ) := by
    simp only [fallProgress, hb, he]
    rw [millis_small _ (by norm_num)]
    exact progress_after 4294967000 304 4294967100 (by norm_num) (by norm_num) (by norm_num)
      (by norm_num)
  refine ⟨hb, he, ?_, ?_, by norm_num, by norm_num⟩
  · simp only [runLedFalling, hp, fallBrightness_one]
    rfl
  · simp only [runLedFalling, hp]
    exact decide_eq_true (le_refl _)

/-- C16, amended: the fall window is exactly 600 ms when the 32-bit clock does
not wrap inside it, `t0 + 600 < 2^32`. Then, in exact arithmetic, after
`beginLedFalling` at `t0`, for every clock reading `now >= t0`, `runLedFalling`
writes `max(255 - floor(255 * (now - t0) / 600), 8)` and returns false while
`now < t0 + 600`, and writes 8 and returns true once `now >= t0 + 600`. -/
theorem fall_window (s : State exact.F) (t0 now : Nat) (hwrap : t0 + 600 < 4294967296)
    (h0 : t0 ≤ now) (hnow : now < 4294967296) :
    (now < t0 + 600 →
      (runLedFalling exact (beginLedFalling s t0) now).2.ledBrightness =
        max (255 - 255 * (now - t0) / 600) 8 ∧
      (runLedFalling exact (beginLedFalling s t0) now).2.petalRed =
        ((max (255 - 255 * (now - t0) / 600) 8 : Nat) : Int) ∧
      (runLedFalling exact (beginLedFalling s t0) now).1 = false) ∧
    (t0 + 600 ≤ now →
      (runLedFalling exact (beginLedFalling s t0) now).2.ledBrightness = 8 ∧
      (runLedFalling exact (beginLedFalling s t0) now).2.petalRed = 8 ∧
      (runLedFalling exact (beginLedFalling s t0) now).1 = true) := by
  have hm : millis now = now := millis_small now hnow
  have hb : (beginLedFalling s t0).beginLedFallTime = t0 := millis_small t0 (by omega)
  have he : (beginLedFalling s t0).endLedFallTime = t0 + 600 := by
    show uadd (millis t0) 600 = t0 + 600
    rw [millis_small t0 (by omega)]
    unfold uadd
    omega
  constructor
  · intro hlt
    have ha : usub now t0 = now - t0 := usub_of_le _ _ h0 hnow
    have hmt : millisTo now (t0 + 600) = t0 + 600 - now := by
      unfold millisTo
      rw [if_neg (by omega)]
      exact usub_of_le _ _ (by omega) hwrap
    have hu : uadd (now - t0) (t0 + 600 - now) = 600 := by unfold uadd; omega
    have hp : fallProgress exact (beginLedFalling s t0) now = ((now - t0 : Nat) : ℚ) / ((600 : Nat) : ℚ) := by
      simp only [fallProgress, hb, he, hm]
      rw [progressOf_exact, ha, hmt, hu]
    have hlev := level_div (now - t0) 600 (by norm_num) (by omega)
    have hq : 255 * (now - t0) / 600 ≤ 254 := by omega
    have hbr : fallBrightness exact (fallProgress exact (beginLedFalling s t0) now) =
        ((max (255 - 255 * (now - t0) / 600) 8 : Nat) : Int) := by
      rw [hp]
      simp only [fallBrightness, hlev, cmax]
      generalize 255 * (now - t0) / 600 = m at hq ⊢
      have hw : wrap16 (255 - (m : Int)) = 255 - (m : Int) := by unfold wrap16; omega
      rw [hw]
      split_ifs <;> omega
    refine ⟨?_, ?_, ?_⟩
    · simp only [runLedFalling, hbr]
      unfold u16
      omega
    · simp only [runLedFalling, hbr]
      unfold u16 wrap16
      omega
    · simp only [runLedFalling, hp]
      rw [decide_eq_false_iff_not, not_le, div_lt_one (by norm_num)]
      exact_mod_cast (by omega : now - t0 < 600)
  · intro hge
    have hp : fallProgress exact (beginLedFalling s t0) now = (1 : ℚ) := by
      simp only [fallProgress, hb, he, hm]
      exact progress_after t0 (t0 + 600) now hnow hwrap (by omega) hge
    refine ⟨?_, ?_, ?_⟩
    · simp only [runLedFalling, hp, fallBrightness_one]
      rfl
    · simp only [runLedFalling, hp, fallBrightness_one]
      rfl
    · simp only [runLedFalling, hp]
      exact decide_eq_true (le_refl _)

/-- Witness of the amended C16: the fall begins at 1000 ms; at 1300 ms the
brightness is 128 and the fall is not complete. -/
theorem fall_window_witness :
    (1000 + 600 < 4294967296 ∧ 1000 ≤ 1300 ∧ 1300 < 4294967296 ∧ 1300 < 1000 + 600) ∧
    (runLedFalling exact (beginLedFalling (initState exact) 1000) 1300).2.ledBrightness =
      max (255 - 255 * (1300 - 1000) / 600) 8 ∧
    max (255 - 255 * (1300 - 1000) / 600) 8 = 128 := by
  refine ⟨⟨by norm_num, by norm_num, by norm_num, by norm_num⟩,
    ((fall_window (initState exact) 1000 1300 (by norm_num) (by norm_num) (by norm_num)).1
      (by norm_num)).1, by norm_num⟩

/-! ## C11 and C19: the orchestrator -/

theorem outer_trackPeak (fl : FloatSem) (s : State fl.F) (t : Tick) :
    outer (trackPeak fl s t) = outer s := by
  unfold trackPeak
  split_ifs <;> rfl

theorem outer_trackValley (fl : FloatSem) (s : State fl.F) (t : Tick) :
    outer (trackValley fl s t) = outer s := by
  unfold trackValley
  split_ifs <;> rfl

theorem outer_classify (fl : FloatSem) (s : State fl.F) (t : Tick) :
    outer (classify fl s t) = outer s := by
  unfold classify
  split_ifs <;> rfl

theorem outer_classified (fl : FloatSem) (s : State fl.F) (t : Tick) :
    outer (classified fl s t) = outer s := by
  unfold classified
  rw [outer_classify, outer_trackValley, outer_trackPeak]
  rfl

/-- The animator fields after `edge`: a beat start runs `newHeartbeat`, the
other events change nothing. -/
theorem edge_outer {F : Type} (s : State F) (t : Tick) (ev : Int) (s1 : State F)
    (h : edge s t = Except.ok (ev, s1)) :
    (ev = 1 ∨ ev = 0 ∨ ev = -1) ∧
    outer s1 = if ev = 1 then heartbeatO (outer s) else outer s := by
  simp only [edge] at h
  split_ifs at h with h1 h2 h3
  · simp only [Except.ok.injEq, Prod.mk.injEq] at h
    obtain ⟨rfl, rfl⟩ := h
    exact ⟨Or.inr (Or.inr rfl), by simp⟩
  · simp only [Except.ok.injEq, Prod.mk.injEq] at h
    obtain ⟨rfl, rfl⟩ := h
    exact ⟨Or.inl rfl, by rw [if_pos rfl]; rfl⟩
  · simp only [Except.ok.injEq, Prod.mk.injEq] at h
    obtain ⟨rfl, rfl⟩ := h
    exact ⟨Or.inr (Or.inl rfl), by simp⟩

/-- The animator fields after a call of `readPulseSensor` that returns. -/
theorem readPulseSensor_outer (fl : FloatSem) (s s1 : State fl.F) (t : Tick) (ev : Int)
    (h : readPulseSensor fl s t = Except.ok (ev, s1)) :
    (ev = 1 ∨ ev = 0 ∨ ev = -1) ∧
    outer s1 = if ev = 1 then heartbeatO (outer s) else outer s := by
  by_cases hz : zeroSample t
  · rw [readPulseSensor_zero fl s t hz] at h; cases h
  · by_cases hp : (presence (lazyTimers s t) t).foundNewFinger < 20
    · rw [readPulseSensor_priming fl s t hz hp] at h
      simp only [Except.ok.injEq, Prod.mk.injEq] at h
      obtain ⟨rfl, rfl⟩ := h
      exact ⟨Or.inr (Or.inl rfl), by simp; rfl⟩
    · by_cases ht : totalOf t > 20000
      · rw [readPulseSensor_running fl s t hz hp ht] at h
        have h2 := edge_outer _ t ev s1 h
        rw [outer_classified] at h2
        exact h2
      · rw [readPulseSensor_idle fl s t hz hp ht] at h
        simp only [Except.ok.injEq, Prod.mk.injEq] at h
        obtain ⟨rfl, rfl⟩ := h
        exact ⟨Or.inr (Or.inl rfl), by simp; rfl⟩

/-- A stem step leaves the two state variables and the strip length alone. -/
theorem runStemRising_modes (fl : FloatSem) (s : State fl.F) (now : Nat) :
    (runStemRising fl s now).2.appState = s.appState ∧
    (runStemRising fl s now).2.petalState = s.petalState ∧
    (runStemRising fl s now).2.stripLedCount = s.stripLedCount := by
  unfold runStemRising
  simp only []
  split_ifs <;> exact ⟨rfl, rfl, rfl⟩

/-- The petal phase of a pass does not touch the strip. -/
theorem petalPhase_strip (fl : FloatSem) (s : State fl.F) (c : LoopClock) :
    (petalPhase fl s c).pixels = s.pixels ∧
    (petalPhase fl s c).currentStripLed = s.currentStripLed ∧
    (petalPhase fl s c).stripLedCount = s.stripLedCount := by
  unfold petalPhase
  by_cases h1 : risingRuns s
  · rw [if_pos h1]
    by_cases h2 : (runLedRising fl s c.ms295).1 = true
    · rw [if_pos h2]; exact ⟨rfl, rfl, rfl⟩
    · rw [if_neg h2]; exact ⟨rfl, rfl, rfl⟩
  · rw [if_neg h1]
    by_cases h3 : s.appState = AppState.STATE_LED_FALLING ∨ s.petalState = AppState.STATE_LED_FALLING
    · rw [if_pos h3]
      by_cases h4 : (runLedFalling fl s c.ms328).1 = true
      · rw [if_pos h4]; exact ⟨rfl, rfl, rfl⟩
      · rw [if_neg h4]; exact ⟨rfl, rfl, rfl⟩
    · rw [if_neg h3]; exact ⟨rfl, rfl, rfl⟩

/-- The petal phase of a pass neither enters nor leaves the stem state. -/
theorem petalPhase_stem (fl : FloatSem) (s : State fl.F) (c : LoopClock) :
    (petalPhase fl s c).appState = AppState.STATE_STEM_RISING ↔
      s.appState = AppState.STATE_STEM_RISING := by
  unfold petalPhase
  by_cases h1 : risingRuns s
  · rw [if_pos h1]
    by_cases h2 : (runLedRising fl s c.ms295).1 = true
    · rw [if_pos h2]
      show (if s.appState = AppState.STATE_LED_RISING then AppState.STATE_LED_FALLING
        else s.appState) = AppState.STATE_STEM_RISING ↔ _
      by_cases h5 : s.appState = AppState.STATE_LED_RISING
      · rw [if_pos h5, h5]; decide
      · rw [if_neg h5]
    · rw [if_neg h2]; exact Iff.rfl
  · rw [if_neg h1]
    by_cases h3 : s.appState = AppState.STATE_LED_FALLING ∨ s.petalState = AppState.STATE_LED_FALLING
    · rw [if_pos h3]
      by_cases h4 : (runLedFalling fl s c.ms328).1 = true
      · rw [if_pos h4]
        show (if s.appState = AppState.STATE_LED_FALLING then AppState.STATE_RESTING
          else s.appState) = AppState.STATE_STEM_RISING ↔ _
        by_cases h5 : s.appState = AppState.STATE_LED_FALLING
        · rw [if_pos h5, h5]; decide
        · rw [if_neg h5]
      · rw [if_neg h4]; exact Iff.rfl
    · rw [if_neg h3]

/-- The petal phase of a pass stores only the resting and the falling state
in `petalState`. -/
theorem petalPhase_petal (fl : FloatSem) (s : State fl.F) (c : LoopClock) :
    (petalPhase fl s c).petalState = AppState.STATE_RESTING ∨
    (petalPhase fl s c).petalState = AppState.STATE_LED_FALLING ∨
    (petalPhase fl s c).petalState = s.petalState := by
  unfold petalPhase
  by_cases h1 : risingRuns s
  · rw [if_pos h1]
    by_cases h2 : (runLedRising fl s c.ms295).1 = true
    · rw [if_pos h2]; exact Or.inr (Or.inl rfl)
    · rw [if_neg h2]; exact Or.inr (Or.inr rfl)
  · rw [if_neg h1]
    by_cases h3 : s.appState = AppState.STATE_LED_FALLING ∨ s.petalState = AppState.STATE_LED_FALLING
    · rw [if_pos h3]
      by_cases h4 : (runLedFalling fl s c.ms328).1 = true
      · rw [if_pos h4]; exact Or.inl rfl
      · rw [if_neg h4]; exact Or.inr (Or.inr rfl)
    · rw [if_neg h3]; exact Or.inr (Or.inr rfl)

/-- The stem phase of a pass does not touch `petalState`. -/
theorem stemPhase_petal (fl : FloatSem) (ev : Int) (s : State fl.F) (c : LoopClock) :
    (stemPhase fl ev s c).petalState = s.petalState := by
  unfold stemPhase
  split_ifs
  · rfl
  · exact (runStemRising_modes fl s c.ms226).2.1
  · exact (runStemRising_modes fl s c.ms226).2.1
  · rfl

/-- Without a beat start, the stem phase of a pass does not enter the stem
state. -/
theorem stemPhase_quiet (fl : FloatSem) (ev : Int) (s : State fl.F) (c : LoopClock) (hev : ev ≤ 0)
    (h : (stemPhase fl ev s c).appState = AppState.STATE_STEM_RISING) :
    s.appState = AppState.STATE_STEM_RISING := by
  unfold stemPhase at h
  split_ifs at h with h1 h2 h3
  · omega
  · exact h2
  · exact h2
  · exact h

/-- With a beat start, the stem phase of a pass only writes `appState`. -/
theorem stemPhase_beat (fl : FloatSem) (s : State fl.F) (c : LoopClock) :
    stemPhase fl 1 s c = { s with appState := AppState.STATE_STEM_RISING } := by
  unfold stemPhase
  rw [if_pos (by decide)]

theorem decisive_risingPrimed : decisive risingPrimed = primed 19 := by
  simp [decisive, risingPrimed, primed, initState, setup, boot, clearStemLeds, exact]

theorem risingPrimed_strip :
    risingPrimed.stripLedCount = (risingPrimed.pixels.length : Int) ∧
    risingPrimed.pixels.length ≤ 32767 ∧ risingPrimed.pixels[120]? = some ⟨255, 0, 0⟩ := by
  obtain ⟨h1, h2⟩ := initState_strip exact
  have hpx : risingPrimed.pixels = (initState exact).pixels.set 120 ⟨255, 0, 0⟩ := by
    simp only [risingPrimed]
  have hc : risingPrimed.stripLedCount = (initState exact).stripLedCount := by
    simp only [risingPrimed]
  rw [hpx, hc, List.length_set, List.getElem?_set]
  refine ⟨h1, by rw [h2]; norm_num, ?_⟩
  rw [if_pos rfl, if_pos (by rw [h2]; norm_num)]

/-- C11: in a pass of `loop` whose call of `readPulseSensor` returns, from any
state, (a) when it returns 1 the stem phase of the pass only writes
`appState`, so no stem step runs, and the pass ends with
`appState = STATE_STEM_RISING`, `currentStripLed = 0` and the strip that
`clearStemLeds` leaves, in which every pixel is black when `stripLedCount` is
the length of the strip; (b) when it returns 0 or -1 the pass ends in the stem
state only if it started there. -/
theorem beat_start_forces_stem (fl : FloatSem) (s s1 : State fl.F) (t : Tick) (c : LoopClock)
    (ev : Int) (h : readPulseSensor fl s t = Except.ok (ev, s1)) :
    loop fl s t c = Except.ok (petalPhase fl (stemPhase fl ev s1 c) c) ∧
    (ev = 1 →
      stemPhase fl ev s1 c = { s1 with appState := AppState.STATE_STEM_RISING } ∧
      (petalPhase fl (stemPhase fl ev s1 c) c).appState = AppState.STATE_STEM_RISING ∧
      (petalPhase fl (stemPhase fl ev s1 c) c).currentStripLed = 0 ∧
      (petalPhase fl (stemPhase fl ev s1 c) c).pixels = clearPixels s.stripLedCount s.pixels ∧
      (s.stripLedCount = (s.pixels.length : Int) → s.pixels.length ≤ 32767 →
        (petalPhase fl (stemPhase fl ev s1 c) c).pixels.length = s.pixels.length ∧
        ∀ p ∈ (petalPhase fl (stemPhase fl ev s1 c) c).pixels, p = black)) ∧
    (ev = 0 ∨ ev = -1 →
      (petalPhase fl (stemPhase fl ev s1 c) c).appState = AppState.STATE_STEM_RISING →
      s.appState = AppState.STATE_STEM_RISING) := by
  have ho := (readPulseSensor_outer fl s s1 t ev h).2
  refine ⟨by unfold loop; rw [h], ?_, ?_⟩
  · intro h1
    subst h1
    rw [if_pos rfl] at ho
    have hcur : s1.currentStripLed = 0 := congrArg Outer.currentStripLed ho
    have hpx : s1.pixels = clearPixels s.stripLedCount s.pixels := congrArg Outer.pixels ho
    obtain ⟨p1, p2, _⟩ := petalPhase_strip fl (stemPhase fl 1 s1 c) c
    have hst := stemPhase_beat fl s1 c
    have hpix : (petalPhase fl (stemPhase fl 1 s1 c) c).pixels =
        clearPixels s.stripLedCount s.pixels := by rw [p1, hst]; exact hpx
    refine ⟨hst, ?_, ?_, hpix, ?_⟩
    · rw [petalPhase_stem, hst]
    · rw [p2, hst]; exact hcur
    · intro hc hlen
      rw [hpix]
      exact clearPixels_black s.stripLedCount s.pixels hc hlen
  · intro h0 hend
    have hne : ¬ ev = 1 := by omega
    rw [if_neg hne] at ho
    have happ : s1.appState = s.appState := congrArg Outer.appState ho
    rw [petalPhase_stem] at hend
    rw [← happ]
    exact stemPhase_quiet fl ev s1 c (by omega) hend

/-- Witness of C11: from `risingPrimed`, whose petal is rising and whose pixel
120 is lit, the pass on a steady finger at 1000 ms sees a beat start. -/
theorem beat_start_forces_stem_witness :
    ∃ s1 s2 : State exact.F,
      readPulseSensor exact risingPrimed steady = Except.ok (1, s1) ∧
      risingPrimed.pixels[120]? = some ⟨255, 0, 0⟩ ∧
      loop exact risingPrimed steady (clockAt 1000) = Except.ok s2 ∧
      s2.appState = AppState.STATE_STEM_RISING ∧ s2.currentStripLed = 0 ∧
      ∀ p ∈ s2.pixels, p = black := by
  have hstep := stepD_beat steady finger_steady rfl
  have hm : millis steady.ms495 = 1000 := by simp [millis, steady, tickAt]
  rw [hm, if_neg (by norm_num), ← decisive_risingPrimed] at hstep
  obtain ⟨s1, h1, _⟩ := call_of_stepD exact risingPrimed steady 1 _ hstep
  obtain ⟨hl, hb, _⟩ := beat_start_forces_stem exact risingPrimed s1 steady (clockAt 1000) 1 h1
  obtain ⟨_, ha, hc, _, hp⟩ := hb rfl
  exact ⟨s1, _, h1, risingPrimed_strip.2.2, hl, ha, hc,
    (hp risingPrimed_strip.1 risingPrimed_strip.2.1).2⟩

/-- What a pass of `loop` that ends returns. -/
theorem loop_ok (fl : FloatSem) (s s2 : State fl.F) (t : Tick) (c : LoopClock)
    (h : loop fl s t c = Except.ok s2) :
    ∃ ev s1, readPulseSensor fl s t = Except.ok (ev, s1) ∧
      s2 = petalPhase fl (stemPhase fl ev s1 c) c := by
  unfold loop at h
  cases hr : readPulseSensor fl s t with
  | error e => rw [hr] at h; cases h
  | ok r =>
    obtain ⟨ev, s1⟩ := r
    rw [hr] at h
    simp only [Except.ok.injEq] at h
    exact ⟨ev, s1, rfl, h.symm⟩

theorem readPulseSensor_petal (fl : FloatSem) (s s1 : State fl.F) (t : Tick) (ev : Int)
    (h : readPulseSensor fl s t = Except.ok (ev, s1)) : s1.petalState = s.petalState := by
  have ho := (readPulseSensor_outer fl s s1 t ev h).2
  by_cases h1 : ev = 1
  · rw [if_pos h1] at ho; exact congrArg Outer.petalState ho
  · rw [if_neg h1] at ho; exact congrArg Outer.petalState ho

/-- The petal state of a reachable state is the resting or the falling one. -/
theorem reachable_petal (fl : FloatSem) (s : State fl.F) (hr : Reachable fl s) :
    s.petalState = AppState.STATE_RESTING ∨ s.petalState = AppState.STATE_LED_FALLING := by
  induction hr with
  | setup => exact Or.inl rfl
  | pass s s2 t c _ hl ih =>
    obtain ⟨ev, s1, h1, rfl⟩ := loop_ok fl s _ t c hl
    rcases petalPhase_petal fl (stemPhase fl ev s1 c) c with h | h | h
    · exact Or.inl h
    · exact Or.inr h
    · rw [h, stemPhase_petal, readPulseSensor_petal fl s s1 t ev h1]
      exact ih

/-- C19: in a state reachable from `setup` by passes of `loop`, `petalState`
is `STATE_RESTING` or `STATE_LED_FALLING`, never `STATE_LED_RISING` nor
`STATE_STEM_RISING`. So in a pass from such a state the petal rising step runs
exactly when `appState` is `STATE_LED_RISING` at line 188; and a pass whose
call of `readPulseSensor` returns 1 runs no rising step and ends in the stem
state, whatever `appState` was. -/
theorem petal_state_invariant (fl : FloatSem) (s : State fl.F) (hr : Reachable fl s) :
    (s.petalState = AppState.STATE_RESTING ∨ s.petalState = AppState.STATE_LED_FALLING) ∧
    s.petalState ≠ AppState.STATE_LED_RISING ∧ s.petalState ≠ AppState.STATE_STEM_RISING ∧
    ∀ (t : Tick) (c : LoopClock) (ev : Int) (s1 : State fl.F),
      readPulseSensor fl s t = Except.ok (ev, s1) →
      (risingRuns (stemPhase fl ev s1 c) ↔
        (stemPhase fl ev s1 c).appState = AppState.STATE_LED_RISING) ∧
      (ev = 1 →
        ¬ risingRuns (stemPhase fl ev s1 c) ∧
        loop fl s t c = Except.ok (petalPhase fl (stemPhase fl ev s1 c) c) ∧
        (petalPhase fl (stemPhase fl ev s1 c) c).appState = AppState.STATE_STEM_RISING) := by
  have hp := reachable_petal fl s hr
  have hne : s.petalState ≠ AppState.STATE_LED_RISING ∧
      s.petalState ≠ AppState.STATE_STEM_RISING := by
    rcases hp with h | h <;> rw [h] <;> exact ⟨by decide, by decide⟩
  refine ⟨hp, hne.1, hne.2, ?_⟩
  intro t c ev s1 h
  have hps : (stemPhase fl ev s1 c).petalState = s.petalState := by
    rw [stemPhase_petal, readPulseSensor_petal fl s s1 t ev h]
  have hiff : risingRuns (stemPhase fl ev s1 c) ↔
      (stemPhase fl ev s1 c).appState = AppState.STATE_LED_RISING := by
    unfold risingRuns
    rw [hps]
    exact ⟨fun h1 => h1.elim id (fun h2 => absurd h2 hne.1), Or.inl⟩
  refine ⟨hiff, ?_⟩
  intro h1
  subst h1
  have hst := stemPhase_beat fl s1 c
  refine ⟨?_, by unfold loop; rw [h], ?_⟩
  · rw [hiff, hst]
    show ¬ AppState.STATE_STEM_RISING = AppState.STATE_LED_RISING
    decide
  · rw [petalPhase_stem, hst]

/-- Witness of C19: the state after one pass of `loop` from `setup`, on a
steady finger at 1000 ms. -/
theorem petal_state_invariant_witness :
    ∃ s2 : State exact.F,
      loop exact (initState exact) steady (clockAt 1000) = Except.ok s2 ∧
      (s2.petalState = AppState.STATE_RESTING ∨ s2.petalState = AppState.STATE_LED_FALLING) := by
  have hstep := stepD_cross steady finger_steady
  rw [← decisive_initState] at hstep
  obtain ⟨s1, h1, _⟩ := call_of_stepD exact (initState exact) steady 0 _ hstep
  have hl : loop exact (initState exact) steady (clockAt 1000) =
      Except.ok (petalPhase exact (stemPhase exact 0 s1 (clockAt 1000)) (clockAt 1000)) := by
    unfold loop; rw [h1]
  exact ⟨_, hl, (petal_state_invariant exact _
    (Reachable.pass _ _ steady (clockAt 1000) Reachable.setup hl)).1⟩

/-! ## C15 and C20: the window of the pulse -/

theorem mem_pulseWindow (i : Int) : i ∈ pulseWindow ↔ -20 ≤ i ∧ i < 20 := by
  unfold pulseWindow STEM_PULSE_WIDTH
  simp only [List.mem_map, List.mem_range]
  constructor
  · rintro ⟨k, hk, rfl⟩
    have : (2 * (20 : Int)).toNat = 40 := rfl
    omega
  · intro h
    refine ⟨(i + 20).toNat, ?_, ?_⟩
    · have : (2 * (20 : Int)).toNat = 40 := rfl
      omega
    · omega

/-- A loop that writes one colour leaves a pixel as it was or with that
colour. -/
theorem foldl_const_keep {α : Type} (idx : α → Int) (c : Colour) (p : Nat) (l : List α) :
    ∀ px : List Colour,
      (l.foldl (fun q a => setPixelColor q (idx a) c) px)[p]? = px[p]? ∨
      (l.foldl (fun q a => setPixelColor q (idx a) c) px)[p]? = some c := by
  induction l with
  | nil => intro px; exact Or.inl rfl
  | cons a l ih =>
    intro px
    rw [List.foldl_cons]
    rcases ih (setPixelColor px (idx a) c) with h | h
    · rw [h, setPixelColor_getElem?]
      by_cases hh : u16 (idx a) = p ∧ p < px.length
      · rw [if_pos hh]; exact Or.inr rfl
      · rw [if_neg hh]; exact Or.inl rfl
    · exact Or.inr h

/-- A loop that writes one colour leaves that colour at every index it
writes inside the strip. -/
theorem foldl_const_hit {α : Type} (idx : α → Int) (c : Colour) (p : Nat) (l : List α) :
    ∀ px : List Colour, p < px.length → (∃ a ∈ l, u16 (idx a) = p) →
      (l.foldl (fun q a => setPixelColor q (idx a) c) px)[p]? = some c := by
  induction l with
  | nil => intro px _ h; obtain ⟨a, ha, _⟩ := h; cases ha
  | cons a l ih =>
    intro px hp h
    rw [List.foldl_cons]
    by_cases hl : ∃ b ∈ l, u16 (idx b) = p
    · exact ih _ (by rw [setPixelColor_length]; exact hp) hl
    · obtain ⟨b, hb, hbp⟩ := h
      have hba : b = a := by
        rcases List.mem_cons.mp hb with h1 | h1
        · exact h1
        · exact absurd ⟨b, h1, hbp⟩ hl
      subst hba
      rcases foldl_const_keep idx c p l (setPixelColor px (idx b) c) with h2 | h2
      · rw [h2, setPixelColor_getElem?, if_pos ⟨hbp, hp⟩]
      · exact h2

/-- A loop with a guard leaves alone every pixel that none of its steps
writes. -/
theorem foldl_guard_skip {α : Type} (idx : α → Int) (col : α → Colour) (skip : α → Prop)
    [DecidablePred skip] (p : Nat) (l : List α) :
    ∀ px : List Colour, (∀ a ∈ l, ¬ skip a → u16 (idx a) ≠ p) →
      (l.foldl (fun q a => if skip a then q else setPixelColor q (idx a) (col a)) px)[p]? =
        px[p]? := by
  induction l with
  | nil => intro px _; rfl
  | cons a l ih =>
    intro px h
    rw [List.foldl_cons, ih _ (fun b hb => h b (List.mem_cons_of_mem a hb))]
    by_cases hs : skip a
    · rw [if_pos hs]
    · rw [if_neg hs, setPixelColor_getElem?,
        if_neg (fun hh => h a (List.mem_cons_self a l) hs hh.1)]

/-- The reset loop leaves a strip whose lit pixels were in the old window
all black. -/
theorem resetWindow_black (count cur : Int) (px : List Colour) (hc : count = (px.length : Int))
    (hlen : px.length ≤ 32767)
    (hw : ∀ (p : Nat) (c : Colour), px[p]? = some c → c ≠ black →
      cur - 20 ≤ (p : Int) ∧ (p : Int) ≤ cur + 19) :
    ∀ (p : Nat) (c : Colour), (resetWindow count cur px)[p]? = some c → c = black := by
  intro p c hpc
  unfold resetWindow at hpc
  rcases foldl_const_keep (fun i => cmin (count - 1) (wrap16 (cur + i))) (Color 0 0 0) p
    pulseWindow px with h | h
  · rw [h] at hpc
    by_contra hne
    obtain ⟨h1, h2⟩ := hw p c hpc hne
    have hp : p < px.length := by
      by_contra hge
      rw [List.getElem?_eq_none (by omega)] at hpc
      cases hpc
    have hit := foldl_const_hit (fun i => cmin (count - 1) (wrap16 (cur + i))) (Color 0 0 0) p
      pulseWindow px hp
      ⟨(p : Int) - cur, (mem_pulseWindow _).mpr ⟨by omega, by omega⟩, by
        show u16 (cmin (count - 1) (wrap16 (cur + ((p : Int) - cur)))) = p
        have e : cur + ((p : Int) - cur) = (p : Int) := by ring
        rw [e]
        unfold cmin wrap16 u16
        split_ifs <;> omega⟩
    rw [h, hpc] at hit
    exact hne (Option.some.inj hit)
  · rw [h] at hpc
    exact (Option.some.inj hpc).symm

/-- The paint loop around an index inside the strip writes no pixel outside
the window of that index. -/
theorem paintWindow_outside (fl : FloatSem) (count cur : Int) (px : List Colour)
    (h0 : 0 ≤ cur) (h1 : cur < count) (hlen : count ≤ 32767) (p : Nat)
    (hp : ¬ (cur - 20 ≤ (p : Int) ∧ (p : Int) ≤ cur + 19)) :
    (paintWindow fl count cur px)[p]? = px[p]? := by
  unfold paintWindow
  refine foldl_guard_skip (fun i => cmin (count - 1) (wrap16 (cur + i)))
    (fun i => Color (fadeLevel fl i) 0 0)
    (fun i => wrap16 (cur + i) < 0 ∨ wrap16 (cur + i) > count) p pulseWindow px ?_
  intro i hi hs
  rw [mem_pulseWindow] at hi
  simp only [not_or, not_lt, gt_iff_lt] at hs
  intro he
  apply hp
  have he1 : u16 (cmin (count - 1) (wrap16 (cur + i))) = p := he
  revert he1 hs
  unfold cmin wrap16 u16
  intro hs he1
  split_ifs at he1 <;> omega

/-- The state that `runStemRising` leaves, by the value it returns. -/
theorem runStemRising_snd (fl : FloatSem) (s : State fl.F) (now : Nat) :
    (runStemRising fl s now).2.stripLedCount = s.stripLedCount ∧
    ((runStemRising fl s now).1 = true →
      (runStemRising fl s now).2.currentStripLed = 0 ∧
      (runStemRising fl s now).2.pixels = clearPixels s.stripLedCount (stemPainted fl s now)) ∧
    ((runStemRising fl s now).1 = false →
      (runStemRising fl s now).2.currentStripLed = stemNewLed fl s now ∧
      (runStemRising fl s now).2.pixels = stemPainted fl s now ∧
      stemNewLed fl s now ≠ s.stripLedCount ∧
      ¬ fl.le (fl.ofRat 1) (stemProgress fl s now) = true) := by
  unfold runStemRising
  simp only []
  by_cases h1 : s.currentStripLed ≠ stemNewLed fl s now
  · have hp : stemPainted fl s now = paintWindow fl s.stripLedCount (stemNewLed fl s now)
        (resetWindow s.stripLedCount s.currentStripLed s.pixels) := by
      unfold stemPainted; rw [if_pos h1]
    rw [hp]
    unfold stemNewLed at h1 ⊢
    rw [if_pos h1]
    by_cases h2 : wrap16 (fl.toInt (fl.floor (fl.mul (stemProgress fl s now)
        (fl.ofInt s.stripLedCount)))) = s.stripLedCount ∨
        fl.le (fl.ofRat 1) (stemProgress fl s now) = true
    · rw [if_pos h2]
      exact ⟨rfl, fun _ => ⟨rfl, rfl⟩, fun h => Bool.noConfusion h⟩
    · rw [if_neg h2]
      exact ⟨rfl, fun h => Bool.noConfusion h,
        fun _ => ⟨rfl, rfl, fun h => h2 (Or.inl h), fun h => h2 (Or.inr h)⟩⟩
  · have hp : stemPainted fl s now = s.pixels := by
      unfold stemPainted; rw [if_neg h1]
    rw [hp]
    have h1e : s.currentStripLed = stemNewLed fl s now := not_not.mp h1
    unfold stemNewLed at h1 h1e ⊢
    rw [if_neg h1]
    by_cases h2 : s.currentStripLed = s.stripLedCount ∨
        fl.le (fl.ofRat 1) (stemProgress fl s now) = true
    · rw [if_pos h2]
      exact ⟨rfl, fun _ => ⟨rfl, rfl⟩, fun h => Bool.noConfusion h⟩
    · rw [if_neg h2]
      exact ⟨rfl, fun h => Bool.noConfusion h,
        fun _ => ⟨h1e, rfl, fun h => h2 (Or.inl (h1e.trans h)), fun h => h2 (Or.inr h)⟩⟩

theorem stemPainted_length (fl : FloatSem) (s : State fl.F) (now : Nat) :
    (stemPainted fl s now).length = s.pixels.length := by
  unfold stemPainted
  split_ifs
  · rw [paintWindow_length, resetWindow_length]
  · rfl

/-- A strip whose pixels are all (0,0,0) has its lit pixels in any window. -/
theorem litInWindow_of_black {F : Type} (s : State F) (h : ∀ c ∈ s.pixels, c = black) :
    litInWindow s := by
  intro p c hpc hne
  obtain ⟨hp, he⟩ := List.getElem?_eq_some.mp hpc
  exact absurd (h c (he ▸ List.getElem_mem hp)) hne

/-- A call of `runStemRising` keeps the lit pixels in the window of the pulse
when the index that a call returning false computes is not negative and not
beyond the length of the strip. -/
theorem runStemRising_window (fl : FloatSem) (s : State fl.F) (now : Nat)
    (hc : s.stripLedCount = (s.pixels.length : Int)) (hlen : s.pixels.length ≤ 32767)
    (hw : litInWindow s)
    (hnew : (runStemRising fl s now).1 = false →
      0 ≤ stemNewLed fl s now ∧ stemNewLed fl s now ≤ s.stripLedCount) :
    (runStemRising fl s now).2.stripLedCount =
      ((runStemRising fl s now).2.pixels.length : Int) ∧
    (runStemRising fl s now).2.pixels.length ≤ 32767 ∧
    litInWindow (runStemRising fl s now).2 := by
  obtain ⟨hcount, htrue, hfalse⟩ := runStemRising_snd fl s now
  have hpl := stemPainted_length fl s now
  cases hd : (runStemRising fl s now).1 with
  | true =>
    obtain ⟨_, hpx⟩ := htrue hd
    obtain ⟨hl, hb⟩ := clearPixels_black s.stripLedCount (stemPainted fl s now)
      (by rw [hpl]; exact hc) (by rw [hpl]; exact hlen)
    refine ⟨by rw [hcount, hpx, hl, hpl]; exact hc, by rw [hpx, hl, hpl]; exact hlen, ?_⟩
    apply litInWindow_of_black
    rw [hpx]
    exact hb
  | false =>
    obtain ⟨hcur, hpx, hne, _⟩ := hfalse hd
    obtain ⟨n0, n1⟩ := hnew hd
    refine ⟨by rw [hcount, hpx, hpl]; exact hc, by rw [hpx, hpl]; exact hlen, ?_⟩
    intro p c hpc hnb
    rw [hcur]
    rw [hpx] at hpc
    by_contra hout
    have hout2 : ¬ (stemNewLed fl s now - 20 ≤ (p : Int) ∧
        (p : Int) ≤ stemNewLed fl s now + 19) := by
      intro h
      apply hout
      unfold STEM_PULSE_WIDTH
      omega
    unfold stemPainted at hpc
    by_cases hmove : s.currentStripLed ≠ stemNewLed fl s now
    · rw [if_pos hmove] at hpc
      rw [paintWindow_outside fl s.stripLedCount (stemNewLed fl s now) _ n0
        (lt_of_le_of_ne n1 hne) (by omega) p hout2] at hpc
      exact hnb (resetWindow_black s.stripLedCount s.currentStripLed s.pixels hc hlen
        (fun q d hq hd => by
          have := hw q d hq hd
          unfold STEM_PULSE_WIDTH at this
          omega) p c hpc)
    · rw [if_neg hmove] at hpc
      have h2 := hw p c hpc hnb
      rw [not_not.mp hmove] at h2
      unfold STEM_PULSE_WIDTH at h2
      exact hout2 (by omega)

/-- The stem states that are reached keep the length of the strip in
`stripLedCount` and their lit pixels in the window of the pulse, in an
arithmetic in which the index that a call returning false computes is not
negative and not beyond the length of the strip. -/
theorem stemReachable_window (fl : FloatSem)
    (hfl : ∀ (s : State fl.F) (now : Nat), s.stripLedCount = (s.pixels.length : Int) →
      s.pixels.length ≤ 32767 →
      0 < uadd (usub (millis now) s.lastBeat) (millisTo (millis now) (stemNextBeat fl s)) →
      (runStemRising fl s now).1 = false →
      0 ≤ stemNewLed fl s now ∧ stemNewLed fl s now ≤ s.stripLedCount)
    (s : State fl.F) (h : StemReachable fl s) :
    s.stripLedCount = (s.pixels.length : Int) ∧ s.pixels.length ≤ 32767 ∧ litInWindow s := by
  induction h with
  | start s hc hlen hb _ => exact ⟨hc, hlen, litInWindow_of_black s hb⟩
  | heartbeat s _ ih =>
    obtain ⟨hc, hlen, _⟩ := ih
    obtain ⟨hl, hb⟩ := clearPixels_black s.stripLedCount s.pixels hc hlen
    have hpx : (newHeartbeat s).pixels = clearPixels s.stripLedCount s.pixels := rfl
    refine ⟨?_, by rw [hpx, hl]; exact hlen, litInWindow_of_black _ (by rw [hpx]; exact hb)⟩
    rw [hpx, hl]
    exact hc
  | beat s a b c _ ih => exact ih
  | step s now _ hden ih =>
    exact runStemRising_window fl s now ih.1 ih.2.1 ih.2.2 (hfl s now ih.1 ih.2.1 hden)

theorem foldl_guard_length {α : Type} (idx : α → Int) (col : α → Colour) (skip : α → Prop)
    [DecidablePred skip] (l : List α) :
    ∀ px : List Colour,
      (l.foldl (fun q a => if skip a then q else setPixelColor q (idx a) (col a)) px).length =
        px.length := by
  induction l with
  | nil => intro px; rfl
  | cons a l ih =>
    intro px
    rw [List.foldl_cons, ih]
    split_ifs
    · rfl
    · exact setPixelColor_length _ _ _

/-- In a loop with a guard the last step that writes a pixel decides its
colour. -/
theorem foldl_guard_last {α : Type} (idx : α → Int) (col : α → Colour) (skip : α → Prop)
    [DecidablePred skip] (p : Nat) (l1 l2 : List α) (a : α) (px : List Colour)
    (hp : p < px.length) (ha : ¬ skip a) (hidx : u16 (idx a) = p)
    (hlater : ∀ b ∈ l2, ¬ skip b → u16 (idx b) ≠ p) :
    ((l1 ++ a :: l2).foldl (fun q a => if skip a then q else setPixelColor q (idx a) (col a))
      px)[p]? = some (col a) := by
  rw [List.foldl_append, List.foldl_cons, foldl_guard_skip idx col skip p l2 _ hlater, if_neg ha,
    setPixelColor_getElem?, if_pos ⟨hidx, by rw [foldl_guard_length]; exact hp⟩]

theorem pulseWindow_split :
    pulseWindow = [-20, -19, -18, -17, -16, -15, -14, -13, -12, -11, -10, -9, -8, -7, -6, -5, -4,
      -3, -2, -1, 0] ++ 1 :: [2, 3, 4, 5, 6, 7, 8, 9, 10, 11, 12, 13, 14, 15, 16, 17, 18, 19] := by
  decide

theorem fadeLevel_one : fadeLevel exact 1 = 127 := by
  show wrap16 (truncQ ((⌊(255 : ℚ) / (((|1| + 1 : Int) : Int) : ℚ)⌋ : Int) : ℚ)) = 127
  rw [truncQ_intCast]
  have h : ⌊(255 : ℚ) / (((|1| + 1 : Int) : Int) : ℚ)⌋ = 127 := by
    rw [Int.floor_eq_iff]
    norm_num
  rw [h]
  rfl

theorem fadeLevel_zero : fadeLevel exact 0 = 255 := by
  show wrap16 (truncQ ((⌊(255 : ℚ) / (((|0| + 1 : Int) : Int) : ℚ)⌋ : Int) : ℚ)) = 255
  rw [truncQ_intCast]
  have h : ⌊(255 : ℚ) / (((|0| + 1 : Int) : Int) : ℚ)⌋ = 255 := by
    rw [Int.floor_eq_iff]
    norm_num
  rw [h]
  rfl

/-- On a strip of 300 pixels the paint loop around the index 299 leaves the
colour of the step `i = 1` on the pixel 299. -/
theorem paintWindow_299 (px : List Colour) (hlen : px.length = 300) :
    (paintWindow exact 300 299 px)[299]? = some ⟨127, 0, 0⟩ := by
  unfold paintWindow
  rw [pulseWindow_split]
  have h := foldl_guard_last (fun i => cmin (300 - 1) (wrap16 (299 + i)))
    (fun i => Color (fadeLevel exact i) 0 0)
    (fun i => wrap16 (299 + i) < 0 ∨ wrap16 (299 + i) > 300) 299
    [-20, -19, -18, -17, -16, -15, -14, -13, -12, -11, -10, -9, -8, -7, -6, -5, -4, -3, -2, -1, 0]
    [2, 3, 4, 5, 6, 7, 8, 9, 10, 11, 12, 13, 14, 15, 16, 17, 18, 19] 1 px
    (by rw [hlen]; norm_num) (by decide) (by decide) (by decide)
  rw [h]
  show some (Color (fadeLevel exact 1) 0 0) = _
  rw [fadeLevel_one]
  rfl

theorem stemAt60_strip :
    stemAt60.stripLedCount = 300 ∧ stemAt60.pixels.length = 300 ∧ stemAt60.currentStripLed = 0 ∧
    stemAt60.lastBeat = 1000 ∧ ∀ c ∈ stemAt60.pixels, c = black := by
  obtain ⟨h1, h2⟩ := initState_strip exact
  have hbl : (boot exact).pixels.length = 300 := by
    simp only [boot, List.length_replicate, NUMBER_OF_STEM_LEDS]
  have hb := (clearPixels_black ((boot exact).pixels.length : Int) (boot exact).pixels rfl
    (by rw [hbl]; norm_num)).2
  refine ⟨?_, ?_, ?_, ?_, ?_⟩
  · simp only [stemAt60]
    rw [h1, h2]
    rfl
  · simp only [stemAt60]
    exact h2
  · simp only [stemAt60, initState, setup, clearStemLeds, boot]
  · simp only [stemAt60]
  · simp only [stemAt60, initState, setup, clearStemLeds]
    exact hb

/-- The stem `stemAt60` between its last beat and the next one: the
denominator of the progress is 500, the new index is `(now - 1000) * 300 / 500`
and the call returns false. -/
theorem stemAt60_call (now : Nat) (h1 : 1000 ≤ now) (h2 : now < 1500) :
    0 < uadd (usub (millis now) stemAt60.lastBeat)
      (millisTo (millis now) (stemNextBeat exact stemAt60)) ∧
    stemNewLed exact stemAt60 now = (((now - 1000) * 300 / 500 : Nat) : Int) ∧
    (runStemRising exact stemAt60 now).1 = false := by
  obtain ⟨hcount, hlen, hcur, hlast, _⟩ := stemAt60_strip
  have hbpm : (clampBpm stemAt60.latestBpm).toNat = 60 := by
    show (clampBpm 60).toNat = 60
    simp [clampBpm, wrap16]
  have hover : stemAt60.lastBeat + 666 < 4294967296 := by rw [hlast]; norm_num
  have hnb : stemNextBeat exact stemAt60 = 1500 := by
    rw [(stemNextBeat_exact stemAt60 hover).1, hlast, hbpm]
  obtain ⟨hp, _⟩ := (stemProgress_exact stemAt60 now (by omega) hover (by rw [hlast]; exact h1)).2
    (by rw [hnb]; exact h2)
  rw [hlast, hbpm] at hp
  have hm : millis now = now := millis_small now (by omega)
  have hden : 0 < uadd (usub (millis now) stemAt60.lastBeat)
      (millisTo (millis now) (stemNextBeat exact stemAt60)) := by
    rw [hm, hnb, hlast, usub_of_le _ _ h1 (by omega)]
    unfold millisTo
    rw [if_neg (by omega), usub_of_le _ _ (by omega) (by norm_num)]
    unfold uadd
    omega
  have hnew : stemNewLed exact stemAt60 now = (((now - 1000) * 300 / 500 : Nat) : Int) := by
    show wrap16 (truncQ ((⌊stemProgress exact stemAt60 now *
      ((stemAt60.stripLedCount : Int) : ℚ)⌋ : Int) : ℚ)) = _
    rw [truncQ_intCast, hp, hcount]
    have e : ((now - 1000 : Nat) : ℚ) / ((30000 / 60 : Nat) : ℚ) * ((300 : Int) : ℚ) =
        (((now - 1000) * 300 : Nat) : ℚ) / ((500 : Nat) : ℚ) := by
      have h500 : (30000 / 60 : Nat) = 500 := rfl
      rw [h500]
      push_cast
      ring
    rw [e, Rat.floor_natCast_div_natCast]
    unfold wrap16
    omega
  refine ⟨hden, hnew, ?_⟩
  rw [← Bool.not_eq_true, runStemRising_fst]
  intro hor
  rcases hor with hor | hor
  · have hnew2 : stemNewLed exact stemAt60 now = stemAt60.stripLedCount := hor
    rw [hnew, hcount] at hnew2
    omega
  · have hle : (1 : ℚ) ≤ stemProgress exact stemAt60 now := of_decide_eq_true hor
    rw [hp] at hle
    have h500 : (30000 / 60 : Nat) = 500 := rfl
    rw [h500, le_div_iff₀ (by norm_num)] at hle
    have : ((500 : Nat) : ℚ) ≤ ((now - 1000 : Nat) : ℚ) := by simpa using hle
    have h3 : 500 ≤ now - 1000 := by exact_mod_cast this
    omega

/-- C15 (the code does not do it): on the strip of 300 pixels, with the last
beat at 1000 ms and 60 BPM, the call of `runStemRising` at 1499 ms moves the
pulse from the index 0 to the index 299, which is inside the strip, and
returns false. The pixel 299, the centre, then holds (127,0,0), the colour
of the distance 1, not (255,0,0): the guard of line 250 lets `i = 1` through
(`299 + 1 > 300` is false) and `min(stripLedCount-1, 300)` of line 256 is 299
again. -/
theorem pulse_centre_overpainted :
    stemAt60.stripLedCount = 300 ∧ stemAt60.currentStripLed = 0 ∧
    (runStemRising exact stemAt60 1499).1 = false ∧
    (runStemRising exact stemAt60 1499).2.currentStripLed = 299 ∧
    (runStemRising exact stemAt60 1499).2.pixels[299]? = some ⟨127, 0, 0⟩ ∧
    Color (fadeLevel exact (299 - 299)) 0 0 = ⟨255, 0, 0⟩ := by
  obtain ⟨hcount, hlen, hcur, _, _⟩ := stemAt60_strip
  obtain ⟨_, hnew, hfalse⟩ := stemAt60_call 1499 (by norm_num) (by norm_num)
  have h299 : stemNewLed exact stemAt60 1499 = 299 := by rw [hnew]; rfl
  obtain ⟨hc2, hpx, _, _⟩ := (runStemRising_snd exact stemAt60 1499).2.2 hfalse
  refine ⟨hcount, hcur, hfalse, by rw [hc2, h299], ?_, ?_⟩
  · rw [hpx]
    unfold stemPainted
    rw [if_pos (by rw [hcur, h299]; decide), h299, hcount]
    exact paintWindow_299 _ (by rw [resetWindow_length]; exact hlen)
  · show Color (fadeLevel exact 0) 0 0 = _
    rw [fadeLevel_zero]
    rfl

/-! ## The stem in binary32 arithmetic -/

theorem round32_le_scaled (x : ℚ) (k j : Int) (hk : |k| < 16777216) (hj : -149 ≤ j)
    (h0 : 0 ≤ x) (h : x ≤ (k : ℚ) * (2 : ℚ) ^ j) : round32 x ≤ (k : ℚ) * (2 : ℚ) ^ j := by
  have := round32_mono x _ h0 h
  rwa [round32_scaled k j hk hj] at this

theorem round32_ge_scaled (x : ℚ) (k j : Int) (hk : |k| < 16777216) (hj : -149 ≤ j)
    (h0 : 0 ≤ (k : ℚ) * (2 : ℚ) ^ j) (h : (k : ℚ) * (2 : ℚ) ^ j ≤ x) :
    (k : ℚ) * (2 : ℚ) ^ j ≤ round32 x := by
  have := round32_mono _ x h0 h
  rwa [round32_scaled k j hk hj] at this

/-- The integers up to 32767 are binary32 values. -/
theorem round32_small (n : Int) (h0 : 0 ≤ n) (h1 : n ≤ 32767) : round32 (n : ℚ) = (n : ℚ) := by
  have := round32_scaled n 0 (by rw [abs_of_nonneg h0]; omega) (by norm_num)
  simpa using this

/-- A rational from 0 to 2^32 rounds to a finite value in the same range. -/
theorem ofRat_fin (x : ℚ) (h0 : 0 ≤ x) (h1 : x ≤ 4294967296) :
    B32.ofRat x = B32.fin (round32 x) ∧ 0 ≤ round32 x ∧ round32 x ≤ 4294967296 := by
  have hn := round32_nonneg x h0
  have hle : round32 x ≤ 4294967296 := by
    have he : ((1 : Int) : ℚ) * (2 : ℚ) ^ (32 : Int) = 4294967296 := by norm_num
    have := round32_le_scaled x 1 32 (by norm_num) (by norm_num) h0 (by rw [he]; exact h1)
    rwa [he] at this
  refine ⟨?_, hn, hle⟩
  unfold B32.ofRat
  rw [if_pos]
  rw [abs_of_nonneg hn]
  exact lt_of_le_of_lt hle (by norm_num)

/-- The conversion of an `unsigned long` to binary32. -/
theorem ofInt_nat (n : Nat) (h : n < 4294967296) :
    binary32.ofInt (n : Int) = B32.fin (round32 (n : ℚ)) ∧ 0 ≤ round32 (n : ℚ) ∧
    round32 (n : ℚ) ≤ 4294967296 ∧ (0 < n → 1 ≤ round32 (n : ℚ)) := by
  have hx0 : (0 : ℚ) ≤ (n : ℚ) := Nat.cast_nonneg n
  have hx1 : (n : ℚ) ≤ 4294967296 := by exact_mod_cast le_of_lt h
  obtain ⟨h1, h2, h3⟩ := ofRat_fin (n : ℚ) hx0 hx1
  refine ⟨?_, h2, h3, ?_⟩
  · show B32.ofRat (((n : Nat) : Int) : ℚ) = _
    rw [Int.cast_natCast]
    exact h1
  · intro hpos
    have h1n : (1 : ℚ) ≤ (n : ℚ) := by exact_mod_cast hpos
    have he : ((1 : Int) : ℚ) * (2 : ℚ) ^ (0 : Int) = 1 := by norm_num
    have := round32_ge_scaled (n : ℚ) 1 0 (by norm_num) (by norm_num) (by rw [he]; norm_num)
      (by rw [he]; exact h1n)
    rwa [he] at this

theorem ofRat_one : binary32.ofRat 1 = B32.fin 1 := by
  have h := (ofRat_fin 1 (by norm_num) (by norm_num)).1
  have h1 : round32 1 = 1 := by simpa using round32_small 1 (by norm_num) (by norm_num)
  rw [h1] at h
  exact h

theorem div_fin (a b : ℚ) (hb : b ≠ 0) :
    B32.div (B32.fin a) (B32.fin b) = B32.ofRat (a / b) := by
  show (if b = 0 then _ else B32.ofRat (a / b)) = _
  rw [if_neg hb]

/-- In binary32 the progress is the rounded quotient of the two converted
`unsigned long` values when its denominator is not zero: a finite value that
is not negative. -/
theorem progressOf_binary32 (a b : Nat) (ha : a < 4294967296) (hd : 0 < uadd a b) :
    progressOf binary32 a b =
      B32.fin (round32 (round32 (a : ℚ) / round32 ((uadd a b : Nat) : ℚ))) ∧
    0 ≤ round32 (a : ℚ) / round32 ((uadd a b : Nat) : ℚ) := by
  have hdlt : uadd a b < 4294967296 := by unfold uadd; omega
  obtain ⟨ea, a0, a1, _⟩ := ofInt_nat a ha
  obtain ⟨ed, d0, d1, dpos⟩ := ofInt_nat (uadd a b) hdlt
  have hd1 := dpos hd
  have hq0 : 0 ≤ round32 (a : ℚ) / round32 ((uadd a b : Nat) : ℚ) :=
    div_nonneg a0 d0
  have hq1 : round32 (a : ℚ) / round32 ((uadd a b : Nat) : ℚ) ≤ 4294967296 := by
    rw [div_le_iff₀ (by linarith)]
    nlinarith
  obtain ⟨e, _, _⟩ := ofRat_fin _ hq0 hq1
  refine ⟨?_, hq0⟩
  show B32.div (binary32.ofInt (a : Int)) (binary32.ofInt ((uadd a b : Nat) : Int)) = _
  rw [ea, ed, div_fin _ _ (by linarith), e]

/-- In binary32 the quotient of a positive `unsigned long` by itself is 1. -/
theorem progressOf_self (a : Nat) (h0 : 0 < a) (ha : a < 4294967296) :
    progressOf binary32 a 0 = B32.fin 1 := by
  have hu : uadd a 0 = a := by unfold uadd; omega
  obtain ⟨ea, _, _, apos⟩ := ofInt_nat a ha
  have h1 := apos h0
  show B32.div (binary32.ofInt (a : Int)) (binary32.ofInt ((uadd a 0 : Nat) : Int)) = _
  rw [hu, ea, div_fin _ _ (by linarith), div_self (by linarith)]
  exact ofRat_one

/-- In binary32 the index computed from a finite progress in [0, 1) is not
negative and not beyond the length of the strip. -/
theorem newLed_binary32 (p : ℚ) (count : Int) (hp0 : 0 ≤ p) (hp1 : p < 1) (hc0 : 0 ≤ count)
    (hc1 : count ≤ 32767) :
    0 ≤ wrap16 (binary32.toInt (binary32.floor (binary32.mul (B32.fin p) (binary32.ofInt count)))) ∧
    wrap16 (binary32.toInt (binary32.floor (binary32.mul (B32.fin p) (binary32.ofInt count)))) ≤
      count := by
  have hcq0 : (0 : ℚ) ≤ (count : ℚ) := by exact_mod_cast hc0
  have hcq1 : (count : ℚ) ≤ 32767 := by exact_mod_cast hc1
  have hcr := round32_small count hc0 hc1
  have hci : binary32.ofInt count = B32.fin (count : ℚ) := by
    have := (ofRat_fin (count : ℚ) hcq0 (by linarith)).1
    rw [hcr] at this
    exact this
  have hm0 : 0 ≤ p * (count : ℚ) := mul_nonneg hp0 hcq0
  have hm1 : p * (count : ℚ) ≤ (count : ℚ) := by nlinarith
  obtain ⟨em, r0, _⟩ := ofRat_fin (p * (count : ℚ)) hm0 (by linarith)
  have r1 : round32 (p * (count : ℚ)) ≤ (count : ℚ) := by
    have := round32_mono _ _ hm0 hm1
    rwa [hcr] at this
  rw [hci]
  show 0 ≤ wrap16 (B32.toInt (B32.floor (B32.ofRat (p * (count : ℚ))))) ∧
    wrap16 (B32.toInt (B32.floor (B32.ofRat (p * (count : ℚ))))) ≤ count
  rw [em]
  show 0 ≤ wrap16 (truncQ ((⌊round32 (p * (count : ℚ))⌋ : Int) : ℚ)) ∧
    wrap16 (truncQ ((⌊round32 (p * (count : ℚ))⌋ : Int) : ℚ)) ≤ count
  rw [truncQ_intCast]
  have f0 : 0 ≤ ⌊round32 (p * (count : ℚ))⌋ := Int.floor_nonneg.mpr r0
  have f1 : ⌊round32 (p * (count : ℚ))⌋ ≤ count := by
    have := Int.floor_mono r1
    rwa [Int.floor_intCast] at this
  unfold wrap16
  omega

theorem usub_lt (a b : Nat) : usub a b < 4294967296 := by
  unfold usub u32
  omega

/-- In binary32 a call of `runStemRising` that returns false, with a progress
whose denominator is not zero, computes an index that is not negative and
not beyond the length of the strip. -/
theorem stemNewLed_binary32 (s : State binary32.F) (now : Nat)
    (hc : s.stripLedCount = (s.pixels.length : Int)) (hlen : s.pixels.length ≤ 32767)
    (hden : 0 < uadd (usub (millis now) s.lastBeat)
      (millisTo (millis now) (stemNextBeat binary32 s)))
    (hfalse : (runStemRising binary32 s now).1 = false) :
    0 ≤ stemNewLed binary32 s now ∧ stemNewLed binary32 s now ≤ s.stripLedCount := by
  obtain ⟨_, _, _, hlt⟩ := (runStemRising_snd binary32 s now).2.2 hfalse
  obtain ⟨hp, hy0⟩ := progressOf_binary32 _ _ (usub_lt (millis now) s.lastBeat) hden
  generalize round32 ((usub (millis now) s.lastBeat : Nat) : ℚ) /
    round32 ((uadd (usub (millis now) s.lastBeat)
      (millisTo (millis now) (stemNextBeat binary32 s)) : Nat) : ℚ) = y at hp hy0
  have hprog : stemProgress binary32 s now = B32.fin (round32 y) := hp
  have hp1 : round32 y < 1 := by
    by_contra hge
    apply hlt
    rw [hprog, ofRat_one]
    exact decide_eq_true (not_lt.mp hge)
  unfold stemNewLed
  rw [hprog]
  exact newLed_binary32 (round32 y) s.stripLedCount (round32_nonneg y hy0) hp1 (by omega)
    (by omega)

/-- A rational that is a binary32 value below 2^128 converts to itself. -/
theorem ofRat_repr (x : ℚ) (k j : Int) (hx : x = (k : ℚ) * (2 : ℚ) ^ j) (hk : |k| < 16777216)
    (hj : -149 ≤ j) (hb : |x| < (2 : ℚ) ^ (128 : Nat)) : B32.ofRat x = B32.fin x := by
  have hr : round32 x = x := by rw [hx]; exact round32_scaled k j hk hj
  unfold B32.ofRat
  rw [hr, if_pos hb]

/-- Rounding of a normal rational in the binade of exponent `e`. -/
theorem round32_eval (x : ℚ) (e n : Int) (h1 : (2 : ℚ) ^ e ≤ |x|) (h2 : |x| < (2 : ℚ) ^ (e + 1))
    (he : -126 ≤ e) (hr : roundEven (x / (2 : ℚ) ^ (e - 23)) = n) :
    round32 x = (n : ℚ) * (2 : ℚ) ^ (e - 23) := by
  unfold round32 quantum
  rw [log_eq |x| e h1 h2, max_eq_left he, hr]

theorem ofRat_60 : B32.ofRat 60 = B32.fin 60 :=
  ofRat_repr 60 60 0 (by norm_num) (by norm_num) (by norm_num) (by norm_num)

theorem ofRat_half : B32.ofRat (1 / 2) = B32.fin (1 / 2) :=
  ofRat_repr (1 / 2) 1 (-1) (by norm_num) (by norm_num) (by norm_num)
    (by rw [abs_of_pos (by norm_num)]; norm_num)

theorem ofRat_120 : B32.ofRat 120 = B32.fin 120 :=
  ofRat_repr 120 120 0 (by norm_num) (by norm_num) (by norm_num) (by norm_num)

theorem ofRat_60000 : B32.ofRat 60000 = B32.fin 60000 :=
  ofRat_repr 60000 60000 0 (by norm_num) (by norm_num) (by norm_num) (by norm_num)

theorem ofRat_500 : B32.ofRat 500 = B32.fin 500 :=
  ofRat_repr 500 500 0 (by norm_num) (by norm_num) (by norm_num) (by norm_num)

theorem ofRat_300 : B32.ofRat 300 = B32.fin 300 :=
  ofRat_repr 300 300 0 (by norm_num) (by norm_num) (by norm_num) (by norm_num)

/-- At 60 BPM the binary32 value of `60000.0/(bpm/0.50)` is 500, so `nextBeat`
is the sum of the converted `lastBeat` and 500, rounded and truncated. -/
theorem stemNextBeat_binary32 (s : State binary32.F) (hb : clampBpm s.latestBpm = 60) :
    stemNextBeat binary32 s =
      u32 (B32.toInt (B32.add (binary32.ofInt (s.lastBeat : Int)) (B32.fin 500))) := by
  have h60 : binary32.ofInt 60 = B32.fin 60 := by
    show B32.ofRat ((60 : Int) : ℚ) = _
    norm_num
    exact ofRat_60
  have hd1 : B32.div (B32.fin 60) (B32.fin (1 / 2)) = B32.fin 120 := by
    rw [div_fin 60 (1 / 2) (by norm_num)]
    norm_num
    exact ofRat_120
  have hd2 : B32.div (B32.fin 60000) (B32.fin 120) = B32.fin 500 := by
    rw [div_fin 60000 120 (by norm_num)]
    norm_num
    exact ofRat_500
  show u32 (B32.toInt (B32.add (binary32.ofInt (s.lastBeat : Int))
    (B32.div (B32.ofRat 60000) (B32.div (binary32.ofInt (clampBpm s.latestBpm))
      (B32.ofRat (1 / 2)))))) = _
  rw [hb, h60, ofRat_half, hd1, ofRat_60000, hd2]

/-- The strip after `setup`. -/
theorem initState_facts (fl : FloatSem) :
    (initState fl).stripLedCount = 300 ∧ (initState fl).pixels.length = 300 ∧
    (initState fl).currentStripLed = 0 ∧ ∀ c ∈ (initState fl).pixels, c = black := by
  obtain ⟨h1, h2⟩ := initState_strip fl
  have hbl : (boot fl).pixels.length = 300 := by
    simp only [boot, List.length_replicate, NUMBER_OF_STEM_LEDS]
  have hb := (clearPixels_black ((boot fl).pixels.length : Int) (boot fl).pixels rfl
    (by rw [hbl]; norm_num)).2
  refine ⟨?_, h2, ?_, ?_⟩
  · rw [h1, h2]
    rfl
  · simp only [initState, setup, clearStemLeds, boot]
  · simp only [initState, setup, clearStemLeds]
    exact hb

theorem clampBpm_60 : clampBpm 60 = 60 := by
  simp [clampBpm, wrap16]

/-- The integer 16777219 is halfway between two binary32 values and rounds
to the even one, 16777220. -/
theorem round32_16777219 : round32 16777219 = 16777220 := by
  have hf : ⌊(16777219 : ℚ) / (2 : ℚ) ^ ((24 : Int) - 23)⌋ = 8388609 := by
    rw [Int.floor_eq_iff]
    norm_num
  have hr : roundEven ((16777219 : ℚ) / (2 : ℚ) ^ ((24 : Int) - 23)) = 8388610 := by
    unfold roundEven
    rw [hf]
    norm_num
  rw [round32_eval 16777219 24 8388610 (by rw [abs_of_pos (by norm_num)]; norm_num)
    (by rw [abs_of_pos (by norm_num)]; norm_num) (by norm_num) hr]
  norm_num

theorem lateStem_facts :
    lateStem.stripLedCount = 300 ∧ lateStem.pixels.length = 300 ∧ lateStem.currentStripLed = 0 ∧
    (∀ c ∈ lateStem.pixels, c = black) ∧ lateStem.lastBeat = 16777219 ∧
    clampBpm lateStem.latestBpm = 60 := by
  obtain ⟨h1, h2, h3, h4⟩ := initState_facts binary32
  refine ⟨?_, ?_, ?_, ?_, ?_, ?_⟩
  · simp only [lateStem]; exact h1
  · simp only [lateStem]; exact h2
  · simp only [lateStem]; exact h3
  · simp only [lateStem]; exact h4
  · simp only [lateStem]
  · simp only [lateStem]; exact clampBpm_60

theorem earlyStem_facts :
    earlyStem.stripLedCount = 300 ∧ earlyStem.pixels.length = 300 ∧
    earlyStem.currentStripLed = 0 ∧ (∀ c ∈ earlyStem.pixels, c = black) ∧
    earlyStem.lastBeat = 1000 ∧ clampBpm earlyStem.latestBpm = 60 := by
  obtain ⟨h1, h2, h3, h4⟩ := initState_facts binary32
  refine ⟨?_, ?_, ?_, ?_, ?_, ?_⟩
  · simp only [earlyStem]; exact h1
  · simp only [earlyStem]; exact h2
  · simp only [earlyStem]; exact h3
  · simp only [earlyStem]; exact h4
  · simp only [earlyStem]
  · simp only [earlyStem]; exact clampBpm_60

theorem truncQ_nat (n : Nat) : truncQ (n : ℚ) = (n : Int) := by
  have := truncQ_intCast (n : Int)
  rwa [Int.cast_natCast] at this

/-- In binary32 the `nextBeat` of `lateStem` is 16777720, one more than
`lastBeat + 500`: the conversion of `lastBeat` to binary32 rounds it up. -/
theorem stemNextBeat_lateStem : stemNextBeat binary32 lateStem = 16777720 := by
  obtain ⟨_, _, _, _, hlast, hbpm⟩ := lateStem_facts
  rw [stemNextBeat_binary32 lateStem hbpm, hlast]
  have h1 : binary32.ofInt ((16777219 : Nat) : Int) = B32.fin 16777220 := by
    have := (ofInt_nat 16777219 (by norm_num)).1
    rw [this]
    norm_num
    rw [round32_16777219]
  rw [h1]
  show u32 (B32.toInt (B32.ofRat (16777220 + 500))) = _
  have h2 : B32.ofRat (16777220 + 500) = B32.fin ((16777720 : Nat) : ℚ) := by
    norm_num
    exact ofRat_repr 16777720 8388860 1 (by norm_num) (by norm_num) (by norm_num)
      (by norm_num)
  rw [h2]
  show u32 (truncQ ((16777720 : Nat) : ℚ)) = _
  rw [truncQ_nat]
  rfl

theorem stemNextBeat_earlyStem : stemNextBeat binary32 earlyStem = 1500 := by
  obtain ⟨_, _, _, _, hlast, hbpm⟩ := earlyStem_facts
  rw [stemNextBeat_binary32 earlyStem hbpm, hlast]
  have h1 : binary32.ofInt ((1000 : Nat) : Int) = B32.fin 1000 := by
    show B32.ofRat (((1000 : Nat) : Int) : ℚ) = _
    norm_num
    exact ofRat_repr 1000 1000 0 (by norm_num) (by norm_num) (by norm_num) (by norm_num)
  rw [h1]
  show u32 (B32.toInt (B32.ofRat (1000 + 500))) = _
  have h2 : B32.ofRat (1000 + 500) = B32.fin ((1500 : Nat) : ℚ) := by
    norm_num
    exact ofRat_repr 1500 1500 0 (by norm_num) (by norm_num) (by norm_num) (by norm_num)
  rw [h2]
  show u32 (truncQ ((1500 : Nat) : ℚ)) = _
  rw [truncQ_nat]
  rfl

theorem roundEven_lt (m : ℚ) (k : Int) (h : m < (k : ℚ) - 1 / 2) : roundEven m ≤ k - 1 := by
  have hfl : ⌊m⌋ ≤ k - 1 := by
    rw [← Int.lt_add_one_iff, Int.floor_lt]
    push_cast
    linarith
  rcases lt_or_eq_of_le hfl with h1 | h1
  · have := (roundEven_bounds m).2
    omega
  · unfold roundEven
    rw [if_pos, h1]
    rw [h1]
    push_cast
    linarith

/-- A rounded value below 1 is at most `1 - 2^(-24)`, the binary32 value
before 1. -/
theorem round32_below_one (x : ℚ) (h0 : 0 ≤ x) (h1 : round32 x < 1) :
    round32 x ≤ 1 - 1 / 16777216 := by
  have hx1 : x < 1 := by
    by_contra hge
    have he : ((1 : Int) : ℚ) * (2 : ℚ) ^ (0 : Int) = 1 := by norm_num
    have := round32_ge_scaled x 1 0 (by norm_num) (by norm_num) (by rw [he]; norm_num)
      (by rw [he]; exact not_lt.mp hge)
    rw [he] at this
    linarith
  rcases le_or_lt x (1 / 2) with hle | hgt
  · have he : ((1 : Int) : ℚ) * (2 : ℚ) ^ (-1 : Int) = 1 / 2 := by norm_num
    have := round32_le_scaled x 1 (-1) (by norm_num) (by norm_num) h0 (by rw [he]; exact hle)
    rw [he] at this
    linarith
  · have hpos : 0 < x := lt_trans (by norm_num) hgt
    have hz : (2 : ℚ) ^ ((-1 : Int) - 23) = 1 / 16777216 := by norm_num
    have hev := round32_eval x (-1) (roundEven (x / (2 : ℚ) ^ ((-1 : Int) - 23)))
      (by rw [abs_of_pos hpos]; norm_num; linarith)
      (by rw [abs_of_pos hpos]; norm_num; exact hx1) (by norm_num) rfl
    rw [hz] at hev
    rw [hev] at h1 ⊢
    generalize roundEven (x / (1 / 16777216)) = n at h1 ⊢
    have hn : (n : ℚ) < ((16777216 : Int) : ℚ) := by
      push_cast
      linarith
    have hn2 : n < 16777216 := by exact_mod_cast hn
    have hn3 : (n : ℚ) ≤ ((16777215 : Int) : ℚ) := by exact_mod_cast (by omega : n ≤ 16777215)
    push_cast at hn3
    linarith

/-- The product of a binary32 value below 1 and a strip length rounds to less
than the length. -/
theorem round32_mul_lt (p : ℚ) (count : Int) (hp0 : 0 ≤ p) (hp1 : p ≤ 1 - 1 / 16777216)
    (hc0 : 0 < count) (hc1 : count ≤ 32767) : round32 (p * (count : ℚ)) < (count : ℚ) := by
  have hcq0 : (0 : ℚ) < (count : ℚ) := by exact_mod_cast hc0
  have hcq1 : (count : ℚ) ≤ 32767 := by exact_mod_cast hc1
  have hc1q : (1 : ℚ) ≤ (count : ℚ) := by exact_mod_cast hc0
  have hx0 : 0 ≤ p * (count : ℚ) := mul_nonneg hp0 (le_of_lt hcq0)
  have hgap : p * (count : ℚ) ≤ (count : ℚ) - (count : ℚ) / 16777216 := by nlinarith
  rcases eq_or_lt_of_le hx0 with hz | hpos
  · rw [← hz, round32_zero]
    exact hcq0
  · generalize hx : p * (count : ℚ) = x at hx0 hgap hpos ⊢
    obtain ⟨b1, b2⟩ := binade x hpos
    rcases lt_or_le (Int.log 2 x) (-126) with hsub | hnorm
    · have htop := round32_le_top x hpos
      rw [max_eq_right (le_of_lt hsub)] at htop
      have : (2 : ℚ) ^ ((-126 : Int) + 1) < 1 := by norm_num
      linarith
    · have he15 : Int.log 2 x < 15 := by
        apply (Int.lt_zpow_iff_log_lt (b := 2) (by norm_num) hpos).mp
        have : x < (2 : ℚ) ^ (15 : Int) := by norm_num; linarith
        simpa using this
      obtain ⟨t, ht⟩ : ∃ t : Nat, Int.log 2 x = 23 - (t : Int) :=
        ⟨(23 - Int.log 2 x).toNat, by omega⟩
      have hP : (0 : ℚ) < (2 : ℚ) ^ t := by positivity
      have hq : (2 : ℚ) ^ (Int.log 2 x - 23) = ((2 : ℚ) ^ t)⁻¹ := by
        rw [ht]
        have : (23 : Int) - (t : Int) - 23 = -(t : Int) := by ring
        rw [this, zpow_neg, zpow_natCast]
      have hb : (8388608 : ℚ) ≤ x * (2 : ℚ) ^ t := by
        rw [ht] at b1
        have h23 : (2 : ℚ) ^ ((23 : Int) - (t : Int)) = 8388608 / (2 : ℚ) ^ t := by
          rw [zpow_sub₀ (by norm_num), zpow_natCast]
          norm_num
        rw [h23, div_le_iff₀ hP] at b1
        exact b1
      have hg : ((count : ℚ) - x) * (2 : ℚ) ^ t ≥ (count : ℚ) / 16777216 * (2 : ℚ) ^ t :=
        mul_le_mul_of_nonneg_right (by linarith) (le_of_lt hP)
      have hxc : x * (2 : ℚ) ^ t < (count : ℚ) * (2 : ℚ) ^ t :=
        mul_lt_mul_of_pos_right (by linarith) hP
      have hmid : x * (2 : ℚ) ^ t < ((count * 2 ^ t : Int) : ℚ) - 1 / 2 := by
        push_cast
        linarith
      have hr := roundEven_lt _ _ hmid
      have hev := round32_eval x (Int.log 2 x) (roundEven (x / (2 : ℚ) ^ (Int.log 2 x - 23)))
        (by rw [abs_of_pos hpos]; exact b1) (by rw [abs_of_pos hpos]; exact b2) hnorm rfl
      rw [hq, div_inv_eq_mul] at hev
      rw [hev]
      have hrq : ((roundEven (x * (2 : ℚ) ^ t) : Int) : ℚ) ≤ (count : ℚ) * (2 : ℚ) ^ t - 1 := by
        have : ((roundEven (x * (2 : ℚ) ^ t) : Int) : ℚ) ≤ ((count * 2 ^ t - 1 : Int) : ℚ) := by
          exact_mod_cast hr
        push_cast at this
        exact this
      rw [← div_eq_mul_inv, div_lt_iff₀ hP]
      linarith

/-- In binary32 the index computed from a binary32 progress below 1 is below
the length of a strip that is not empty. -/
theorem newLed_binary32_lt (y : ℚ) (count : Int) (hy0 : 0 ≤ y) (hp1 : round32 y < 1)
    (hc0 : 0 < count) (hc1 : count ≤ 32767) :
    wrap16 (binary32.toInt (binary32.floor (binary32.mul (B32.fin (round32 y))
      (binary32.ofInt count)))) < count := by
  have hp0 := round32_nonneg y hy0
  have hple := round32_below_one y hy0 hp1
  have hlt := round32_mul_lt (round32 y) count hp0 hple hc0 hc1
  have hcq0 : (0 : ℚ) ≤ (count : ℚ) := by exact_mod_cast le_of_lt hc0
  have hcq1 : (count : ℚ) ≤ 32767 := by exact_mod_cast hc1
  have hcr := round32_small count (le_of_lt hc0) hc1
  have hci : binary32.ofInt count = B32.fin (count : ℚ) := by
    have := (ofRat_fin (count : ℚ) hcq0 (by linarith)).1
    rw [hcr] at this
    exact this
  have hm0 : 0 ≤ round32 y * (count : ℚ) := mul_nonneg hp0 hcq0
  have hm1 : round32 y * (count : ℚ) ≤ (count : ℚ) := by nlinarith
  obtain ⟨em, r0, _⟩ := ofRat_fin (round32 y * (count : ℚ)) hm0 (by linarith)
  rw [hci]
  show wrap16 (B32.toInt (B32.floor (B32.ofRat (round32 y * (count : ℚ))))) < count
  rw [em]
  show wrap16 (truncQ ((⌊round32 (round32 y * (count : ℚ))⌋ : Int) : ℚ)) < count
  rw [truncQ_intCast]
  have f0 : 0 ≤ ⌊round32 (round32 y * (count : ℚ))⌋ := Int.floor_nonneg.mpr r0
  have f1 : ⌊round32 (round32 y * (count : ℚ))⌋ < count := by
    rw [Int.floor_lt]
    exact hlt
  unfold wrap16
  omega

/-- In binary32, on a strip that is not empty, a call of `runStemRising` whose
test `progress >= 1.0` fails, with a progress whose denominator is not zero,
returns false. -/
theorem runStemRising_binary32_false (s : State binary32.F) (now : Nat)
    (hc0 : 0 < s.stripLedCount) (hc1 : s.stripLedCount ≤ 32767)
    (hden : 0 < uadd (usub (millis now) s.lastBeat)
      (millisTo (millis now) (stemNextBeat binary32 s)))
    (hlt : ¬ binary32.le (binary32.ofRat 1) (stemProgress binary32 s now) = true) :
    (runStemRising binary32 s now).1 = false := by
  obtain ⟨hp, hy0⟩ := progressOf_binary32 _ _ (usub_lt (millis now) s.lastBeat) hden
  generalize round32 ((usub (millis now) s.lastBeat : Nat) : ℚ) /
    round32 ((uadd (usub (millis now) s.lastBeat)
      (millisTo (millis now) (stemNextBeat binary32 s)) : Nat) : ℚ) = y at hp hy0
  have hprog : stemProgress binary32 s now = B32.fin (round32 y) := hp
  have hp1 : round32 y < 1 := by
    by_contra hge
    apply hlt
    rw [hprog, ofRat_one]
    exact decide_eq_true (not_lt.mp hge)
  have hn := newLed_binary32_lt y s.stripLedCount hy0 hp1 hc0 hc1
  rw [← Bool.not_eq_true, runStemRising_fst]
  intro hor
  rcases hor with hor | hor
  · rw [hprog] at hor
    rw [hor] at hn
    exact lt_irrefl _ hn
  · exact hlt hor

/-! ## C10 and C20 in the arithmetic of the target -/

theorem round32_nat_small (n : Nat) (h : n ≤ 32767) : round32 (n : ℚ) = (n : ℚ) := by
  have := round32_small (n : Int) (by omega) (by omega)
  rwa [Int.cast_natCast] at this

/-- The call of `runStemRising` on `lateStem` at 16777719 ms: 500 ms have
passed, 1 ms is left, and the progress is below 1. -/
theorem lateStem_progress :
    usub (millis 16777719) lateStem.lastBeat = 500 ∧
    millisTo (millis 16777719) (stemNextBeat binary32 lateStem) = 1 ∧
    ¬ binary32.le (binary32.ofRat 1) (stemProgress binary32 lateStem 16777719) = true := by
  obtain ⟨_, _, _, _, hlast, _⟩ := lateStem_facts
  have hm : millis 16777719 = 16777719 := millis_small _ (by norm_num)
  have ha : usub (millis 16777719) lateStem.lastBeat = 500 := by
    rw [hm, hlast, usub_of_le _ _ (by norm_num) (by norm_num)]
  have hb : millisTo (millis 16777719) (stemNextBeat binary32 lateStem) = 1 := by
    rw [hm, stemNextBeat_lateStem]
    unfold millisTo
    rw [if_neg (by norm_num), usub_of_le _ _ (by norm_num) (by norm_num)]
  refine ⟨ha, hb, ?_⟩
  have hp := (progressOf_binary32 500 1 (by norm_num) (by unfold uadd; norm_num)).1
  have hu : uadd 500 1 = 501 := by unfold uadd; norm_num
  rw [hu, round32_nat_small 500 (by norm_num), round32_nat_small 501 (by norm_num)] at hp
  have hprog : stemProgress binary32 lateStem 16777719 =
      B32.fin (round32 (((500 : Nat) : ℚ) / ((501 : Nat) : ℚ))) := by
    unfold stemProgress
    rw [ha, hb]
    exact hp
  have he : ((1023 : Int) : ℚ) * (2 : ℚ) ^ (-10 : Int) = 1023 / 1024 := by norm_num
  have hle := round32_le_scaled (((500 : Nat) : ℚ) / ((501 : Nat) : ℚ)) 1023 (-10) (by norm_num)
    (by norm_num) (by norm_num) (by rw [he]; norm_num)
  rw [he] at hle
  rw [hprog, ofRat_one]
  intro h
  have h1 : (1 : ℚ) ≤ round32 (((500 : Nat) : ℚ) / ((501 : Nat) : ℚ)) := of_decide_eq_true h
  linarith

/-- Counterexample to C10: in the arithmetic of the target, with the last beat
at 16777219 ms and 60 BPM, the clock reading 16777719 is `lastBeat +
60000/(bpm/0.5)`, yet the call of `runStemRising` returns false. The
conversion of `lastBeat` to binary32 rounds it to 16777220, `nextBeat` is
16777720, one millisecond is left and the progress is 500/501. -/
theorem stem_runs_past_next_beat :
    lateStem.lastBeat = 16777219 ∧ clampBpm lateStem.latestBpm = 60 ∧
    lateStem.stripLedCount = 300 ∧
    ((16777219 : ℚ) + 60000 / (60 / (1 / 2)) = 16777719) ∧
    stemNextBeat binary32 lateStem = 16777720 ∧
    ¬ binary32.le (binary32.ofRat 1) (stemProgress binary32 lateStem 16777719) = true ∧
    (runStemRising binary32 lateStem 16777719).1 = false := by
  obtain ⟨hcount, _, _, _, hlast, hbpm⟩ := lateStem_facts
  obtain ⟨ha, hb, hlt⟩ := lateStem_progress
  refine ⟨hlast, hbpm, hcount, by norm_num, stemNextBeat_lateStem, hlt, ?_⟩
  exact runStemRising_binary32_false lateStem 16777719 (by rw [hcount]; norm_num)
    (by rw [hcount]; norm_num) (by rw [ha, hb]; unfold uadd; norm_num) hlt

/-- In binary32 the test `progress >= 1.0` holds from `nextBeat` on, when the
clock reading is not `lastBeat`. -/
theorem progress_binary32_done (q : State binary32.F) (now : Nat)
    (hn : stemNextBeat binary32 q ≤ millis now) (ha : 0 < usub (millis now) q.lastBeat) :
    binary32.le (binary32.ofRat 1) (stemProgress binary32 q now) = true := by
  have hb : millisTo (millis now) (stemNextBeat binary32 q) = 0 := by
    unfold millisTo
    split_ifs with h
    · rfl
    · have : stemNextBeat binary32 q = millis now := by omega
      rw [this]
      unfold usub u32
      omega
  unfold stemProgress
  rw [hb, progressOf_self _ ha (usub_lt _ _), ofRat_one]
  show decide ((1 : ℚ) ≤ 1) = true
  exact decide_eq_true (le_refl _)

/-- C10, amended: (1) whatever the floating-point semantics, when the test
`progress >= 1.0` of line 262 holds the call returns true, every pixel of the
strip is (0,0,0) and `currentStripLed` is 0 (the strip has `stripLedCount`
pixels); (2) whatever the floating-point semantics, when the test fails and
the index that the call stores is below `stripLedCount` the call returns
false; (3) in the binary32 arithmetic of the target the test holds whenever
`now >= nextBeat`, for the `nextBeat` that line 228 computes, and `now` is not
`lastBeat`; (4) in binary32, on a strip that is not empty, the call returns
false whenever the test fails and the denominator of the progress is not
zero. -/
theorem stem_completion (fl : FloatSem) (s : State fl.F) (q : State binary32.F) (now : Nat) :
    (s.stripLedCount = s.pixels.length → s.pixels.length ≤ 32767 →
      fl.le (fl.ofRat 1) (stemProgress fl s now) = true →
      (runStemRising fl s now).1 = true ∧ (runStemRising fl s now).2.currentStripLed = 0 ∧
      (∀ c ∈ (runStemRising fl s now).2.pixels, c = black) ∧
      (runStemRising fl s now).2.pixels.length = s.pixels.length) ∧
    (¬ fl.le (fl.ofRat 1) (stemProgress fl s now) = true →
      stemNewLed fl s now < s.stripLedCount →
      (runStemRising fl s now).1 = false ∧
      (runStemRising fl s now).2.currentStripLed = stemNewLed fl s now) ∧
    (stemNextBeat binary32 q ≤ millis now → 0 < usub (millis now) q.lastBeat →
      binary32.le (binary32.ofRat 1) (stemProgress binary32 q now) = true) ∧
    (0 < q.stripLedCount → q.stripLedCount ≤ 32767 →
      0 < uadd (usub (millis now) q.lastBeat)
        (millisTo (millis now) (stemNextBeat binary32 q)) →
      ¬ binary32.le (binary32.ofRat 1) (stemProgress binary32 q now) = true →
      (runStemRising binary32 q now).1 = false) := by
  refine ⟨runStemRising_done fl s now, ?_, progress_binary32_done q now,
    runStemRising_binary32_false q now⟩
  intro hlt hidx
  have hf : (runStemRising fl s now).1 = false := by
    rw [← Bool.not_eq_true, runStemRising_fst]
    intro hor
    rcases hor with hor | hor
    · have h2 : stemNewLed fl s now = s.stripLedCount := hor
      rw [h2] at hidx
      exact lt_irrefl _ hidx
    · exact hlt hor
  exact ⟨hf, ((runStemRising_snd fl s now).2.2 hf).1⟩

/-- The call of `runStemRising` on `earlyStem` at 1250 ms, in binary32: the
progress is 1/2, the new index is 150 and the call returns false. -/
theorem earlyStem_call :
    0 < uadd (usub (millis 1250) earlyStem.lastBeat)
      (millisTo (millis 1250) (stemNextBeat binary32 earlyStem)) ∧
    stemProgress binary32 earlyStem 1250 = B32.fin (1 / 2) ∧
    stemNewLed binary32 earlyStem 1250 = 150 ∧
    (runStemRising binary32 earlyStem 1250).1 = false := by
  obtain ⟨hcount, _, _, _, hlast, _⟩ := earlyStem_facts
  have hm : millis 1250 = 1250 := millis_small _ (by norm_num)
  have ha : usub (millis 1250) earlyStem.lastBeat = 250 := by
    rw [hm, hlast, usub_of_le _ _ (by norm_num) (by norm_num)]
  have hb : millisTo (millis 1250) (stemNextBeat binary32 earlyStem) = 250 := by
    rw [hm, stemNextBeat_earlyStem]
    unfold millisTo
    rw [if_neg (by norm_num), usub_of_le _ _ (by norm_num) (by norm_num)]
  have hden : 0 < uadd (usub (millis 1250) earlyStem.lastBeat)
      (millisTo (millis 1250) (stemNextBeat binary32 earlyStem)) := by
    rw [ha, hb]; unfold uadd; norm_num
  have hp := (progressOf_binary32 250 250 (by norm_num) (by unfold uadd; norm_num)).1
  have hu : uadd 250 250 = 500 := by unfold uadd; norm_num
  have hhalf : round32 (1 / 2) = 1 / 2 := by
    have := round32_scaled 1 (-1) (by norm_num) (by norm_num)
    norm_num at this
    exact this
  have hq : ((250 : Nat) : ℚ) / ((500 : Nat) : ℚ) = 1 / 2 := by norm_num
  rw [hu, round32_nat_small 250 (by norm_num), round32_nat_small 500 (by norm_num), hq,
    hhalf] at hp
  have hprog : stemProgress binary32 earlyStem 1250 = B32.fin (1 / 2) := by
    unfold stemProgress
    rw [ha, hb]
    exact hp
  have hlt : ¬ binary32.le (binary32.ofRat 1) (stemProgress binary32 earlyStem 1250) = true := by
    rw [hprog, ofRat_one]
    intro h
    have h1 : (1 : ℚ) ≤ 1 / 2 := of_decide_eq_true h
    norm_num at h1
  have hnew : stemNewLed binary32 earlyStem 1250 = 150 := by
    unfold stemNewLed
    rw [hprog, hcount]
    have h300 : binary32.ofInt 300 = B32.fin 300 := by
      show B32.ofRat ((300 : Int) : ℚ) = _
      norm_num
      exact ofRat_300
    rw [h300]
    have hmul : binary32.mul (B32.fin (1 / 2)) (B32.fin 300) = B32.fin ((150 : Int) : ℚ) := by
      show B32.ofRat (1 / 2 * 300) = _
      norm_num
      exact ofRat_repr 150 150 0 (by norm_num) (by norm_num) (by norm_num) (by norm_num)
    rw [hmul]
    show wrap16 (truncQ ((⌊((150 : Int) : ℚ)⌋ : Int) : ℚ)) = 150
    rw [truncQ_intCast, Int.floor_intCast]
    rfl
  exact ⟨hden, hprog, hnew,
    runStemRising_binary32_false earlyStem 1250 (by rw [hcount]; norm_num)
      (by rw [hcount]; norm_num) hden hlt⟩

/-- Witness of the amended C10: in binary32, with the last beat at 1000 ms and
60 BPM on the strip of 300 pixels, `nextBeat` is 1500; the call at 1500 ms
returns true with the strip cleared and the index at 0, the call at 1250 ms
returns false. -/
theorem stem_completion_witness :
    stemNextBeat binary32 earlyStem = 1500 ∧ (runStemRising binary32 earlyStem 1500).1 = true ∧
    (runStemRising binary32 earlyStem 1500).2.currentStripLed = 0 ∧
    (∀ c ∈ (runStemRising binary32 earlyStem 1500).2.pixels, c = black) ∧
    (runStemRising binary32 earlyStem 1250).1 = false := by
  obtain ⟨hcount, hlen, _, _, hlast, _⟩ := earlyStem_facts
  obtain ⟨hden, hprog, _, _⟩ := earlyStem_call
  have hm : millis 1500 = 1500 := millis_small _ (by norm_num)
  have htest := (stem_completion binary32 earlyStem earlyStem 1500).2.2.1
    (by rw [hm, stemNextBeat_earlyStem])
    (by rw [hm, hlast, usub_of_le _ _ (by norm_num) (by norm_num)]; norm_num)
  have hdone := (stem_completion binary32 earlyStem earlyStem 1500).1
    (by rw [hcount, hlen]; rfl) (by rw [hlen]; norm_num) htest
  have hlt : ¬ binary32.le (binary32.ofRat 1) (stemProgress binary32 earlyStem 1250) = true := by
    rw [hprog, ofRat_one]
    intro h
    have h1 : (1 : ℚ) ≤ 1 / 2 := of_decide_eq_true h
    norm_num at h1
  exact ⟨stemNextBeat_earlyStem, hdone.1, hdone.2.1, hdone.2.2.1,
    (stem_completion binary32 earlyStem earlyStem 1250).2.2.2 (by rw [hcount]; norm_num)
      (by rw [hcount]; norm_num) hden hlt⟩

/-- C20: in the binary32 arithmetic of the target, in every state of the stem
that calls of `newHeartbeat` and `runStemRising` reach from a cleared strip
with `currentStripLed = 0` (any clock readings, beat times and BPM between
the calls, progress with a nonzero denominator), every pixel whose colour is
not (0,0,0) has its index between `currentStripLed - STEM_PULSE_WIDTH` and
`currentStripLed + STEM_PULSE_WIDTH - 1`. -/
theorem stem_window_invariant (s : State binary32.F) (h : StemReachable binary32 s) :
    ∀ (p : Nat) (c : Colour), s.pixels[p]? = some c → c ≠ black →
      s.currentStripLed - STEM_PULSE_WIDTH ≤ (p : Int) ∧
      (p : Int) ≤ s.currentStripLed + STEM_PULSE_WIDTH - 1 :=
  (stemReachable_window binary32 stemNewLed_binary32 s h).2.2

/-- Witness of C20: the stem `earlyStem` after the call at 1250 ms, which
moves the pulse to the index 150: the lit pixels are among 130 to 169. -/
theorem stem_window_invariant_witness :
    StemReachable binary32 (runStemRising binary32 earlyStem 1250).2 ∧
    (runStemRising binary32 earlyStem 1250).2.currentStripLed = 150 ∧
    (∀ (p : Nat) (c : Colour), (runStemRising binary32 earlyStem 1250).2.pixels[p]? = some c →
      c ≠ black → (130 : Int) ≤ (p : Int) ∧ (p : Int) ≤ 169) := by
  obtain ⟨hcount, hlen, hcur, hblack, _, _⟩ := earlyStem_facts
  obtain ⟨hden, _, hnew, hfalse⟩ := earlyStem_call
  have hstart : StemReachable binary32 earlyStem :=
    StemReachable.start earlyStem (by rw [hcount, hlen]; rfl) (by rw [hlen]; norm_num) hblack
      hcur
  have hr := StemReachable.step earlyStem 1250 hstart hden
  have h150 : (runStemRising binary32 earlyStem 1250).2.currentStripLed = 150 := by
    rw [((runStemRising_snd binary32 earlyStem 1250).2.2 hfalse).1, hnew]
  refine ⟨hr, h150, ?_⟩
  intro p c hp hc
  have h := stem_window_invariant _ hr p c hp hc
  rw [h150] at h
  unfold STEM_PULSE_WIDTH at h
  omega

end PulseBloom
